import Mathlib

/-!
# jank: translation of function definitions, the translate driver and the expression model

A shallow embedding of

* `src/src/jank/translate/environment/special/function.cpp` (`special::function`),
* `src/include/jank/translate/translate.hpp` (`translate`),
* `src/compiler+runtime/include/cpp/jank/analyze/expression_base.hpp` (`is_statement`,
  `expression_base`),
* `src/compiler+runtime/include/cpp/jank/analyze/expression.hpp` (`expression::value_type`,
  `expression::get_base`),
* `src/compiler+runtime/test/cpp/jank/jit/processor.cpp` (the file harness of the jit
  tests),
* `src/src/cpp/jank/runtime/obj/range.cpp` (`obj::range`),
* `src/compiler+runtime/src/cpp/jank/util/cli.cpp` (`cli::parse`),
* `src/compiler+runtime/include/cpp/jank/native_box.hpp` (`native_box`),

and a model, from the specification, of the reader of map literals and of the analyzer of
the special forms, whose code is outside the sources at hand.

Scopes are shared, mutable objects in the C++ code (`std::shared_ptr<scope>`), so the
embedding passes a heap of scopes explicitly.  An exception does not undo the writes made
before it, so every stateful operation returns its result (or the exception) together with
the heap it leaves behind.
-/

namespace jank

/-! ## The expression model (`jank::analyze`) -/

namespace analyze

/-- The enumeration `expression_type` of expression_base.hpp lines 5 to 10. -/
inductive expression_type where
  | expression
  | statement
  | return_statement
  deriving DecidableEq, Repr

/-- The function `is_statement` of expression_base.hpp lines 12 to 15. -/
def is_statement (expr_type : expression_type) : Bool :=
  expr_type != expression_type.expression

/-- The alternatives of the variant `expression::value_type` of expression.hpp lines 30
to 46, in the order of the declaration.  The alternatives `expr::def` and `expr::let` are
written `def_` and `let_`. -/
inductive expression_kind where
  | def_
  | var_deref
  | var_ref
  | call
  | primitive_literal
  | vector
  | map
  | set
  | function
  | recur
  | local_reference
  | let_
  | do_
  | if_
  | throw_
  | try_
  | native_raw
  deriving DecidableEq, Repr

/-- The alternatives of `expression::value_type`, listed in the order of the declaration. -/
def expression_kind.alternatives : List expression_kind :=
  [.def_, .var_deref, .var_ref, .call, .primitive_literal, .vector, .map, .set, .function,
   .recur, .local_reference, .let_, .do_, .if_, .throw_, .try_, .native_raw]

/-- The position of an alternative in the variant, as `which()` reports it. -/
def expression_kind.which : expression_kind → Nat
  | .def_ => 0
  | .var_deref => 1
  | .var_ref => 2
  | .call => 3
  | .primitive_literal => 4
  | .vector => 5
  | .map => 6
  | .set => 7
  | .function => 8
  | .recur => 9
  | .local_reference => 10
  | .let_ => 11
  | .do_ => 12
  | .if_ => 13
  | .throw_ => 14
  | .try_ => 15
  | .native_raw => 16

/-- The name of the struct of an alternative in namespace `expr`, without the underscore
that keeps `do_`, `if_`, `throw_` and `try_` apart from the C++ keywords. -/
def expression_kind.kind_name : expression_kind → String
  | .def_ => "def"
  | .var_deref => "var_deref"
  | .var_ref => "var_ref"
  | .call => "call"
  | .primitive_literal => "primitive_literal"
  | .vector => "vector"
  | .map => "map"
  | .set => "set"
  | .function => "function"
  | .recur => "recur"
  | .local_reference => "local_reference"
  | .let_ => "let"
  | .do_ => "do"
  | .if_ => "if"
  | .throw_ => "throw"
  | .try_ => "try"
  | .native_raw => "native_raw"

/-- The node kinds as section 3 of the specification lists them. -/
def spec_kinds : List String :=
  ["def", "var_deref", "var_ref", "call", "primitive_literal", "vector", "map", "set",
   "function", "recur", "local_reference", "let", "do", "if", "throw", "try", "native_raw"]

end analyze

/-! ## Forms (`jank::runtime` objects as the reader returns them) -/

namespace runtime

/-- Modelled from the spec: a form, the parsed syntactic unit of the glossary (symbol,
literal, or composite list, vector, map or set); the runtime object headers are not among
the sources.  A map holds its keys and values in one flat sequence, as the reader tests
build `persistent_array_map`.  Real numbers are left out. -/
inductive object where
  | nil
  | boolean (data : Bool)
  | integer (data : Int)
  | string (data : String)
  | keyword (name : String)
  | symbol (name : String)
  | list (data : List object)
  | vector (data : List object)
  | map (data : List object)
  | set (data : List object)

mutual
/-- Modelled from the spec: a form is fit for the analyzer when every map literal in it,
at any depth, has an even number of element forms (section 8, last scenario). -/
def object.even_maps : object → Bool
  | .list data => object.all_even_maps data
  | .vector data => object.all_even_maps data
  | .map data => data.length % 2 == 0 && object.all_even_maps data
  | .set data => object.all_even_maps data
  | _ => true
/-- Modelled from the spec: `even_maps` for every form of a sequence. -/
def object.all_even_maps : List object → Bool
  | [] => true
  | o :: rest => o.even_maps && object.all_even_maps rest
end

end runtime

/-! ## The reader (`jank::read::parse::processor`) -/

namespace read

open runtime

/-- Modelled from the spec: the tokens the lexer hands to the reader (the lexer is an
external collaborator, section 6): the delimiters of lists, vectors, maps and sets, the
quote, and the atoms. -/
inductive token where
  | open_paren
  | close_paren
  | open_square_bracket
  | close_square_bracket
  | open_curly_bracket
  | close_curly_bracket
  | open_set
  | single_quote
  | nil
  | boolean (data : Bool)
  | integer (data : Int)
  | string (data : String)
  | keyword (name : String)
  | symbol (name : String)
  deriving DecidableEq, Repr

/-- Modelled from the spec: what an opening token has opened and a closing token is
still to close. -/
inductive delimiter where
  | paren
  | square
  | curly
  | set
  | quote
  deriving DecidableEq, Repr

/-- Modelled from the spec: a form the reader has begun: its delimiter and the element
forms read so far, the last one first. -/
structure pending where
  kind : delimiter
  items : List object

/-- Modelled from the spec: the error of the reader for a map literal with an odd number
of element forms (section 8: `{1 2 3}` is rejected by the reader). -/
def odd_map : String := "odd number of forms in map literal"

/-- Modelled from the spec: the form a closing token completes; a map literal with an odd
number of element forms is an error. -/
def close_collection (kind : delimiter) (items : List object) : Except String object :=
  match kind with
  | .paren => .ok (.list items.reverse)
  | .square => .ok (.vector items.reverse)
  | .curly => if items.length % 2 = 1 then .error odd_map else .ok (.map items.reverse)
  | .set => .ok (.set items.reverse)
  | .quote => .error "nothing to quote"

/-- Modelled from the spec: a completed form is the result of `next()` when nothing is
open (`inl`); under a quote it becomes `(quote form)`; otherwise it is the next element of
the innermost open form (`inr`, the new stack). -/
def deliver (o : object) : List pending → object ⊕ List pending
  | [] => .inl o
  | ⟨.quote, _⟩ :: stack => deliver (.list [.symbol "quote", o]) stack
  | ⟨kind, items⟩ :: stack => .inr (⟨kind, o :: items⟩ :: stack)

/-- Modelled from the spec: which closing token closes which open form. -/
def closes (t : token) (kind : delimiter) : Bool :=
  match t, kind with
  | .close_paren, .paren => true
  | .close_square_bracket, .square => true
  | .close_curly_bracket, .curly => true
  | .close_curly_bracket, .set => true
  | _, _ => false

/-- Modelled from the spec: the delimiter an opening token opens. -/
def token.opens : token → Option delimiter
  | .open_paren => some .paren
  | .open_square_bracket => some .square
  | .open_curly_bracket => some .curly
  | .open_set => some .set
  | .single_quote => some .quote
  | _ => none

/-- Modelled from the spec: the form of an atom token. -/
def token.atom : token → Option object
  | .nil => some .nil
  | .boolean b => some (.boolean b)
  | .integer n => some (.integer n)
  | .string s => some (.string s)
  | .keyword k => some (.keyword k)
  | .symbol s => some (.symbol s)
  | _ => none

/-- Modelled from the spec: the reader at work with the forms in `stack` open.  The
result is that of `next()`: a form, nothing at the end of the input (the null object of
the tests), or an error; with it come the tokens left for the following call. -/
def read_tokens (stack : List pending) :
    List token → Except String (Option object) × List token
  | [] =>
    match stack with
    | [] => (.ok none, [])
    | _ :: _ => (.error "unterminated form", [])
  | t :: rest =>
    match t.opens with
    | some kind => read_tokens (⟨kind, []⟩ :: stack) rest
    | none =>
      match t.atom with
      | some o =>
        match deliver o stack with
        | .inl done => (.ok (some done), rest)
        | .inr stack1 => read_tokens stack1 rest
      | none =>
        match stack with
        | [] => (.error "unexpected closing token", rest)
        | ⟨kind, items⟩ :: below =>
          if closes t kind then
            match close_collection kind items with
            | .error e => (.error e, rest)
            | .ok o =>
              match deliver o below with
              | .inl done => (.ok (some done), rest)
              | .inr stack1 => read_tokens stack1 rest
          else (.error "mismatched closing token", rest)

/-- Modelled from the spec: `processor::next()`, the reader called on the tokens not yet
consumed. -/
def next (tokens : List token) : Except String (Option object) × List token :=
  read_tokens [] tokens

/-- Modelled from the spec: what reading goes on with once a form is complete. -/
def resume (o : object) (stack : List pending) (rest : List token) :
    Except String (Option object) × List token :=
  match deliver o stack with
  | .inl done => (.ok (some done), rest)
  | .inr stack1 => read_tokens stack1 rest

mutual
/-- Modelled from the spec: the tokens of the text of a form. -/
def tokens_of : object → List token
  | .nil => [.nil]
  | .boolean b => [.boolean b]
  | .integer n => [.integer n]
  | .string s => [.string s]
  | .keyword k => [.keyword k]
  | .symbol s => [.symbol s]
  | .list data => .open_paren :: (tokens_of_all data ++ [.close_paren])
  | .vector data => .open_square_bracket :: (tokens_of_all data ++ [.close_square_bracket])
  | .map data => .open_curly_bracket :: (tokens_of_all data ++ [.close_curly_bracket])
  | .set data => .open_set :: (tokens_of_all data ++ [.close_curly_bracket])
/-- Modelled from the spec: the tokens of the texts of a sequence of forms. -/
def tokens_of_all : List object → List token
  | [] => []
  | o :: rest => tokens_of o ++ tokens_of_all rest
end

/-- The open forms of a stack hold only forms whose maps are even. -/
def stack_even (stack : List pending) : Prop :=
  ∀ p ∈ stack, object.all_even_maps p.items = true

end read

/-! ## The analyzer (`jank::analyze`) -/

namespace analyze

open runtime

/-- Modelled from the spec: the metadata of a binding of a frame (section 4.1): its name
and whether it is a function parameter or a local binding. -/
structure local_binding where
  name : String
  is_parameter : Bool
  deriving DecidableEq, Repr

/-- Modelled from the spec: the local frame of section 3, one lexical scope: whether it
is a function boundary, and then the arity that `recur` targets, whether it is a `try`
boundary, its bindings, and the optional parent frame. -/
inductive local_frame where
  | mk (function_arity : Option Nat) (is_try_boundary : Bool) (bindings : List local_binding)
      (parent : Option local_frame)

/-- Modelled from the spec: the bindings a frame holds itself. -/
def local_frame.bindings : local_frame → List local_binding
  | .mk _ _ bindings _ => bindings

/-- Modelled from the spec: the parent of a frame. -/
def local_frame.parent : local_frame → Option local_frame
  | .mk _ _ _ parent => parent

/-- Modelled from the spec: `is_function_boundary()` of section 4.1. -/
def local_frame.is_function_boundary : local_frame → Bool
  | .mk function_arity _ _ _ => function_arity.isSome

/-- Modelled from the spec: `is_try_boundary()` of section 4.1. -/
def local_frame.is_try_boundary : local_frame → Bool
  | .mk _ is_try_boundary _ _ => is_try_boundary

/-- Modelled from the spec: frame creation (section 4.1), a fresh child of `parent`
without bindings. -/
def local_frame.child (parent : local_frame) (function_arity : Option Nat)
    (is_try_boundary : Bool) : local_frame :=
  .mk function_arity is_try_boundary [] (some parent)

/-- Modelled from the spec: `declare(name, binding_info)` of section 4.1: it fails
(`none`, the `DuplicateBindingError`) when the name is declared in this frame already;
ancestor frames are not looked at. -/
def local_frame.declare (frame : local_frame) (binding : local_binding) :
    Option local_frame :=
  match frame with
  | .mk function_arity is_try_boundary bindings parent =>
    if bindings.any (fun b => b.name == binding.name) then none
    else some (.mk function_arity is_try_boundary (bindings ++ [binding]) parent)

/-- Modelled from the spec: the search of `resolve(name)` through the frames (section 3):
from the innermost frame to the outermost, stopping at the first binding found. -/
def local_frame.find : local_frame → String → Option local_binding
  | .mk _ _ bindings parent, name =>
    match bindings.find? (fun b => b.name == name) with
    | some b => some b
    | none =>
      match parent with
      | some p => p.find name
      | none => none

/-- Modelled from the spec: the target of a `recur` (section 3): the arity of the
innermost enclosing function boundary, if there is one. -/
def local_frame.recur_target : local_frame → Option Nat
  | .mk (some arity) _ _ _ => some arity
  | .mk none _ _ (some p) => p.recur_target
  | .mk none _ _ none => none

/-- The struct `expression_base` of expression_base.hpp lines 18 to 32, with the default
member initialisers of lines 29 to 31: a value-initialised `expr_type` is the first
enumerator, a value-initialised `frame` is the null pointer, `needs_box` is true.  The
frame a non-null `local_frame_ptr` points to is given by its value. -/
structure expression_base where
  expr_type : expression_type := .expression
  frame : Option local_frame := none
  needs_box : Bool := true

/-- The type `expression_base_ptr` of expression_base.hpp line 34, a
`native_box<expression_base>`: the null pointer (`none`), or a pointer to a base record,
given by the record it points to. -/
structure expression_base_ptr where
  data : Option expression_base

/-- Modelled from the spec: one arity of a function node (section 3): the parameter
bindings, whether the arity is variadic, the analyzed body and the frame of the arity. -/
structure function_arity_data (E : Type) where
  params : List String
  is_variadic : Bool
  body : List E
  frame : local_frame

/-- Modelled from the spec: one catch clause of a `try` node (section 4.3): the binding of
the caught value and the analyzed body. -/
structure catch_data (E : Type) where
  name : String
  body : List E

/-- Modelled from the spec: the expression node.  The alternatives are those of the
variant `expression::value_type` of expression.hpp lines 30 to 46, in its order; every
alternative derives from `expression_base`, which is the first field here; the other
members are declared in headers outside the sources and follow section 3. -/
inductive expression where
  | def_ (base : expression_base) (name : String) (value : expression)
  | var_deref (base : expression_base) (name : String)
  | var_ref (base : expression_base) (name : String)
  | call (base : expression_base) (source : expression) (args : List object)
      (arg_exprs : List expression)
  | primitive_literal (base : expression_base) (data : object)
  | vector (base : expression_base) (data_exprs : List expression)
  | map (base : expression_base) (data_exprs : List expression)
  | set (base : expression_base) (data_exprs : List expression)
  | function (base : expression_base) (name : Option String)
      (arities : List (function_arity_data expression))
  | recur (base : expression_base) (args : List object) (arg_exprs : List expression)
  | local_reference (base : expression_base) (binding : local_binding)
  | let_ (base : expression_base) (names : List String) (values : List expression)
      (body : List expression)
  | do_ (base : expression_base) (body : List expression)
  | if_ (base : expression_base) (condition : expression) (then_ : expression)
      (else_ : expression)
  | throw_ (base : expression_base) (value : expression)
  | try_ (base : expression_base) (body : List expression)
      (catches : List (catch_data expression)) (finally_ : Option (List expression))
  | native_raw (base : expression_base) (chunks : List object)

/-- The alternative an expression holds. -/
def expression.kind : expression → expression_kind
  | .def_ .. => .def_
  | .var_deref .. => .var_deref
  | .var_ref .. => .var_ref
  | .call .. => .call
  | .primitive_literal .. => .primitive_literal
  | .vector .. => .vector
  | .map .. => .map
  | .set .. => .set
  | .function .. => .function
  | .recur .. => .recur
  | .local_reference .. => .local_reference
  | .let_ .. => .let_
  | .do_ .. => .do_
  | .if_ .. => .if_
  | .throw_ .. => .throw_
  | .try_ .. => .try_
  | .native_raw .. => .native_raw

/-- The visitor of expression.hpp lines 64 and 65 applied to the held node: `typed_ex` is
the node of whichever alternative is held, and `&typed_ex`, converted to a pointer to
`expression_base`, points to its base. -/
def expression.visit_base : expression → expression_base
  | .def_ base .. => base
  | .var_deref base .. => base
  | .var_ref base .. => base
  | .call base .. => base
  | .primitive_literal base .. => base
  | .vector base .. => base
  | .map base .. => base
  | .set base .. => base
  | .function base .. => base
  | .recur base .. => base
  | .local_reference base .. => base
  | .let_ base .. => base
  | .do_ base .. => base
  | .if_ base .. => base
  | .throw_ base .. => base
  | .try_ base .. => base
  | .native_raw base .. => base

/-- The member `expression::get_base` of expression.hpp lines 62 to 66: the box made from
the pointer the visitor returns. -/
def expression.get_base (e : expression) : expression_base_ptr :=
  { data := some e.visit_base }

/-- A write through the pointer `get_base` returns: the pointer is into the expression,
so the base of the held node is replaced and the node is otherwise as it was. -/
def expression.update_base (f : expression_base → expression_base) : expression → expression
  | .def_ base name value => .def_ (f base) name value
  | .var_deref base name => .var_deref (f base) name
  | .var_ref base name => .var_ref (f base) name
  | .call base source args arg_exprs => .call (f base) source args arg_exprs
  | .primitive_literal base data => .primitive_literal (f base) data
  | .vector base data_exprs => .vector (f base) data_exprs
  | .map base data_exprs => .map (f base) data_exprs
  | .set base data_exprs => .set (f base) data_exprs
  | .function base name arities => .function (f base) name arities
  | .recur base args arg_exprs => .recur (f base) args arg_exprs
  | .local_reference base binding => .local_reference (f base) binding
  | .let_ base names values body => .let_ (f base) names values body
  | .do_ base body => .do_ (f base) body
  | .if_ base condition then_ else_ => .if_ (f base) condition then_ else_
  | .throw_ base value => .throw_ (f base) value
  | .try_ base body catches finally_ => .try_ (f base) body catches finally_
  | .native_raw base chunks => .native_raw (f base) chunks

/-- The read `get_base()->needs_box`. -/
def expression.needs_box (e : expression) : Bool :=
  e.visit_base.needs_box

/-- The read `get_base()->expr_type`. -/
def expression.expr_type (e : expression) : expression_type :=
  e.visit_base.expr_type

/-- Modelled from the spec: the error taxonomy of section 7. -/
inductive error_kind where
  | syntax_shape
  | duplicate_binding
  | unresolved_symbol
  | arity_mismatch
  | illegal_recur
  | illegal_shadow
  deriving DecidableEq, Repr

/-- Modelled from the spec: `AnalysisError{reason, form}` of section 4.2. -/
structure analysis_error where
  reason : error_kind
  form : object

/-- Modelled from the spec: the result of an analysis: an error, or what was built
together with the names declared in the global var namespace (section 6); an error
leaves no declaration behind (section 7). -/
abbrev analysis (α : Type) := Except analysis_error (α × List String)

/-- Modelled from the spec: the special operators of section 4.3. -/
inductive special where
  | def_
  | let_
  | do_
  | if_
  | throw_
  | try_
  | fn
  | recur
  | native_raw
  deriving DecidableEq, Repr

/-- Modelled from the spec: the special operator a name stands for. -/
def special.named (name : String) : Option special :=
  if name = "def" then some .def_
  else if name = "let" then some .let_
  else if name = "do" then some .do_
  else if name = "if" then some .if_
  else if name = "throw" then some .throw_
  else if name = "try" then some .try_
  else if name = "fn" then some .fn
  else if name = "recur" then some .recur
  else if name = "native_raw" then some .native_raw
  else none

/-- Modelled from the spec: the special operator the head of a list names (section 4.2). -/
def special.of : object → Option special
  | .symbol name => special.named name
  | _ => none

/-- Modelled from the spec: is the head of a special form the name of a local binding of
the frame chain?  Such a use is an error at the use site (section 4.2). -/
def special.shadowed (head : object) (frame : local_frame) : Bool :=
  match head with
  | .symbol name => (frame.find name).isSome
  | _ => false

/-- Modelled from the spec: the primitive literals of scalar kind (section 4.4). -/
def is_scalar : object → Bool
  | .boolean _ => true
  | .integer _ => true
  | _ => false

/-- Modelled from the spec: the node of a literal (sections 4.2 and 4.4): boxed, unless
it is of scalar kind and its value is discarded in statement context. -/
def literal (data : object) (frame : local_frame) (context : expression_type) : expression :=
  .primitive_literal
    { expr_type := context, frame := some frame,
      needs_box := !(is_scalar data && context == .statement) } data

/-- Modelled from the spec: a node forced boxed by its consumer (section 4.4). -/
def force_box (e : expression) : expression :=
  e.update_base (fun b => { b with needs_box := true })

/-- Modelled from the spec: the reconciliation rule for `if` (section 4.4): if either
branch is boxed, both branches are boxed. -/
def reconcile (then_ else_ : expression) : expression × expression :=
  if then_.needs_box || else_.needs_box then (force_box then_, force_box else_)
  else (then_, else_)

/-- Modelled from the spec: the analysis of a symbol (sections 3 and 4.1): a binding of
the frame chain, else a var of the global namespace, else the unresolved symbol error. -/
def resolve_symbol (name : String) (frame : local_frame) (context : expression_type)
    (vars : List String) : Except error_kind expression :=
  match frame.find name with
  | some binding =>
    .ok (.local_reference { expr_type := context, frame := some frame } binding)
  | none =>
    if vars.contains name then
      .ok (.var_deref { expr_type := context, frame := some frame } name)
    else .error .unresolved_symbol

/-- Modelled from the spec: `declare(name)` of the global var namespace (section 6). -/
def declare_var (name : String) (vars : List String) : List String :=
  if vars.contains name then vars else vars ++ [name]

/-- Modelled from the spec: the parameters of an arity (section 3): symbols, the last of
which may follow `&` and then makes the arity variadic. -/
def parse_params : List object → Option (List String × Bool)
  | [] => some ([], false)
  | [.symbol amp, .symbol name] =>
    if amp = "&" then (if name = "&" then none else some ([name], true))
    else if name = "&" then none
    else some ([amp, name], false)
  | .symbol name :: rest =>
    if name = "&" then none
    else
      match parse_params rest with
      | some (names, variadic) => some (name :: names, variadic)
      | none => none
  | _ => none

/-- Modelled from the spec: the fresh child frame of an arity (section 3): a function
boundary whose arity is the number of parameter bindings. -/
def function_frame (frame : local_frame) (params : List String) : local_frame :=
  .mk (some params.length) false (params.map (fun p => ⟨p, true⟩)) (some frame)

/-- Modelled from the spec: the clauses of a `try` (section 4.3). -/
inductive try_clause where
  | catch_
  | finally_
  deriving DecidableEq, Repr

/-- Modelled from the spec: the clause a form of a `try` is, if it is one. -/
def try_clause.of : object → Option try_clause
  | .list (.symbol name :: _) =>
    if name = "catch" then some .catch_
    else if name = "finally" then some .finally_
    else none
  | _ => none

/-- Modelled from the spec: is the next form of a `try` another form of the protected
body? -/
def body_continues : List object → Bool
  | [] => false
  | form :: _ => (try_clause.of form).isNone

/-- Modelled from the spec: does an arity take `count` arguments? -/
def accepts (arity : function_arity_data expression) (count : Nat) : Bool :=
  if arity.is_variadic then arity.params.length - 1 ≤ count else arity.params.length = count

/-- Modelled from the spec: the arity check of a call (section 3), made where the callee
is statically known, which here is a function node. -/
def check_call (source : expression) (count : Nat) : Bool :=
  match source with
  | .function _ _ arities => arities.any (fun a => accepts a count)
  | _ => true

/-- Modelled from the spec: at most one arity of a function is variadic (section 4.3). -/
def one_variadic (arities : List (function_arity_data expression)) : Bool :=
  (arities.filter (fun a => a.is_variadic)).length ≤ 1

/-- Modelled from the spec: the parameter names of an arity (section 4.3): they must be
unique within the arity. -/
def arity_names (params : List object) : Except analysis_error (List String × Bool) :=
  match parse_params params with
  | none => .error ⟨.syntax_shape, .vector params⟩
  | some (names, variadic) =>
    if names.Nodup then .ok (names, variadic)
    else .error ⟨.duplicate_binding, .vector params⟩

/-- Modelled from the spec: the arity made of its parameters, its frame and its analyzed
body (section 3). -/
def make_arity (names : List String) (variadic : Bool) (frame : local_frame)
    (body : analysis (List expression)) : analysis (function_arity_data expression) :=
  match body with
  | .error e => .error e
  | .ok (body1, vars1) => .ok (⟨names, variadic, body1, frame⟩, vars1)

set_option linter.dupNamespace false in
mutual
/-- Modelled from the spec: `analyze(form, frame, context)` of section 4.2, with the names
declared in the global var namespace passed along: a list whose head names a special
operator goes to the handler of the operator, any other non-empty list is a call, and
everything else is a leaf or an aggregate.  The handlers of `do`, `try`, `recur` and
`native_raw` are written out here.  `recur` (section 4.3) requires an enclosing function
boundary, an argument count that matches its arity exactly, and return statement
context; its arguments are analyzed in expression context. -/
def analyze (form : object) (frame : local_frame) (context : expression_type)
    (vars : List String) : analysis expression :=
  match form with
  | .nil => .ok (literal .nil frame context, vars)
  | .boolean b => .ok (literal (.boolean b) frame context, vars)
  | .integer n => .ok (literal (.integer n) frame context, vars)
  | .string s => .ok (literal (.string s) frame context, vars)
  | .keyword k => .ok (literal (.keyword k) frame context, vars)
  | .symbol name =>
    match resolve_symbol name frame context vars with
    | .ok e => .ok (e, vars)
    | .error k => .error ⟨k, .symbol name⟩
  | .vector data =>
    match analyze_all data frame vars with
    | .error e => .error e
    | .ok (exprs, vars1) =>
      .ok (.vector { expr_type := context, frame := some frame } exprs, vars1)
  | .map data =>
    if data.length % 2 = 1 then .error ⟨.syntax_shape, .map data⟩
    else
      match analyze_all data frame vars with
      | .error e => .error e
      | .ok (exprs, vars1) =>
        .ok (.map { expr_type := context, frame := some frame } exprs, vars1)
  | .set data =>
    match analyze_all data frame vars with
    | .error e => .error e
    | .ok (exprs, vars1) =>
      .ok (.set { expr_type := context, frame := some frame } exprs, vars1)
  | .list [] => .ok (literal (.list []) frame context, vars)
  | .list (head :: tail) =>
    match special.of head with
    | some operator =>
      if special.shadowed head frame then .error ⟨.illegal_shadow, .list (head :: tail)⟩
      else
        match operator with
        | .def_ => analyze_def head tail frame context vars
        | .let_ => analyze_let head tail frame context vars
        | .do_ =>
          match analyze_body tail frame context vars with
          | .error e => .error e
          | .ok (body, vars1) =>
            .ok (.do_ { expr_type := context, frame := some frame } body, vars1)
        | .if_ => analyze_if head tail frame context vars
        | .throw_ => analyze_throw head tail frame context vars
        | .try_ =>
          match analyze_try tail frame context vars false with
          | .error e => .error e
          | .ok ((body, catches, finally_), vars1) =>
            .ok (.try_ { expr_type := context, frame := some frame } body catches finally_,
              vars1)
        | .fn => analyze_fn head tail frame context vars
        | .recur =>
          match frame.recur_target with
          | none => .error ⟨.illegal_recur, .list (head :: tail)⟩
          | some arity =>
            if tail.length ≠ arity then .error ⟨.arity_mismatch, .list (head :: tail)⟩
            else if context ≠ .return_statement then
              .error ⟨.illegal_recur, .list (head :: tail)⟩
            else
              match analyze_all tail frame vars with
              | .error e => .error e
              | .ok (exprs, vars1) =>
                .ok (.recur { expr_type := context, frame := some frame } tail exprs, vars1)
        | .native_raw =>
          .ok (.native_raw { expr_type := context, frame := some frame } tail, vars)
    | none =>
      match analyze head frame .expression vars with
      | .error e => .error e
      | .ok (source, vars1) =>
      match analyze_all tail frame vars1 with
      | .error e => .error e
      | .ok (exprs, vars2) =>
        if check_call source tail.length then
          .ok (.call { expr_type := context, frame := some frame } source tail exprs, vars2)
        else .error ⟨.arity_mismatch, .list (head :: tail)⟩
termination_by structural form
/-- Modelled from the spec: the handler of `def` (section 4.3): a symbol and exactly one
value form; the var is declared before the value is analyzed, in expression context. -/
def analyze_def (head : object) (tail : List object) (frame : local_frame)
    (context : expression_type) (vars : List String) : analysis expression :=
  match tail with
  | [.symbol name, value] =>
    match analyze value frame .expression (declare_var name vars) with
    | .error e => .error e
    | .ok (v1, vars1) =>
      .ok (.def_ { expr_type := context, frame := some frame } name v1, vars1)
  | _ => .error ⟨.syntax_shape, .list (head :: tail)⟩
termination_by structural tail
/-- Modelled from the spec: the handler of `let` (section 4.3): a binding list of even
count and a body; one child frame; the body is a sequence whose last form inherits the
context. -/
def analyze_let (head : object) (tail : List object) (frame : local_frame)
    (context : expression_type) (vars : List String) : analysis expression :=
  match tail with
  | .vector bindings :: body =>
    if bindings.length % 2 = 1 then .error ⟨.syntax_shape, .list (head :: tail)⟩
    else
      match analyze_bindings bindings (frame.child none false) vars with
      | .error e => .error e
      | .ok ((names, values, frame1), vars1) =>
      match analyze_body body frame1 context vars1 with
      | .error e => .error e
      | .ok (body1, vars2) =>
        .ok (.let_ { expr_type := context, frame := some frame } names values body1, vars2)
  | _ => .error ⟨.syntax_shape, .list (head :: tail)⟩
termination_by structural tail
/-- Modelled from the spec: the handler of `if` (section 4.3): a test, a then-branch and
an optional else-branch that defaults to the node of `nil`; the test is analyzed in
expression context, the branches inherit the context and are reconciled for boxing. -/
def analyze_if (head : object) (tail : List object) (frame : local_frame)
    (context : expression_type) (vars : List String) : analysis expression :=
  match tail with
  | [condition, then_] =>
    match analyze condition frame .expression vars with
    | .error e => .error e
    | .ok (c1, vars1) =>
    match analyze then_ frame context vars1 with
    | .error e => .error e
    | .ok (t1, vars2) =>
      .ok (.if_ { expr_type := context, frame := some frame } c1
        (reconcile t1 (literal .nil frame context)).1
        (reconcile t1 (literal .nil frame context)).2, vars2)
  | [condition, then_, else_] =>
    match analyze condition frame .expression vars with
    | .error e => .error e
    | .ok (c1, vars1) =>
    match analyze then_ frame context vars1 with
    | .error e => .error e
    | .ok (t1, vars2) =>
    match analyze else_ frame context vars2 with
    | .error e => .error e
    | .ok (e1, vars3) =>
      .ok (.if_ { expr_type := context, frame := some frame } c1
        (reconcile t1 e1).1 (reconcile t1 e1).2, vars3)
  | _ => .error ⟨.syntax_shape, .list (head :: tail)⟩
termination_by structural tail
/-- Modelled from the spec: the handler of `throw` (section 4.3): exactly one value form,
analyzed in expression context and always boxed. -/
def analyze_throw (head : object) (tail : List object) (frame : local_frame)
    (context : expression_type) (vars : List String) : analysis expression :=
  match tail with
  | [value] =>
    match analyze value frame .expression vars with
    | .error e => .error e
    | .ok (v1, vars1) =>
      .ok (.throw_ { expr_type := context, frame := some frame } (force_box v1), vars1)
  | _ => .error ⟨.syntax_shape, .list (head :: tail)⟩
termination_by structural tail
/-- Modelled from the spec: the handler of `fn` (sections 3 and 4.3): an optional name,
bound in the defining frame before the bodies are analyzed, and one arity (a parameter
vector and a body) or a list of arities, of which at most one is variadic. -/
def analyze_fn (head : object) (tail : List object) (frame : local_frame)
    (context : expression_type) (vars : List String) : analysis expression :=
  match tail with
  | .symbol name :: .vector params :: body =>
    match frame.declare ⟨name, false⟩ with
    | none => .error ⟨.duplicate_binding, .symbol name⟩
    | some frame1 =>
      match arity_names params with
      | .error e => .error e
      | .ok (names, variadic) =>
      match make_arity names variadic (function_frame frame1 names)
          (analyze_body body (function_frame frame1 names) .return_statement vars) with
      | .error e => .error e
      | .ok (arity, vars1) =>
        .ok (.function { expr_type := context, frame := some frame } (some name) [arity],
          vars1)
  | .vector params :: body =>
    match arity_names params with
    | .error e => .error e
    | .ok (names, variadic) =>
    match make_arity names variadic (function_frame frame names)
        (analyze_body body (function_frame frame names) .return_statement vars) with
    | .error e => .error e
    | .ok (arity, vars1) =>
      .ok (.function { expr_type := context, frame := some frame } none [arity], vars1)
  | .symbol name :: arity :: arities =>
    match frame.declare ⟨name, false⟩ with
    | none => .error ⟨.duplicate_binding, .symbol name⟩
    | some frame1 =>
      match analyze_arities (arity :: arities) frame1 vars with
      | .error e => .error e
      | .ok (arities1, vars1) =>
        if one_variadic arities1 then
          .ok (.function { expr_type := context, frame := some frame } (some name) arities1,
            vars1)
        else .error ⟨.syntax_shape, .list (head :: tail)⟩
  | .list (.vector params :: body) :: arities =>
    match arity_names params with
    | .error e => .error e
    | .ok (names, variadic) =>
    match make_arity names variadic (function_frame frame names)
        (analyze_body body (function_frame frame names) .return_statement vars) with
    | .error e => .error e
    | .ok (first, vars1) =>
      match analyze_arities arities frame vars1 with
      | .error e => .error e
      | .ok (more, vars2) =>
        if one_variadic (first :: more) then
          .ok (.function { expr_type := context, frame := some frame } none (first :: more),
            vars2)
        else .error ⟨.syntax_shape, .list (head :: tail)⟩
  | _ => .error ⟨.syntax_shape, .list (head :: tail)⟩
termination_by structural tail
/-- Modelled from the spec: the analysis of argument forms and of the forms nested in an
aggregate literal, each in expression context (section 4.2). -/
def analyze_all (forms : List object) (frame : local_frame) (vars : List String) :
    analysis (List expression) :=
  match forms with
  | [] => .ok ([], vars)
  | form :: rest =>
    match analyze form frame .expression vars with
    | .error e => .error e
    | .ok (e1, vars1) =>
    match analyze_all rest frame vars1 with
    | .error e => .error e
    | .ok (es, vars2) => .ok (e1 :: es, vars2)
termination_by structural forms
/-- Modelled from the spec: the analysis of a sequence of forms (`do`, section 4.3): all
but the last are forced to statement context, the last inherits the context. -/
def analyze_body (forms : List object) (frame : local_frame) (context : expression_type)
    (vars : List String) : analysis (List expression) :=
  match forms with
  | [] => .ok ([], vars)
  | form :: rest =>
    match rest with
    | [] =>
      match analyze form frame context vars with
      | .error e => .error e
      | .ok (e1, vars1) => .ok ([e1], vars1)
    | _ :: _ =>
      match analyze form frame .statement vars with
      | .error e => .error e
      | .ok (e1, vars1) =>
      match analyze_body rest frame context vars1 with
      | .error e => .error e
      | .ok (es, vars2) => .ok (e1 :: es, vars2)
termination_by structural forms
/-- Modelled from the spec: the bindings of a `let` (section 4.3), declared left to right:
the value form of a binding is analyzed, in expression context, in the frame that holds
the bindings declared before it, and then the binding is declared. -/
def analyze_bindings (pairs : List object) (frame : local_frame) (vars : List String) :
    analysis (List String × List expression × local_frame) :=
  match pairs with
  | [] => .ok (([], [], frame), vars)
  | [single] => .error ⟨.syntax_shape, single⟩
  | target :: value :: rest =>
    match target with
    | .symbol name =>
      match analyze value frame .expression vars with
      | .error e => .error e
      | .ok (v1, vars1) =>
        match frame.declare ⟨name, false⟩ with
        | none => .error ⟨.duplicate_binding, target⟩
        | some frame1 =>
          match analyze_bindings rest frame1 vars1 with
          | .error e => .error e
          | .ok ((names, values, frame2), vars2) =>
            .ok ((name :: names, v1 :: values, frame2), vars2)
    | _ => .error ⟨.syntax_shape, target⟩
termination_by structural pairs
/-- Modelled from the spec: the arities of a function of several arities (sections 3 and
4.3): the parameters of an arity are bound in a fresh child frame, and its body is a
sequence that ends in a return statement. -/
def analyze_arities (arities : List object) (frame : local_frame) (vars : List String) :
    analysis (List (function_arity_data expression)) :=
  match arities with
  | [] => .ok ([], vars)
  | arity :: rest =>
    match arity with
    | .list (.vector params :: body) =>
      match arity_names params with
      | .error e => .error e
      | .ok (names, variadic) =>
      match make_arity names variadic (function_frame frame names)
          (analyze_body body (function_frame frame names) .return_statement vars) with
      | .error e => .error e
      | .ok (first, vars1) =>
        match analyze_arities rest frame vars1 with
        | .error e => .error e
        | .ok (more, vars2) => .ok (first :: more, vars2)
    | _ => .error ⟨.syntax_shape, arity⟩
termination_by structural arities
/-- Modelled from the spec: the forms of a `try` (section 4.3): the protected body, a
sequence analyzed in a child frame that is a try boundary, then the catch clauses, each
with the caught value bound in a fresh child frame, then an optional `finally`. -/
def analyze_try (forms : List object) (frame : local_frame) (context : expression_type)
    (vars : List String) (seen_catch : Bool) :
    analysis (List expression × List (catch_data expression) × Option (List expression)) :=
  match forms with
  | [] => .ok (([], [], none), vars)
  | form :: rest =>
    match try_clause.of form with
    | none =>
      if seen_catch then .error ⟨.syntax_shape, form⟩
      else
        match analyze form (frame.child none true)
            (if body_continues rest then .statement else context) vars with
        | .error e => .error e
        | .ok (e1, vars1) =>
          match analyze_try rest frame context vars1 false with
          | .error e => .error e
          | .ok ((body, catches, finally_), vars2) =>
            .ok ((e1 :: body, catches, finally_), vars2)
    | some .catch_ =>
      match form with
      | .list (_ :: .symbol name :: catch_body) =>
        match (frame.child none false).declare ⟨name, false⟩ with
        | none => .error ⟨.duplicate_binding, form⟩
        | some frame1 =>
          match analyze_body catch_body frame1 context vars with
          | .error e => .error e
          | .ok (body1, vars1) =>
            match analyze_try rest frame context vars1 true with
            | .error e => .error e
            | .ok ((body, catches, finally_), vars2) =>
              .ok ((body, ⟨name, body1⟩ :: catches, finally_), vars2)
      | _ => .error ⟨.syntax_shape, form⟩
    | some .finally_ =>
      match form, rest with
      | .list (_ :: finally_body), [] =>
        match analyze_body finally_body frame .statement vars with
        | .error e => .error e
        | .ok (body1, vars1) => .ok (([], [], some body1), vars1)
      | _, _ => .error ⟨.syntax_shape, form⟩
termination_by structural forms
end

/-- Modelled from the spec: the context of the form at position `i` of a sequence of `n`
forms (`do`, section 4.3): statement for all but the last, the context of the sequence
for the last. -/
def body_context (context : expression_type) (n i : Nat) : expression_type :=
  if i + 1 = n then context else .statement

/-- Modelled from the spec: the binding list of a `let` (section 4.3), alternating symbols
and value forms, for the given pairs. -/
def binding_forms (pairs : List (String × object)) : List object :=
  pairs.flatMap (fun p => [.symbol p.1, p.2])

end analyze

/-! ## Forms and frames for evaluating the analyzer on examples -/

namespace analyze
namespace sample

open runtime

/-- A root frame without bindings, as a caller supplies it per compilation unit. -/
def root : local_frame := .mk none false [] none

/-- The frame of the body of a function of one parameter `x` defined at the root. -/
def in_function : local_frame := function_frame root ["x"]

/-- The form `(do 1 (f) 2)`. -/
def do_three : object :=
  .list [.symbol "do", .integer 1, .list [.symbol "f"], .integer 2]

/-- The form `(if true 1 (f))`. -/
def if_mixed : object :=
  .list [.symbol "if", .boolean true, .integer 1, .list [.symbol "f"]]

/-- The form `(if true 1)`. -/
def if_without_else : object :=
  .list [.symbol "if", .boolean true, .integer 1]

/-- The form `(if true 1 nil)`. -/
def if_with_nil : object :=
  .list [.symbol "if", .boolean true, .integer 1, .nil]

/-- The form `(recur x x)`. -/
def recur_twice : object :=
  .list [.symbol "recur", .symbol "x", .symbol "x"]

/-- The form `(fn [x] (recur x x))` of section 8. -/
def fn_recur_twice : object :=
  .list [.symbol "fn", .vector [.symbol "x"], recur_twice]

/-- The form `(let [a 1 b a] b)` of section 8. -/
def let_earlier : object :=
  .list [.symbol "let", .vector [.symbol "a", .integer 1, .symbol "b", .symbol "a"],
    .symbol "b"]

/-- The form `(let [a 1 b c c 2] b)`: the value form of `b` refers to `c`, which the same
`let` binds later. -/
def let_later : object :=
  .list [.symbol "let",
    .vector [.symbol "a", .integer 1, .symbol "b", .symbol "c", .symbol "c", .integer 2],
    .symbol "b"]

/-- The reason of an error, if the analysis ends with one. -/
def reason_of (r : analysis expression) : Option error_kind :=
  match r with
  | .ok _ => none
  | .error e => some e.reason

end sample
end analyze

/-! ## The file harness of the jit tests (`TEST_CASE("files")`) -/

namespace jit

/-- The struct `failure` of processor.cpp lines 29 to 33. -/
structure failure where
  path : String
  error : String
  deriving DecidableEq, Repr

/-- The runtime as the harness uses it, over objects `O` and keywords `K`; a
`runtime::object_ptr` is an `Option O` and a `runtime::obj::keyword_ptr` an `Option K`,
`none` being the null pointer.  The functions are declared in headers outside the
sources and are taken as they are called: `cardinal_result` is the interned keyword
`success` (line 39), `as_object` the conversion of a keyword pointer to an object
pointer, `equal` and `to_string` are `runtime::detail::equal` and
`runtime::detail::to_string`. -/
structure runtime_context (O K : Type) where
  cardinal_result : Option K
  as_object : Option K → Option O
  equal : Option O → Option O → Bool
  to_string : Option O → String

/-- How `__rt_ctx->eval_file` (line 84) ends: with a result, which may be the null
pointer, or with something thrown, told apart as the handlers of lines 110 to 152 do. -/
inductive evaluation (O K : Type) where
  | returned (result : Option O)
  | threw_std_exception (what : String)
  | threw_object (e : Option O)
  | threw_keyword (e : Option K)
  | threw_unknown

/-- The call `boost::algorithm::starts_with(filename, start)`. -/
def starts_with (filename start : String) : Bool :=
  start.toList.isPrefixOf filename.toList

/-- The comparison `runtime::detail::equal(e, cardinal_result)` for an object pointer. -/
def is_cardinal {O K : Type} (rt : runtime_context O K) (e : Option O) : Bool :=
  rt.equal e (rt.as_object rt.cardinal_result)

/-- The body of the loop of processor.cpp for one regular file, lines 56 to 152: the
failures after the file, and the flag `passed`. -/
def test_file {O K : Type} (rt : runtime_context O K) (path filename : String)
    (outcome : evaluation O K) (failures : List failure) : List failure × Bool :=
  let expect_success := starts_with filename "pass-"
  let expect_failure := starts_with filename "fail-"
  let expect_throw := starts_with filename "throw-"
  match outcome with
  | .returned result =>
    if !expect_success then
      (failures ++ [⟨path, "Test failure was expected, but it passed with " ++
        (if result.isNone then "nullptr" else rt.to_string result)⟩], false)
    else if result.isNone then
      (failures ++ [⟨path, "Returned object is nullptr"⟩], false)
    else if !is_cardinal rt result then
      (failures ++ [⟨path, "Result is not :success: " ++ rt.to_string result⟩], false)
    else (failures, true)
  | .threw_std_exception what =>
    if expect_success || expect_throw then
      (failures ++ [⟨path, "Exception thrown: " ++ what⟩], false)
    else (failures, true)
  | .threw_object e =>
    if expect_success || (expect_throw && !is_cardinal rt e) then
      (failures ++ [⟨path, "Exception thrown: " ++ rt.to_string e⟩], false)
    else if expect_failure && is_cardinal rt e then
      (failures ++ [⟨path, "Expected failure, thrown: " ++ rt.to_string e⟩], false)
    else (failures, true)
  | .threw_keyword e =>
    if !expect_throw || !is_cardinal rt (rt.as_object e) then
      (failures ++ [⟨path, "Exception thrown: " ++ rt.to_string (rt.as_object e)⟩], false)
    else (failures, true)
  | .threw_unknown =>
    if expect_success || expect_throw then
      (failures ++ [⟨path, "Unknown exception thrown"⟩], false)
    else (failures, true)

/-- An entry of the directory walk of line 49 with how its evaluation ends. -/
structure dir_entry (O K : Type) where
  path : String
  filename : String
  is_regular_file : Bool
  outcome : evaluation O K

/-- The loop of processor.cpp lines 49 to 167: the failures and the count of tested
files after the entries; an entry that is no regular file is skipped. -/
def test_files {O K : Type} (rt : runtime_context O K) (entries : List (dir_entry O K))
    (failures : List failure) (test_count : Nat) : List failure × Nat :=
  match entries with
  | [] => (failures, test_count)
  | entry :: rest =>
    if !entry.is_regular_file then test_files rt rest failures test_count
    else
      test_files rt rest
        (test_file rt entry.path entry.filename entry.outcome failures).1 (test_count + 1)

/-- The check `CHECK(failures.empty())` of line 169 after the walk. -/
def files_pass {O K : Type} (rt : runtime_context O K) (entries : List (dir_entry O K)) :
    Bool :=
  (test_files rt entries [] 0).1.isEmpty

/-- A runtime for the examples: objects and keywords are strings, equality is equality
of strings. -/
def example_runtime : runtime_context String String :=
  { cardinal_result := some "success"
    as_object := fun k => k
    equal := fun a b => a == b
    to_string := fun o => o.getD "nullptr" }

end jit

/-! ## Ranges (`jank::runtime::obj::range`) -/

namespace runtime
namespace obj

/-- The functions of math.hpp and number.hpp that range.cpp calls on objects, over a
type `O` of objects; the headers are outside the sources, so the functions are taken as
they are called: `add(l, r)`, `lt(l, r)` and the box `make_box(n)` of an integer. -/
structure math (O : Type) where
  add : O → O → O
  lt : O → O → Bool
  make_box : Int → O

/-- The members of a range object that range.cpp reads and writes (the receiver `this`
of a member function is the address `self` below): `start`, `end` and
`step` are pointers to objects, given by the objects; `cached_next` is a `range_ptr`,
null (`none`) or the address of a range. -/
structure range (O : Type) where
  start : O
  end_ : O
  step : O
  cached_next : Option Nat

/-- The heap of range objects: `deref p` is the range at address `p`, `size` the number
of ranges made so far; the addresses below `size` are the live ones. -/
structure range_heap (O : Type) where
  size : Nat
  deref : Nat → range O

/-- The allocation `make_box<obj::range>(start, end, step)` with the constructor of
range.cpp lines 22 to 27; `cached_next` is not initialised by the constructor and is the
null box. -/
def range_heap.make_box {O : Type} (h : range_heap O) (start end_ step : O) :
    Option Nat × range_heap O :=
  (some h.size,
    { size := h.size + 1
      deref := Function.update h.deref h.size
        { start := start, end_ := end_, step := step, cached_next := none } })

/-- A write to the members of the range at address `p`. -/
def range_heap.modify {O : Type} (h : range_heap O) (p : Nat) (f : range O → range O) :
    range_heap O :=
  { h with deref := Function.update h.deref p (f (h.deref p)) }

/-- The constructor of range.cpp lines 8 to 13, in a fresh box: `range(end)`. -/
def range.create_to {O : Type} (m : math O) (h : range_heap O) (end_ : O) :
    Option Nat × range_heap O :=
  h.make_box (m.make_box 0) end_ (m.make_box 1)

/-- The constructor of range.cpp lines 15 to 20, in a fresh box: `range(start, end)`. -/
def range.create_from {O : Type} (m : math O) (h : range_heap O) (start end_ : O) :
    Option Nat × range_heap O :=
  h.make_box start end_ (m.make_box 1)

/-- The constructor of range.cpp lines 22 to 27, in a fresh box:
`range(start, end, step)`. -/
def range.create {O : Type} (h : range_heap O) (start end_ step : O) :
    Option Nat × range_heap O :=
  h.make_box start end_ step

/-- The member `range::seq` of range.cpp lines 29 to 32. -/
def range.seq (self : Nat) : Option Nat :=
  some self

/-- The member `range::fresh_seq` of range.cpp lines 34 to 37. -/
def range.fresh_seq {O : Type} (h : range_heap O) (self : Nat) : Option Nat × range_heap O :=
  h.make_box (h.deref self).start (h.deref self).end_ (h.deref self).step

/-- The member `range::first` of range.cpp lines 39 to 42. -/
def range.first {O : Type} (h : range_heap O) (self : Nat) : O :=
  (h.deref self).start

/-- The member `range::next` of range.cpp lines 44 to 60: the pointer returned and the
heap afterwards. -/
def range.next {O : Type} (m : math O) (h : range_heap O) (self : Nat) :
    Option Nat × range_heap O :=
  match (h.deref self).cached_next with
  | some cached => (some cached, h)
  | none =>
    let next_start := m.add (h.deref self).start (h.deref self).step
    if !m.lt next_start (h.deref self).end_ then (none, h)
    else
      let made := h.make_box next_start (h.deref self).end_ (h.deref self).step
      (made.1, made.2.modify self (fun r => { r with cached_next := made.1 }))

/-- The member `range::next_in_place` of range.cpp lines 62 to 73. -/
def range.next_in_place {O : Type} (m : math O) (h : range_heap O) (self : Nat) :
    Option Nat × range_heap O :=
  let next_start := m.add (h.deref self).start (h.deref self).step
  if !m.lt next_start (h.deref self).end_ then (none, h)
  else (some self, h.modify self (fun r => { r with start := next_start }))

/-- The elements a range gives to a caller that takes `first()` and then goes on with
`next()` until it returns the null pointer; `none` when that takes more than `fuel`
calls of `next()`. -/
def range.elements {O : Type} (m : math O) : Nat → range_heap O → Nat → Option (List O)
  | 0, _, _ => none
  | fuel + 1, h, self =>
    match range.next m h self with
    | (none, _) => some [range.first h self]
    | (some following, h1) =>
      (range.elements m fuel h1 following).map (fun rest => range.first h self :: rest)

/-- The object handed to `range::equal`, as `visit_object` tells its type apart at
range.cpp lines 82 to 105: an object of a type that is not seqable, a range, or an object
of another seqable type; the other types are outside the sources, and such an object is
given by the elements its `fresh_seq()` goes through. -/
inductive operand (O : Type) where
  | not_seqable (o : O)
  | range (address : Nat)
  | sequence (elements : List O)

/-- The variable `seq` of range.cpp line 92: a pointer to a range, or the sequence of a
seqable of another type, given by the elements that remain and null when none remains. -/
inductive sequence_ptr (O : Type) where
  | range (address : Option Nat)
  | other (remaining : List O)

/-- The call `typed_o->fresh_seq()` of line 92 for a seqable operand. -/
def operand.fresh_seq {O : Type} (h : range_heap O) :
    operand O → Option (sequence_ptr O × range_heap O)
  | .not_seqable _ => none
  | .range address => some (.range (range.fresh_seq h address).1, (range.fresh_seq h address).2)
  | .sequence elements => some (.other elements, h)

/-- The element `seq->first()` of line 97, `none` when `seq` is the null pointer. -/
def sequence_ptr.first {O : Type} (h : range_heap O) : sequence_ptr O → Option O
  | .range (some address) => some (range.first h address)
  | .range none => none
  | .other (o :: _) => some o
  | .other [] => none

/-- The call `runtime::next_in_place(seq)` of line 95. -/
def sequence_ptr.next_in_place {O : Type} (m : math O) (h : range_heap O) :
    sequence_ptr O → sequence_ptr O × range_heap O
  | .range (some address) =>
    (.range (range.next_in_place m h address).1, (range.next_in_place m h address).2)
  | .range none => (.range none, h)
  | .other (_ :: rest) => (.other rest, h)
  | .other [] => (.other [], h)

/-- The loop of range.cpp lines 94 to 102, from the test `it != nullptr` on.  The
function `equal` is `runtime::detail::equal(it, seq->first())`, of a header outside the
sources: its first argument is the range `it`, given by its members, and its second the
element.  The result is `none` when the loop takes more than `fuel` rounds. -/
def range.equal_loop {O : Type} (m : math O) (equal : range O → O → Bool) :
    Nat → range_heap O → Option Nat → sequence_ptr O → Option Bool
  | 0, _, _, _ => none
  | _ + 1, _, none, _ => some true
  | fuel + 1, h, some it, seq =>
    match seq.first h with
    | none => some false
    | some element =>
      if !equal (h.deref it) element then some false
      else
        let advanced := range.next_in_place m h it
        let followed := seq.next_in_place m advanced.2
        range.equal_loop m equal fuel followed.2 advanced.1 followed.1

/-- The member `range::equal` of range.cpp lines 80 to 106. -/
def range.equal {O : Type} (m : math O) (equal : range O → O → Bool) (fuel : Nat)
    (h : range_heap O) (self : Nat) (o : operand O) : Option Bool :=
  match o.fresh_seq h with
  | none => some false
  | some (seq, h1) =>
    range.equal_loop m equal fuel (range.fresh_seq h1 self).2 (range.fresh_seq h1 self).1 seq

/-- Integer objects as the integers they hold: `add` is the sum, `lt` the order. -/
def integers : math Int :=
  { add := fun l r => l + r
    lt := fun l r => decide (l < r)
    make_box := fun n => n }

/-- The value a 64-bit two's complement `native_integer` holds after a sum `n`. -/
def wrap (n : Int) : Int :=
  (n + 2 ^ 63) % 2 ^ 64 - 2 ^ 63

/-- Integer objects as 64-bit machine integers: the sum wraps around. -/
def native_integers : math Int :=
  { add := fun l r => wrap (l + r)
    lt := fun l r => decide (l < r)
    make_box := fun n => wrap n }

/-- The values `start`, `start + step`, ... that the claim on the elements of a range
names: the first `count` of them. -/
def range.multiples (start step : Int) (count : Nat) : List Int :=
  (List.range count).map (fun k : Nat => start + (k : Int) * step)

/-- The number of values `start + k * step` below `end`, for `start < end` and a positive
`step`. -/
def range.count (start end_ step : Int) : Nat :=
  ((end_ - start + step - 1) / step).toNat

/-- An empty heap of ranges over the integers. -/
def empty_heap : range_heap Int :=
  { size := 0, deref := fun _ => { start := 0, end_ := 0, step := 0, cached_next := none } }

namespace sample

/-- The heap that holds the range from 0 to 3 in steps of 1 at address 0 and nothing
else. -/
def three : range_heap Int :=
  (range.create empty_heap 0 3 1).2

/-- The heap `three` after `next()` and then `next_in_place()` were called on the range
at address 0. -/
def three_advanced : range_heap Int :=
  (range.next_in_place integers (range.next integers three 0).2 0).2

/-- The heap that holds the range from 0 to 2 in steps of 1 at address 0, after `next()`
and then `next_in_place()` were called on it. -/
def two_advanced : range_heap Int :=
  (range.next_in_place integers (range.next integers (range.create empty_heap 0 2 1).2 0).2 0).2

/-- The comparison of a range with an integer as `range::equal` itself makes it: an
integer is not seqable, and the answer is false (range.cpp lines 86 to 89). -/
def range_with_integer : range Int → Int → Bool :=
  fun _ _ => false

/-- The comparison of the first element of a range with an integer. -/
def first_with_integer : range Int → Int → Bool :=
  fun it element => decide (it.start = element)

end sample

end obj
end runtime

/-! ## The command line (`jank::util::cli::parse`) -/

namespace util
namespace cli

/-- The enumeration `command` of cli.hpp, a header outside the sources: the enumerators
cli.cpp assigns at lines 76, 80, 84 and 88. -/
inductive command where
  | run
  | compile
  | repl
  | run_main
  deriving DecidableEq, Repr

/-- The struct `options` of cli.hpp, a header outside the sources: the members cli.cpp
binds to an option or assigns. -/
structure options where
  class_path : String
  compilation_path : String
  profiler_enabled : Bool
  profiler_file : String
  gc_incremental : Bool
  optimization_level : Int
  target_file : String
  target_runtime : String
  target_ns : String
  repl_server : Bool
  target_module : String
  extra_opts : List String
  command : command
  deriving DecidableEq, Repr

/-- The subcommands cli.cpp adds to the application at lines 31, 38, 47 and 52. -/
inductive subcommand where
  | run
  | compile
  | repl
  | run_main
  deriving DecidableEq, Repr

/-- The name a subcommand is added under. -/
def subcommand.name : subcommand → String
  | .run => "run"
  | .compile => "compile"
  | .repl => "repl"
  | .run_main => "run-main"

/-- The command that lines 74 to 89 assign for a subcommand. -/
def subcommand.command : subcommand → command
  | .run => .run
  | .compile => .compile
  | .repl => .repl
  | .run_main => .run_main

/-- A `CLI::ParseError`, as far as the calls of cli.cpp can cause one: a check added with
`check` fails, something required is missing, or the library throws for a reason of its
own (a value that does not convert, a request for help). -/
inductive parse_error where
  | validation (option : String)
  | required (what : String)
  | other (what : String)
  deriving DecidableEq, Repr

/-- What the library CLI11, which is outside the sources, finds on the command line for
the application cli.cpp sets up at lines 9 to 58, before it checks anything: for each
option and flag the value given, if one is given; the subcommands it parses, in their
order; whether the file given to `run` exists; the arguments that remain; and the error,
if the library throws for a reason of its own. -/
structure arguments where
  class_path : Option String
  output_dir : Option String
  profile : Bool
  profile_output : Option String
  gc_incremental : Bool
  optimization : Option Int
  subcommands : List subcommand
  file : Option String
  file_exists : Bool
  runtime : Option String
  ns : Option String
  server : Bool
  module : Option String
  remaining : List String
  thrown : Option String
  deriving DecidableEq, Repr

/-- The validator `CLI::Range(0, 3)` of line 28: the value is at least the first bound
and at most the second. -/
def in_range (low high value : Int) : Bool :=
  decide (low ≤ value ∧ value ≤ high)

/-- The validator `CLI::IsMember` of line 41. -/
def is_member (set : List String) (value : String) : Bool :=
  set.contains value

/-- The call `cli.got_subcommand(&sub)` of lines 74 to 86. -/
def got_subcommand (a : arguments) (sub : subcommand) : Bool :=
  a.subcommands.contains sub

/-- The checks added with `check` at lines 34 and 41, each on the value given to its
option: the file given to `run` exists, and the runtime given to `compile` is one of the
two named. -/
def check_subcommand_values (a : arguments) : Except parse_error Unit :=
  if a.file.isSome && !a.file_exists then .error (.validation "file")
  else
    match a.runtime with
    | some runtime =>
      if !is_member ["dynamic", "static"] runtime then .error (.validation "--runtime")
      else .ok ()
    | none => .ok ()

/-- The checks added with `check` at lines 28, 34 and 41, each on the value given to its
option. -/
def check_values (a : arguments) : Except parse_error Unit :=
  match a.optimization with
  | some level =>
    if !in_range 0 3 level then .error (.validation "-O,--optimization")
    else check_subcommand_values a
  | none => check_subcommand_values a

/-- The requirements of lines 35, 44, 54 and 56: exactly one subcommand
(`require_subcommand(1)`), and the positional argument of the subcommand given
(`required()`). -/
def check_required (a : arguments) : Except parse_error Unit :=
  if a.subcommands.length ≠ 1 then .error (.required "subcommand")
  else if got_subcommand a .run && a.file.isNone then .error (.required "file")
  else if got_subcommand a .compile && a.ns.isNone then .error (.required "ns")
  else if got_subcommand a .run_main && a.module.isNone then .error (.required "module")
  else .ok ()

/-- The call `cli.parse(argc, argv)` of line 62 on the application of lines 9 to 58: it
throws, or it returns with the values given stored in the members of `opts` they are
bound to; a member whose option is not given keeps its value.  Arguments that remain are
no error (`allow_extras`, line 58). -/
def app_parse (opts : options) (a : arguments) : Except parse_error options :=
  match a.thrown with
  | some what => .error (.other what)
  | none =>
    match check_values a with
    | .error e => .error e
    | .ok _ =>
      match check_required a with
      | .error e => .error e
      | .ok _ =>
        .ok { opts with
          class_path := a.class_path.getD opts.class_path
          compilation_path := a.output_dir.getD opts.compilation_path
          profiler_enabled := a.profile || opts.profiler_enabled
          profiler_file := a.profile_output.getD opts.profiler_file
          gc_incremental := a.gc_incremental || opts.gc_incremental
          optimization_level := a.optimization.getD opts.optimization_level
          target_file := a.file.getD opts.target_file
          target_runtime := a.runtime.getD opts.target_runtime
          target_ns := a.ns.getD opts.target_ns
          repl_server := a.server || opts.repl_server
          target_module := a.module.getD opts.target_module }

/-- The function `parse` of cli.cpp lines 7 to 92.  The default-constructed `options` of
line 10 are `defaults`, and `exit` is `cli.exit(e)`, the exit code of an error. -/
def parse (defaults : options) (exit : parse_error → Int) (a : arguments) :
    Except Int options :=
  match app_parse defaults a with
  | .error e => .error (exit e)
  | .ok parsed =>
    let opts : options :=
      if 0 ≤ a.remaining.length then { parsed with extra_opts := a.remaining } else parsed
    if got_subcommand a .run then .ok { opts with command := .run }
    else if got_subcommand a .compile then .ok { opts with command := .compile }
    else if got_subcommand a .repl then .ok { opts with command := .repl }
    else if got_subcommand a .run_main then .ok { opts with command := .run_main }
    else .ok opts

namespace sample

/-- Default options for the examples. -/
def defaults : options :=
  { class_path := "", compilation_path := "classes", profiler_enabled := false,
    profiler_file := "jank.profile", gc_incremental := false, optimization_level := 0,
    target_file := "", target_runtime := "dynamic", target_ns := "", repl_server := false,
    target_module := "", extra_opts := [], command := .repl }

/-- Exit codes for the examples: every error exits with 1. -/
def exit : parse_error → Int :=
  fun _ => 1

/-- A command line with nothing on it. -/
def nothing : arguments :=
  { class_path := none, output_dir := none, profile := false, profile_output := none,
    gc_incremental := false, optimization := none, subcommands := [], file := none,
    file_exists := false, runtime := none, ns := none, server := false, module := none,
    remaining := [], thrown := none }

/-- The command line `run-main app`. -/
def run_main_app : arguments :=
  { nothing with subcommands := [.run_main], module := some "app" }

/-- The command line `-O 2 repl`. -/
def repl_level_two : arguments :=
  { nothing with subcommands := [.repl], optimization := some 2 }

/-- The command line `-O 4 repl`. -/
def repl_level_four : arguments :=
  { nothing with subcommands := [.repl], optimization := some 4 }

/-- The command line `repl run x`.  The word `repl` is parsed as the subcommand.  The
subcommand `repl` has no positional argument and falls through (line 48), so the words
after it go to the application, which has parsed the one subcommand
`require_subcommand(1)` (line 56) lets it parse: the word `run`, though it is the name
of a subcommand, is not parsed as one, and with `allow_extras` (line 58) it remains, as
does `x`. -/
def repl_then_run : arguments :=
  { nothing with subcommands := [.repl], remaining := ["run", "x"] }

end sample

end cli
end util

/-! ## Boxes (`jank::native_box`) -/

/-- A pointer `T *`: the null pointer (`none`) or an address. -/
abbrev pointer := Option Nat

/-- The conversion of a pointer to `bool`: true for every pointer but the null pointer. -/
def pointer.to_bool (p : pointer) : Bool :=
  p.isSome

/-- The struct `native_box<T>` of native_box.hpp lines 9 to 93: its one member is the
pointer `data`. -/
structure native_box (T : Type) where
  data : pointer
  deriving DecidableEq, Repr

namespace native_box

/-- The default constructor of line 14, with the member initialiser of line 92. -/
def default_box (T : Type) : native_box T :=
  { data := none }

/-- The constructor of lines 16 to 18, from `nullptr`. -/
def of_nullptr (T : Type) : native_box T :=
  { data := none }

/-- The constructors of lines 20 to 28, from a pointer. -/
def of_pointer (T : Type) (data : pointer) : native_box T :=
  { data := data }

/-- The member `operator->` of lines 30 to 34 and `operator*` of lines 41 to 45, in a
store of values: the value pointed to; the assertion fails (`none`) on the null
pointer. -/
def deref {T : Type} (store : Nat → T) (a : native_box T) : Option T :=
  a.data.map store

/-- The member `operator!` of lines 36 to 39: `!data`. -/
def not {T : Type} (a : native_box T) : Bool :=
  !a.data.to_bool

/-- The member `operator==(std::nullptr_t)` of lines 47 to 50. -/
def eq_nullptr {T : Type} (a : native_box T) : Bool :=
  a.data == none

/-- The member `operator==(native_box const &)` of lines 52 to 55. -/
def eq {T : Type} (a rhs : native_box T) : Bool :=
  a.data == rhs.data

/-- The member `operator!=(std::nullptr_t)` of lines 57 to 60. -/
def ne_nullptr {T : Type} (a : native_box T) : Bool :=
  a.data != none

/-- The member `operator!=(native_box const &)` of lines 62 to 65. -/
def ne {T : Type} (a rhs : native_box T) : Bool :=
  a.data != rhs.data

/-- The member `operator<` of lines 67 to 70, on two pointers into one array: the order
of the addresses. -/
def lt {T : Type} (a rhs : native_box T) : Option Bool :=
  match a.data, rhs.data with
  | some p, some q => some (decide (p < q))
  | _, _ => none

/-- The member `operator native_bool` of lines 87 to 90: `data` converted to `bool`. -/
def to_bool {T : Type} (a : native_box T) : Bool :=
  a.data.to_bool

namespace sample

/-- A store in which every address holds the value 7. -/
def sevens : Nat → Int :=
  fun _ => 7

/-- The box of the address 1. -/
def first : native_box Int :=
  of_pointer Int (some 1)

/-- The box of the address 2. -/
def second : native_box Int :=
  of_pointer Int (some 2)

end sample

end native_box

/-! ## Parsed cells (`jank::parse::cell`) -/

namespace parse

/-- A parsed cell.  The translation distinguishes `ident` and `list` cells
(`parse::cell::type::ident`, `parse::cell::type::list`); the other alternatives stand for
the remaining literal kinds. -/
inductive cell where
  | boolean (data : Bool)
  | integer (data : Int)
  | string (data : String)
  | ident (data : String)
  | list (data : List cell)

instance : Inhabited cell := ⟨cell.list []⟩

end parse

namespace translate

/-! ## Exceptions -/

/-- The exceptions the translated code can end with. -/
inductive error where
  /-- The class `expect::error::syntax::exception<>` thrown by function.cpp. -/
  | syntax_exception (msg : String)
  /-- The class `expect::error::syntax::syntax<>` thrown by translate.hpp. -/
  | syntax_error (msg : String)
  /-- The class `expect::error::type::overload`. -/
  | type_overload (msg : String)
  /-- What `expect::type<T>` throws when the cell holds another alternative. -/
  | unexpected_type
  /-- Any other exception, raised by a collaborator. -/
  | other (msg : String)
  /-- Undefined behaviour in the C++ sense (`v[0]` or `v.back()` on an empty vector,
  dereferencing a null pointer). -/
  | undefined_behaviour
  deriving DecidableEq, Repr

/-! ## Translated cells (`jank::translate::cell`) -/

/-- One entry of a function's argument list: a name and the data of its type. -/
structure argument_definition where
  name : String
  type : String
  deriving DecidableEq, Repr

/-- The data of `cell::function_body`: the translated cells, the scope they live in and
the return type. -/
structure function_body_data (C : Type) where
  cells : List C
  scope : Option Nat
  return_type : String

/-- The data of `cell::function_definition`, in the order of the aggregate initialiser of
function.cpp lines 103 to 125. -/
structure function_definition_data (C : Type) where
  name : String
  arguments : List argument_definition
  return_type : String
  body : function_body_data C
  scope : Option Nat

/-- A translated cell: a variant over the data records. -/
inductive cell where
  | function_body (data : function_body_data cell)
  | function_definition (data : function_definition_data cell)

abbrev function_body := function_body_data cell
abbrev function_definition := function_definition_data cell

/-- A value-initialised `function_body` (`{ { {}, {} } }`). -/
def function_body.empty : function_body :=
  { cells := [], scope := none, return_type := "" }

/-- A value-initialised `function_definition`, as `emplace_back()` creates it. -/
def function_definition.empty : function_definition :=
  { name := "", arguments := [], return_type := "", body := function_body.empty, scope := none }

/-- The data of `cell::binding_definition`: name, type and the bound cell. -/
structure binding_definition where
  name : String
  type : String
  cell : Option cell

/-! ## Scopes and the heap -/

namespace environment

/-- The members of `environment::scope` the code uses: the parent given to the
constructor, `binding_definitions` and `function_definitions`.  A map is a list of
key/value pairs with pairwise different keys. -/
structure scope where
  parent : Option Nat
  binding_definitions : List (String × binding_definition)
  function_definitions : List (String × List function_definition)

/-- The scope `std::make_shared<scope>(parent)` constructs. -/
def scope.mk_child (parent : Option Nat) : scope :=
  { parent := parent, binding_definitions := [], function_definitions := [] }

/-- The heap of scopes: `deref p` is the scope the pointer `p` points to, `next` the first
address not handed out yet. -/
structure heap where
  next : Nat
  deref : Nat → scope

/-- Allocation of a scope: `std::make_shared<scope>(parent)`. -/
def heap.make_shared (h : heap) (parent : Option Nat) : Nat × heap :=
  (h.next, { next := h.next + 1, deref := Function.update h.deref h.next (scope.mk_child parent) })

/-- A write through a pointer. -/
def heap.modify (h : heap) (p : Nat) (f : scope → scope) : heap :=
  { h with deref := Function.update h.deref p (f (h.deref p)) }

end environment

open environment

/-! ## Maps -/

/-- The lookup `m.find(k)` of a map. -/
def map_find {V : Type} (m : List (String × V)) (k : String) : Option V :=
  match m with
  | [] => none
  | (k1, v) :: rest => if k1 = k then some v else map_find rest k

/-- The insertion `m.insert({k, v})` of a map: a key already present keeps its value. -/
def map_insert {V : Type} (m : List (String × V)) (k : String) (v : V) : List (String × V) :=
  match m with
  | [] => [(k, v)]
  | (k1, v1) :: rest => if k1 = k then (k1, v1) :: rest else (k1, v1) :: map_insert rest k v

/-- The assignment `m[k] = v` of a map. -/
def map_assign {V : Type} (m : List (String × V)) (k : String) (v : V) : List (String × V) :=
  match m with
  | [] => [(k, v)]
  | (k1, v1) :: rest => if k1 = k then (k1, v) :: rest else (k1, v1) :: map_assign rest k v

/-- The element access `m[k]` of a map of vectors: an absent key is inserted with an empty
vector. -/
def map_index {V : Type} (m : List (String × List V)) (k : String) :
    List V × List (String × List V) :=
  match map_find m k with
  | some v => (v, m)
  | none => ([], map_insert m k [])

/-- The overloads a scope holds under a name, without touching the map. -/
def overloads (h : heap) (p : Nat) (name : String) : List function_definition :=
  (map_find (h.deref p).function_definitions name).getD []

/-! ## Type checks on parsed cells (`expect::is`, `expect::type`) -/

/-- The test `expect::is<parse::cell::type::list>(c)`. -/
def expect_is_list (c : parse.cell) : Bool :=
  match c with
  | .list _ => true
  | _ => false

/-- The access `expect::type<parse::cell::type::ident>(c)`: the identifier, or an
exception for a cell of another type. -/
def expect_type_ident (c : parse.cell) : Except error String :=
  match c with
  | .ident data => .ok data
  | _ => .error .unexpected_type

/-- The access `expect::type<parse::cell::type::list>(c)`: the list, or an exception for
a cell of another type. -/
def expect_type_list (c : parse.cell) : Except error (List parse.cell) :=
  match c with
  | .list data => .ok data
  | _ => .error .unexpected_type

/-! ## Collaborators of `special::function` -/

/-- The functions function.cpp calls and does not define; only their calls are known.
The two parsers read the scope they are given; the body translator also writes to the
heap (a definition nested in the body is added to the scope it is translated in), and
leaves a heap behind when it throws.  `validate` and `deduce` take and return a body by
value.

`translate` is the three-argument overload function.cpp calls with the body forms, the
nested scope and the declared return type. -/
structure collaborators where
  parse_types : List parse.cell → Nat → heap → Except error (List argument_definition)
  ret_parse : List parse.cell → Nat → heap → Except error (List String)
  translate : List parse.cell → Nat → String → heap → Except error function_body × heap
  ret_validate : function_body → Except error function_body
  ret_deduce : function_body → Except error function_body

namespace environment
namespace special

/-- The constant `forms_required` of function.cpp line 29. -/
def forms_required : Nat := 4

/-- The binding `std::transform` inserts for one argument (function.cpp lines 56 to 66). -/
def argument_binding (arg : argument_definition) : String × binding_definition :=
  (arg.name, { name := arg.name, type := arg.type, cell := none })

/-- The `std::transform` of function.cpp lines 48 to 67: every argument is inserted into
the map of bindings, in order. -/
def bind_arguments (arg_definitions : List argument_definition)
    (bindings : List (String × binding_definition)) : List (String × binding_definition) :=
  arg_definitions.foldl
    (fun m arg => map_insert m (argument_binding arg).1 (argument_binding arg).2) bindings

/-- The access `p->function_definitions[name]`: the overloads under the name and the heap
after the access, in which the name has an entry. -/
def index_function_definitions (h : heap) (p : Nat) (name : String) :
    List function_definition × heap :=
  ((map_index (h.deref p).function_definitions name).1,
   h.modify p (fun s =>
     { s with function_definitions := (map_index s.function_definitions name).2 }))

/-- The assignment of a new vector to `p->function_definitions[name]`. -/
def assign_function_definitions (h : heap) (p : Nat) (name : String)
    (v : List function_definition) : heap :=
  h.modify p (fun s => { s with function_definitions := map_assign s.function_definitions name v })

/-- The loop of function.cpp lines 73 to 84: is there an overload with equal arguments? -/
def has_overload (overloads : List function_definition)
    (arg_definitions : List argument_definition) : Bool :=
  overloads.any (fun overload => decide (overload.arguments = arg_definitions))

/-- What `special::function` has computed when it reaches the translation of the body. -/
structure declared where
  name : String
  arg_definitions : List argument_definition
  return_type : String
  nested_scope : Nat

/-- The forward declaration of function.cpp lines 96 to 101: a value-initialised
definition with name, return type and arguments assigned. -/
def declared.declaration (d : declared) : function_definition :=
  { function_definition.empty with
    name := d.name, return_type := d.return_type, arguments := d.arg_definitions }

/-- Lines 29 to 101 of function.cpp: everything `special::function` does before the
body is translated.  The heap returned is the one the body translator is called in. -/
def function_declare (env : collaborators) (input : List parse.cell) (outer_scope : Nat)
    (h : heap) : Except error declared × heap :=
  if input.length < forms_required then
    (.error (.syntax_exception "invalid function definition"), h)
  else
    match expect_type_ident (input.getD 1 default) with
    | .error e => (.error e, h)
    | .ok name =>
    match expect_type_list (input.getD 2 default) with
    | .error e => (.error e, h)
    | .ok args =>
    let (nested_scope, h1) := h.make_shared (some outer_scope)
    match env.parse_types args nested_scope h1 with
    | .error e => (.error e, h1)
    | .ok arg_definitions =>
    let h2 := h1.modify nested_scope (fun s =>
      { s with binding_definitions := bind_arguments arg_definitions s.binding_definitions })
    let (overloads, h3) := index_function_definitions h2 outer_scope name
    if has_overload overloads arg_definitions then
      (.error (.type_overload ("multiple definition of: " ++ name)), h3)
    else
      match expect_type_list (input.getD 3 default) with
      | .error e => (.error e, h3)
      | .ok return_type_names =>
      match env.ret_parse return_type_names nested_scope h3 with
      | .error e => (.error e, h3)
      | .ok [] => (.error .undefined_behaviour, h3)
      | .ok (return_type :: _) =>
      let d : declared :=
        { name := name, arg_definitions := arg_definitions, return_type := return_type,
          nested_scope := nested_scope }
      let (decls, h4) := index_function_definitions h3 outer_scope name
      (.ok d, assign_function_definitions h4 outer_scope name (decls ++ [d.declaration]))

/-- Lines 126 to 134 of function.cpp, given what the translation of the body returned
(or threw) and the heap it left: the body is validated and deduced, and the definition
replaces the last overload under the name. -/
def function_finish (env : collaborators) (outer_scope : Nat) (d : declared)
    (translated : Except error function_body × heap) : Except error cell × heap :=
  match translated with
  | (.error e, h5) => (.error e, h5)
  | (.ok body, h5) =>
  match env.ret_validate body with
  | .error e => (.error e, h5)
  | .ok validated =>
  match env.ret_deduce validated with
  | .error e => (.error e, h5)
  | .ok deduced =>
  let ret : function_definition :=
    { name := d.name, arguments := d.arg_definitions, return_type := deduced.return_type,
      body := deduced, scope := some d.nested_scope }
  let (decls, h6) := index_function_definitions h5 outer_scope d.name
  match decls with
  | [] => (.error .undefined_behaviour, h6)
  | _ :: _ =>
    (.ok (cell.function_definition ret),
     assign_function_definitions h6 outer_scope d.name (decls.dropLast ++ [ret]))

/-- Lines 103 to 134 of function.cpp: the body, the forms after the first
`forms_required`, is translated in the nested scope with the declared return type, in the
heap `h` holding the forward declaration; then the definition is finished. -/
def function_define (env : collaborators) (input : List parse.cell) (outer_scope : Nat)
    (d : declared) (h : heap) : Except error cell × heap :=
  function_finish env outer_scope d
    (env.translate (input.drop forms_required) d.nested_scope d.return_type h)

/-- The function `special::function(input, outer_scope)` of function.cpp. -/
def function (env : collaborators) (input : List parse.cell) (outer_scope : Nat)
    (h : heap) : Except error cell × heap :=
  match function_declare env input outer_scope h with
  | (.error e, h1) => (.error e, h1)
  | (.ok d, h4) => function_define env input outer_scope d h4

end special
end environment

/-! ## The driver `translate` of translate.hpp -/

/-- Modelled from the spec: `scope::find_function`, a member declared in scope.hpp, of
which only the calls are known.  Section 4.1: resolution searches this frame, then the
parent chain, and stops at the first frame that holds the name.  The parent chain is
followed for at most `fuel` frames. -/
def find_function (fuel : Nat) (h : heap) (p : Nat) (name : String) :
    Option (List function_definition) :=
  match fuel with
  | 0 => none
  | fuel + 1 =>
    match map_find (h.deref p).function_definitions name with
    | some (f :: fs) => some (f :: fs)
    | _ =>
      match (h.deref p).parent with
      | some q => find_function fuel h q name
      | none => none

/-- The type of `environment::special::handle`, of which only the call is known: given
the list and the body translated so far it returns the cell of a special form, or nothing
when the list is no special form; it may write to the heap and may throw. -/
abbrev special_handler :=
  List parse.cell → function_body → heap → Except error (Option cell) × heap

/-- The body of the lambda of translate.hpp lines 22 to 51, applied to one cell `c` of
the range.  `find` is `scope->find_function`. -/
def translate_cell (handle : special_handler)
    (find : heap → Nat → String → Option (List function_definition))
    (scope : Option Nat) (c : parse.cell) (translated : function_body) (h : heap) :
    Except error function_body × heap :=
  if expect_is_list c then
    match expect_type_list c with
    | .error e => (.error e, h)
    | .ok list =>
    match handle list translated h with
    | (.error e, h1) => (.error e, h1)
    | (.ok special_opt, h1) =>
    let translated1 : function_body :=
      match special_opt with
      | some special => { translated with cells := translated.cells ++ [special] }
      | none => translated
    if list.isEmpty then
      (.error (.syntax_error "invalid empty list"), h1)
    else
      match expect_type_ident (list.getD 0 default) with
      | .error e => (.error e, h1)
      | .ok name =>
      match scope with
      | none => (.error .undefined_behaviour, h1)
      | some p =>
        match find h1 p name with
        | some _ => (.ok translated1, h1)
        | none => (.ok translated1, h1)
  else
    (.ok translated, h)

/-- The `std::for_each` of translate.hpp lines 19 to 52: the cells of the range in order,
stopping at the first exception. -/
def translate_each (handle : special_handler)
    (find : heap → Nat → String → Option (List function_definition))
    (scope : Option Nat) (range : List parse.cell) (translated : function_body) (h : heap) :
    Except error function_body × heap :=
  match range with
  | [] => (.ok translated, h)
  | c :: rest =>
    match translate_cell handle find scope c translated h with
    | (.error e, h1) => (.error e, h1)
    | (.ok translated1, h1) => translate_each handle find scope rest translated1 h1

set_option linter.dupNamespace false in
/-- The function `translate(range, scope)` of translate.hpp. -/
def translate (handle : special_handler)
    (find : heap → Nat → String → Option (List function_definition))
    (range : List parse.cell) (scope : Option Nat) (h : heap) :
    Except error function_body × heap :=
  if range.length = 0 then
    (.ok { cells := [], scope := none, return_type := "" }, h)
  else
    translate_each handle find scope range { cells := [], scope := scope, return_type := "" } h

/-! ## Intermediate heaps and the origin of exceptions -/

section states

open environment.special

/-- The heap after the nested scope is made and the arguments are bound in it
(function.cpp lines 42 to 67). -/
def heap_bound (h : heap) (outer_scope : Nat) (arg_definitions : List argument_definition) :
    heap :=
  (h.make_shared (some outer_scope)).2.modify h.next (fun s =>
    { s with binding_definitions := bind_arguments arg_definitions s.binding_definitions })

/-- The heap after the overload check has looked the name up (function.cpp line 76). -/
def heap_checked (h : heap) (outer_scope : Nat) (name : String)
    (arg_definitions : List argument_definition) : heap :=
  (index_function_definitions (heap_bound h outer_scope arg_definitions) outer_scope name).2

/-- An exception `e` comes from a collaborator when one of the functions function.cpp
calls and does not define ends with it on some input. -/
def raised_by_collaborator (env : collaborators) (e : error) : Prop :=
  (∃ args s hh, env.parse_types args s hh = .error e)
  ∨ (∃ names s hh, env.ret_parse names s hh = .error e)
  ∨ (∃ range s t hh, (env.translate range s t hh).1 = .error e)
  ∨ (∃ body, env.ret_validate body = .error e)
  ∨ (∃ body, env.ret_deduce body = .error e)

end states

/-! ## A concrete set of collaborators, for evaluating the code on examples -/

namespace example_run

open environment.special

/-- A handler that claims no list: every list is an ordinary form. -/
def claims_nothing : special_handler :=
  fun _ _ h => (.ok none, h)

/-- A handler that claims no list and refuses an empty one with an exception of its
own, which makes a call with an empty list visible in the result. -/
def refuses_empty : special_handler :=
  fun list _ h =>
    if list.isEmpty then (.error (.other "handle called with an empty list"), h)
    else (.ok none, h)

/-- An argument-list parser that reads name/type pairs of identifiers and checks nothing
else. -/
def parse_pairs : List parse.cell → List argument_definition
  | .ident name :: .ident type :: rest => { name := name, type := type } :: parse_pairs rest
  | _ => []

/-- A return-type parser: the identifiers of the list, or the type null for none. -/
def parse_returns : List parse.cell → List String
  | [] => ["null"]
  | .ident type :: _ => [type]
  | _ :: rest => parse_returns rest

/-- Collaborators for the examples: the parsers above, a body translator that returns
an empty body of the declared return type without looking at the forms, and a validation
and deduction that return the body as it is.  None of them throws. -/
def env : collaborators :=
  { parse_types := fun args _ _ => .ok (parse_pairs args)
    ret_parse := fun names _ _ => .ok (parse_returns names)
    translate := fun _ scope return_type h =>
      (.ok { cells := [], scope := some scope, return_type := return_type }, h)
    ret_validate := fun body => .ok body
    ret_deduce := fun body => .ok body }

/-- The same collaborators with the body translated by `translate` of translate.hpp,
with a handler that claims nothing. -/
def env_translate : collaborators :=
  { env with
    translate := fun range scope return_type h =>
      match translate claims_nothing (find_function 8) range (some scope) h with
      | (.ok body, h1) => (.ok { body with return_type := return_type }, h1)
      | (.error e, h1) => (.error e, h1) }

/-- A heap with one scope, the root, at address 0. -/
def root_heap : heap :=
  { next := 1, deref := fun _ => scope.mk_child none }

/-- The definition `(func f (a int) (int))` with an empty body. -/
def define_f : List parse.cell :=
  [.ident "func", .ident "f", .list [.ident "a", .ident "int"], .list [.ident "int"]]

/-- The definition `(func f (a int) (int) ())`, whose body is an empty list. -/
def define_f_empty_list : List parse.cell :=
  define_f ++ [parse.cell.list []]

/-- The ill-formed definition `(func f (a int) int)`, whose return types are no list. -/
def define_f_no_list : List parse.cell :=
  [.ident "func", .ident "f", .list [.ident "a", .ident "int"], .ident "int"]

/-- What the declaring phase computes for `define_f` in the root heap. -/
def declared_f : declared :=
  { name := "f", arg_definitions := [{ name := "a", type := "int" }], return_type := "int",
    nested_scope := 1 }

/-- The definition of `f` as `special::function` returns it for `define_f`. -/
def defined_f (nested_scope : Nat) : function_definition :=
  { name := "f", arguments := [{ name := "a", type := "int" }], return_type := "int",
    body := { cells := [], scope := some nested_scope, return_type := "int" },
    scope := some nested_scope }

/-- The heap after `define_f` is defined in the root scope and a further child of the
root is made: the root at address 0 holds `f`, the scope at address 1 is the nested scope
of `f`, and the scope at address 2 is an empty child of the root. -/
def family_heap : heap :=
  ((function env define_f 0 root_heap).2.make_shared (some 0)).2

/-- The definition `(func f (a int a int) ())`, which names the parameter `a` twice. -/
def define_repeated : List parse.cell :=
  [.ident "func", .ident "f",
   .list [.ident "a", .ident "int", .ident "a", .ident "int"], .list []]

end example_run

/-! ## Definitions nested in the body of a definition -/

section nested_definitions

open environment.special

/-- The exception `e` is the one a call made by `special::function(input, outer_scope)`
in the heap `h` ended with: the call of `parse_types` (function.cpp line 45), of
`ret::parse` (line 91), of `translate` (line 109), of `validate` or of `deduce` (lines
128 and 129), each with the arguments function.cpp gives it. -/
def raised_by_call (env : collaborators) (input : List parse.cell) (outer_scope : Nat)
    (h : heap) (e : error) : Prop :=
  (∃ args, expect_type_list (input.getD 2 default) = .ok args
    ∧ env.parse_types args h.next (h.make_shared (some outer_scope)).2 = .error e)
  ∨ (∃ name args arg_definitions names,
      expect_type_ident (input.getD 1 default) = .ok name
      ∧ expect_type_list (input.getD 2 default) = .ok args
      ∧ env.parse_types args h.next (h.make_shared (some outer_scope)).2 = .ok arg_definitions
      ∧ expect_type_list (input.getD 3 default) = .ok names
      ∧ env.ret_parse names h.next (heap_checked h outer_scope name arg_definitions)
          = .error e)
  ∨ (∃ d h4, function_declare env input outer_scope h = (.ok d, h4)
      ∧ ((env.translate (input.drop forms_required) d.nested_scope d.return_type h4).1
            = .error e
        ∨ ∃ body h5,
            env.translate (input.drop forms_required) d.nested_scope d.return_type h4
              = (.ok body, h5)
            ∧ (env.ret_validate body = .error e
              ∨ ∃ validated, env.ret_validate body = .ok validated
                  ∧ env.ret_deduce validated = .error e)))

/-- A body translator leaves the scopes it is not given as they are: called with a live
scope, it frees no address, and every other live scope holds the overloads it held. -/
def keeps_other_scopes
    (translator : List parse.cell → Nat → String → heap → Except error function_body × heap) :
    Prop :=
  ∀ range scope return_type h, scope < h.next →
    h.next ≤ (translator range scope return_type h).2.next
    ∧ ∀ q name, q < h.next → q ≠ scope →
        overloads (translator range scope return_type h).2 q name = overloads h q name

/-- Modelled from the spec: `function::argument::definition::parse_types`, declared in
function/argument/definition.hpp, outside the sources; only its call at function.cpp
line 45 is known.  Section 4.3: a function definition validates that parameter names are
unique within an arity, and by section 4.1 a name declared twice in one frame is refused
(`DuplicateBindingError`).  How the forms of the list are read into names and types is
not described: `read` does that. -/
def parse_types
    (read : List parse.cell → Nat → heap → Except error (List argument_definition))
    (args : List parse.cell) (scope : Nat) (h : heap) :
    Except error (List argument_definition) :=
  match read args scope h with
  | .error e => .error e
  | .ok arg_definitions =>
    if (arg_definitions.map (fun arg => arg.name)).Nodup then .ok arg_definitions
    else .error (.other "duplicate binding")

end nested_definitions

namespace example_run

open environment.special

/-- A handler for the examples, in the place of `environment::special::handle`, which is
outside the sources: a list that starts with the identifier `func` is a function
definition and goes to `special::function`, with the scope of the body translated so far
as the defining scope; no other list is claimed. -/
def handle_functions (env : collaborators) : special_handler :=
  fun list translated h =>
    match list, translated.scope with
    | .ident keyword :: _, some scope =>
      if keyword = "func" then
        match function env list scope h with
        | (.ok definition, h1) => (.ok (some definition), h1)
        | (.error e, h1) => (.error e, h1)
      else (.ok none, h)
    | _, _ => (.ok none, h)

/-- The three-argument `translate` function.cpp calls at line 109, in the examples: the
`translate` of translate.hpp with `handle_functions`, and the return type stored in the
body. -/
def translate_body (env : collaborators) (range : List parse.cell) (scope : Nat)
    (return_type : String) (h : heap) : Except error function_body × heap :=
  match translate (handle_functions env) (find_function 8) range (some scope) h with
  | (.ok body, h1) => (.ok { body with return_type := return_type }, h1)
  | (.error e, h1) => (.error e, h1)

/-- Collaborators whose body translator sends the definitions nested in a body to
`special::function` itself, down to the depth `depth`; the other collaborators, and the
body translator below that depth, are those of `base`. -/
def nested (base : collaborators) : Nat → collaborators
  | 0 => base
  | depth + 1 => { base with translate := translate_body (nested base depth) }

/-- The definition `(func g () ())`. -/
def define_g : parse.cell :=
  .list [.ident "func", .ident "g", .list [], .list []]

/-- The definition `(func f (a int) (int) (func g () ()))`, whose body defines `g`. -/
def define_f_with_g : List parse.cell :=
  define_f ++ [define_g]

/-- The definition `(func f (a int) (int) (func g))`, whose body holds a definition of
two forms. -/
def define_f_with_short_g : List parse.cell :=
  define_f ++ [parse.cell.list [.ident "func", .ident "g"]]

/-- The definition `(func f (a int) (int) (func g () ()) (func g () ()))`, whose body
defines `g` twice. -/
def define_f_with_two_g : List parse.cell :=
  define_f ++ [define_g, define_g]

/-- The definition `(func g () () (func f (a int) (int)))`, whose body defines `f`. -/
def define_g_with_f : List parse.cell :=
  [.ident "func", .ident "g", .list [], .list [], .list define_f]

end example_run

/-! ## Lemmas on maps and the heap -/

section lemmas

open environment.special

theorem map_find_insert_same {V : Type} (m : List (String × V)) (k : String) (v : V) :
    map_find (map_insert m k v) k = some ((map_find m k).getD v) := by
  induction m with
  | nil => simp [map_insert, map_find]
  | cons kv rest ih =>
    obtain ⟨k1, v1⟩ := kv
    by_cases hk : k1 = k
    · simp [map_insert, map_find, hk]
    · simp [map_insert, map_find, hk, ih]

theorem map_find_insert_other {V : Type} (m : List (String × V)) (k k2 : String) (v : V)
    (hne : k2 ≠ k) : map_find (map_insert m k v) k2 = map_find m k2 := by
  induction m with
  | nil =>
    have hne2 : ¬ k = k2 := fun heq => hne heq.symm
    simp [map_insert, map_find, hne2]
  | cons kv rest ih =>
    obtain ⟨k1, v1⟩ := kv
    by_cases hk : k1 = k
    · simp [map_insert, map_find, hk]
    · by_cases hk2 : k1 = k2
      · subst hk2
        simp [map_insert, map_find, hk]
      · simp [map_insert, map_find, hk, hk2, ih]

theorem map_find_assign_same {V : Type} (m : List (String × V)) (k : String) (v : V) :
    map_find (map_assign m k v) k = some v := by
  induction m with
  | nil => simp [map_assign, map_find]
  | cons kv rest ih =>
    obtain ⟨k1, v1⟩ := kv
    by_cases hk : k1 = k
    · simp [map_assign, map_find, hk]
    · simp [map_assign, map_find, hk, ih]

theorem map_find_assign_other {V : Type} (m : List (String × V)) (k k2 : String) (v : V)
    (hne : k2 ≠ k) : map_find (map_assign m k v) k2 = map_find m k2 := by
  induction m with
  | nil =>
    have hne2 : ¬ k = k2 := fun heq => hne heq.symm
    simp [map_assign, map_find, hne2]
  | cons kv rest ih =>
    obtain ⟨k1, v1⟩ := kv
    by_cases hk : k1 = k
    · subst hk
      have hne2 : ¬ k1 = k2 := fun heq => hne heq.symm
      simp [map_assign, map_find, hne2]
    · by_cases hk2 : k1 = k2
      · subst hk2
        simp [map_assign, map_find, hk]
      · simp [map_assign, map_find, hk, hk2, ih]

theorem map_index_fst {V : Type} (m : List (String × List V)) (k : String) :
    (map_index m k).1 = (map_find m k).getD [] := by
  unfold map_index
  cases hf : map_find m k <;> simp

theorem map_find_index {V : Type} (m : List (String × List V)) (k k2 : String) :
    (map_find (map_index m k).2 k2).getD [] = (map_find m k2).getD [] := by
  unfold map_index
  cases hf : map_find m k with
  | some v => simp
  | none =>
    by_cases hk : k2 = k
    · subst hk
      simp [map_find_insert_same, hf]
    · simp [map_find_insert_other _ _ _ _ hk]

theorem deref_modify_same (h : heap) (p : Nat) (f : scope → scope) :
    (h.modify p f).deref p = f (h.deref p) := by
  simp [heap.modify]

theorem deref_modify_other (h : heap) (p q : Nat) (f : scope → scope) (hne : q ≠ p) :
    (h.modify p f).deref q = h.deref q := by
  simp [heap.modify, Function.update_noteq hne]

theorem overloads_modify (h : heap) (p q : Nat) (f : scope → scope) (name : String)
    (hf : ∀ s, (map_find (f s).function_definitions name).getD []
      = (map_find s.function_definitions name).getD []) :
    overloads (h.modify p f) q name = overloads h q name := by
  unfold overloads
  by_cases hq : q = p
  · subst hq
    rw [deref_modify_same, hf]
  · rw [deref_modify_other _ _ _ _ hq]

theorem overloads_make_shared (h : heap) (parent : Option Nat) (q : Nat) (name : String)
    (hlive : q < h.next) :
    overloads (h.make_shared parent).2 q name = overloads h q name := by
  have hne : q ≠ h.next := Nat.ne_of_lt hlive
  simp [overloads, heap.make_shared, Function.update_noteq hne]

theorem index_function_definitions_fst (h : heap) (p : Nat) (name : String) :
    (index_function_definitions h p name).1 = overloads h p name := by
  simp [index_function_definitions, overloads, map_index_fst]

theorem overloads_index (h : heap) (p q : Nat) (name name2 : String) :
    overloads (index_function_definitions h p name).2 q name2 = overloads h q name2 := by
  show overloads (h.modify p (fun s =>
    { s with function_definitions := (map_index s.function_definitions name).2 })) q name2 = _
  refine overloads_modify h p q _ name2 (fun s => ?_)
  exact map_find_index s.function_definitions name name2

theorem overloads_assign_same (h : heap) (p : Nat) (name : String)
    (v : List function_definition) :
    overloads (assign_function_definitions h p name v) p name = v := by
  simp [overloads, assign_function_definitions, deref_modify_same, map_find_assign_same]

theorem overloads_assign_other_name (h : heap) (p q : Nat) (name name2 : String)
    (v : List function_definition) (hne : name2 ≠ name) :
    overloads (assign_function_definitions h p name v) q name2 = overloads h q name2 := by
  unfold assign_function_definitions
  refine overloads_modify h p q _ name2 (fun s => ?_)
  simp [map_find_assign_other _ _ _ _ hne]

end lemmas

/-! ## The effect of the declaring phase on the defining scope -/

section declare

open environment.special

theorem overloads_heap_bound (h : heap) (outer_scope q : Nat)
    (arg_definitions : List argument_definition) (name : String) (hlive : q < h.next) :
    overloads (heap_bound h outer_scope arg_definitions) q name = overloads h q name := by
  unfold heap_bound
  refine Eq.trans (overloads_modify _ _ _ _ _ ?_) (overloads_make_shared h _ q name hlive)
  intro s
  rfl

theorem overloads_heap_checked (h : heap) (outer_scope q : Nat) (name name2 : String)
    (arg_definitions : List argument_definition) (hlive : q < h.next) :
    overloads (heap_checked h outer_scope name arg_definitions) q name2 = overloads h q name2 := by
  unfold heap_checked
  rw [overloads_index]
  exact overloads_heap_bound h outer_scope q arg_definitions name2 hlive

/-- The declaring phase, step by step: when it succeeds every check of function.cpp
lines 29 to 92 has passed, and the heap it leaves is the checked heap with the forward
declaration appended under the name. -/
theorem function_declare_ok (env : collaborators) (input : List parse.cell)
    (outer_scope : Nat) (h h4 : heap) (d : declared)
    (hd : function_declare env input outer_scope h = (.ok d, h4)) :
    forms_required ≤ input.length
    ∧ expect_type_ident (input.getD 1 default) = .ok d.name
    ∧ d.nested_scope = h.next
    ∧ (∃ args, expect_type_list (input.getD 2 default) = .ok args
        ∧ env.parse_types args h.next (h.make_shared (some outer_scope)).2
            = .ok d.arg_definitions)
    ∧ has_overload (overloads (heap_bound h outer_scope d.arg_definitions) outer_scope d.name)
        d.arg_definitions = false
    ∧ (∃ names rest, expect_type_list (input.getD 3 default) = .ok names
        ∧ env.ret_parse names h.next (heap_checked h outer_scope d.name d.arg_definitions)
            = .ok (d.return_type :: rest))
    ∧ h4 = assign_function_definitions
        (index_function_definitions (heap_checked h outer_scope d.name d.arg_definitions)
          outer_scope d.name).2 outer_scope d.name
        (overloads (heap_checked h outer_scope d.name d.arg_definitions) outer_scope d.name
          ++ [d.declaration]) := by
  unfold function_declare at hd
  split at hd
  · simp at hd
  · rename_i hlen
    split at hd
    · simp at hd
    · rename_i name hname
      split at hd
      · simp at hd
      · rename_i args hargs
        simp only [heap.make_shared] at hd
        split at hd
        · simp at hd
        · rename_i arg_definitions hparse
          split at hd
          · simp at hd
          · rename_i hover
            split at hd
            · simp at hd
            · rename_i names hnames
              split at hd
              · simp at hd
              · simp at hd
              · rename_i return_type rest hret
                simp only [Prod.mk.injEq, Except.ok.injEq] at hd
                obtain ⟨hd1, hd2⟩ := hd
                subst hd1
                refine ⟨Nat.le_of_not_lt hlen, hname, rfl, ⟨args, hargs, hparse⟩, ?_,
                  ⟨names, rest, hnames, hret⟩, ?_⟩
                · rw [← index_function_definitions_fst]
                  simpa using hover
                · rw [← hd2, ← index_function_definitions_fst]
                  rfl

/-- The heap a failing declaring phase leaves: the heap of the call, that heap with the
nested scope allocated, or the checked heap. -/
theorem function_declare_error_heap (env : collaborators) (input : List parse.cell)
    (outer_scope : Nat) (h h1 : heap) (e : error)
    (hd : function_declare env input outer_scope h = (.error e, h1)) :
    h1 = h ∨ h1 = (h.make_shared (some outer_scope)).2
      ∨ ∃ name arg_definitions, h1 = heap_checked h outer_scope name arg_definitions := by
  unfold function_declare at hd
  split at hd
  · simp only [Prod.mk.injEq] at hd
    exact Or.inl hd.2.symm
  · split at hd
    · simp only [Prod.mk.injEq] at hd
      exact Or.inl hd.2.symm
    · rename_i name hname
      split at hd
      · simp only [Prod.mk.injEq] at hd
        exact Or.inl hd.2.symm
      · simp only [heap.make_shared] at hd
        split at hd
        · simp only [Prod.mk.injEq] at hd
          exact Or.inr (Or.inl hd.2.symm)
        · rename_i arg_definitions hparse
          split at hd
          · simp only [Prod.mk.injEq] at hd
            exact Or.inr (Or.inr ⟨name, arg_definitions, hd.2.symm⟩)
          · split at hd
            · simp only [Prod.mk.injEq] at hd
              exact Or.inr (Or.inr ⟨name, arg_definitions, hd.2.symm⟩)
            · split at hd
              · simp only [Prod.mk.injEq] at hd
                exact Or.inr (Or.inr ⟨name, arg_definitions, hd.2.symm⟩)
              · simp only [Prod.mk.injEq] at hd
                exact Or.inr (Or.inr ⟨name, arg_definitions, hd.2.symm⟩)
              · simp at hd

/-- A failing declaring phase leaves the overloads of every live scope as they were. -/
theorem function_declare_error_overloads (env : collaborators) (input : List parse.cell)
    (outer_scope : Nat) (h h1 : heap) (e : error)
    (hd : function_declare env input outer_scope h = (.error e, h1))
    (q : Nat) (hlive : q < h.next) (name : String) :
    overloads h1 q name = overloads h q name := by
  rcases function_declare_error_heap env input outer_scope h h1 e hd with
    hh | hh | ⟨n, defs, hh⟩
  · rw [hh]
  · rw [hh]
    exact overloads_make_shared h _ q name hlive
  · rw [hh]
    exact overloads_heap_checked h outer_scope q n name defs hlive

theorem expect_type_ident_error (c : parse.cell) (e : error)
    (hc : expect_type_ident c = .error e) : e = .unexpected_type := by
  cases c <;> simp [expect_type_ident] at hc <;> exact hc.symm

theorem expect_type_list_error (c : parse.cell) (e : error)
    (hc : expect_type_list c = .error e) : e = .unexpected_type := by
  cases c <;> simp [expect_type_list] at hc <;> exact hc.symm

/-- Where the exception of a failing declaring phase comes from. -/
theorem function_declare_error_cases (env : collaborators) (input : List parse.cell)
    (outer_scope : Nat) (h h1 : heap) (e : error)
    (hd : function_declare env input outer_scope h = (.error e, h1)) :
    (input.length < forms_required ∧ e = .syntax_exception "invalid function definition")
    ∨ (forms_required ≤ input.length
        ∧ (e = .unexpected_type ∨ e = .undefined_behaviour ∨ raised_by_collaborator env e
          ∨ ∃ name args arg_definitions,
              expect_type_ident (input.getD 1 default) = .ok name
              ∧ expect_type_list (input.getD 2 default) = .ok args
              ∧ env.parse_types args h.next (h.make_shared (some outer_scope)).2
                  = .ok arg_definitions
              ∧ has_overload (overloads (heap_bound h outer_scope arg_definitions)
                  outer_scope name) arg_definitions = true
              ∧ e = .type_overload ("multiple definition of: " ++ name))) := by
  unfold function_declare at hd
  split at hd
  · rename_i hlen
    simp only [Prod.mk.injEq, Except.error.injEq] at hd
    exact Or.inl ⟨hlen, hd.1.symm⟩
  · rename_i hlen
    refine Or.inr ⟨Nat.le_of_not_lt hlen, ?_⟩
    split at hd
    · rename_i e1 hname
      simp only [Prod.mk.injEq, Except.error.injEq] at hd
      left
      rw [← hd.1]
      exact expect_type_ident_error _ _ hname
    · rename_i name hname
      split at hd
      · rename_i e1 hargs
        simp only [Prod.mk.injEq, Except.error.injEq] at hd
        left
        rw [← hd.1]
        exact expect_type_list_error _ _ hargs
      · rename_i args hargs
        simp only [heap.make_shared] at hd
        split at hd
        · rename_i e1 hparse
          simp only [Prod.mk.injEq, Except.error.injEq] at hd
          right; right; left
          rw [← hd.1]
          exact Or.inl ⟨args, _, _, hparse⟩
        · rename_i arg_definitions hparse
          split at hd
          · rename_i hover
            simp only [Prod.mk.injEq, Except.error.injEq] at hd
            right; right; right
            refine ⟨name, args, arg_definitions, hname, hargs, hparse, ?_, hd.1.symm⟩
            rw [← index_function_definitions_fst]
            simpa using hover
          · split at hd
            · rename_i e1 hnames
              simp only [Prod.mk.injEq, Except.error.injEq] at hd
              left
              rw [← hd.1]
              exact expect_type_list_error _ _ hnames
            · rename_i names hnames
              split at hd
              · rename_i e1 hret
                simp only [Prod.mk.injEq, Except.error.injEq] at hd
                right; right; left
                rw [← hd.1]
                exact Or.inr (Or.inl ⟨names, _, _, hret⟩)
              · simp only [Prod.mk.injEq, Except.error.injEq] at hd
                right; left
                exact hd.1.symm
              · simp at hd

end declare

/-! ## The effect of the defining phase -/

section define

open environment.special

/-- The defining phase, step by step: when it succeeds the body was translated, validated
and deduced, an overload was there to be replaced, and the returned definition has
replaced the last one. -/
theorem function_define_ok (env : collaborators) (input : List parse.cell)
    (outer_scope : Nat) (d : declared) (h4 h6 : heap) (c : cell)
    (hf : function_define env input outer_scope d h4 = (.ok c, h6)) :
    ∃ body h5 validated deduced,
      env.translate (input.drop forms_required) d.nested_scope d.return_type h4 = (.ok body, h5)
      ∧ env.ret_validate body = .ok validated
      ∧ env.ret_deduce validated = .ok deduced
      ∧ overloads h5 outer_scope d.name ≠ []
      ∧ c = cell.function_definition
          { name := d.name, arguments := d.arg_definitions,
            return_type := deduced.return_type, body := deduced,
            scope := some d.nested_scope }
      ∧ h6 = assign_function_definitions
          (index_function_definitions h5 outer_scope d.name).2 outer_scope d.name
          ((overloads h5 outer_scope d.name).dropLast ++
            [{ name := d.name, arguments := d.arg_definitions,
               return_type := deduced.return_type, body := deduced,
               scope := some d.nested_scope }]) := by
  unfold function_define function_finish at hf
  split at hf
  · simp at hf
  · rename_i body h5 htr
    split at hf
    · simp at hf
    · rename_i validated hval
      split at hf
      · simp at hf
      · rename_i deduced hded
        simp only at hf
        split at hf
        · simp at hf
        · rename_i f fs hdecls
          simp only [Prod.mk.injEq, Except.ok.injEq] at hf
          rw [index_function_definitions_fst] at hdecls
          refine ⟨body, h5, validated, deduced, htr, hval, hded, ?_, hf.1.symm, ?_⟩
          · rw [hdecls]
            simp
          · rw [← hf.2, index_function_definitions_fst, hdecls]

/-- A failing defining phase: the exception comes from a collaborator, or the vector
whose last element is to be replaced was empty; either way the overloads of every scope
are those the body translator left. -/
theorem function_define_error (env : collaborators) (input : List parse.cell)
    (outer_scope : Nat) (d : declared) (h4 h6 : heap) (e : error)
    (hf : function_define env input outer_scope d h4 = (.error e, h6)) :
    (raised_by_collaborator env e
      ∨ (e = .undefined_behaviour
          ∧ overloads
              (env.translate (input.drop forms_required) d.nested_scope d.return_type h4).2
              outer_scope d.name = []))
    ∧ ∀ q name, overloads h6 q name
        = overloads (env.translate (input.drop forms_required) d.nested_scope d.return_type h4).2
            q name := by
  unfold function_define function_finish at hf
  split at hf
  · rename_i e1 h5 htr
    simp only [Prod.mk.injEq, Except.error.injEq] at hf
    have hraised : raised_by_collaborator env e1 :=
      Or.inr (Or.inr (Or.inl
        ⟨input.drop forms_required, d.nested_scope, d.return_type, h4, by rw [htr]⟩))
    rw [htr, ← hf.1, ← hf.2]
    exact ⟨Or.inl hraised, fun _ _ => rfl⟩
  · rename_i body h5 htr
    rw [htr]
    split at hf
    · rename_i e1 hval
      simp only [Prod.mk.injEq, Except.error.injEq] at hf
      rw [← hf.1, ← hf.2]
      exact ⟨Or.inl (Or.inr (Or.inr (Or.inr (Or.inl ⟨_, hval⟩)))), fun _ _ => rfl⟩
    · rename_i validated hval
      split at hf
      · rename_i e1 hded
        simp only [Prod.mk.injEq, Except.error.injEq] at hf
        rw [← hf.1, ← hf.2]
        exact ⟨Or.inl (Or.inr (Or.inr (Or.inr (Or.inr ⟨_, hded⟩)))), fun _ _ => rfl⟩
      · simp only at hf
        split at hf
        · rename_i hdecls
          simp only [Prod.mk.injEq, Except.error.injEq] at hf
          rw [index_function_definitions_fst] at hdecls
          rw [← hf.1, ← hf.2]
          exact ⟨Or.inr ⟨rfl, hdecls⟩,
            fun q name => overloads_index h5 outer_scope q _ name⟩
        · simp at hf

end define

/-! ## Overloads after the declaring phase, and the bindings of the nested scope -/

section effect

open environment.special

/-- After a successful declaring phase the defining scope holds the overloads it held,
and the forward declaration after them under the name. -/
theorem function_declare_overloads (env : collaborators) (input : List parse.cell)
    (outer_scope : Nat) (h h4 : heap) (d : declared)
    (hd : function_declare env input outer_scope h = (.ok d, h4))
    (hlive : outer_scope < h.next) :
    overloads h4 outer_scope d.name = overloads h outer_scope d.name ++ [d.declaration]
    ∧ ∀ name, name ≠ d.name →
        overloads h4 outer_scope name = overloads h outer_scope name := by
  obtain ⟨_, _, _, _, _, _, hh4⟩ := function_declare_ok env input outer_scope h h4 d hd
  constructor
  · rw [hh4, overloads_assign_same, overloads_heap_checked _ _ _ _ _ _ hlive]
  · intro name hne
    rw [hh4, overloads_assign_other_name _ _ _ _ _ _ hne, overloads_index,
      overloads_heap_checked _ _ _ _ _ _ hlive]

theorem has_overload_eq_true (overloads : List function_definition)
    (arg_definitions : List argument_definition) :
    has_overload overloads arg_definitions = true
      ↔ ∃ overload ∈ overloads, overload.arguments = arg_definitions := by
  simp [has_overload]

theorem map_insert_keys_nodup {V : Type} (m : List (String × V)) (k : String) (v : V)
    (hm : (m.map Prod.fst).Nodup) : ((map_insert m k v).map Prod.fst).Nodup := by
  induction m with
  | nil => simp [map_insert]
  | cons kv rest ih =>
    obtain ⟨k1, v1⟩ := kv
    by_cases hk : k1 = k
    · simpa [map_insert, hk] using hm
    · simp only [map_insert, hk, if_false, List.map_cons, List.nodup_cons] at hm ⊢
      refine ⟨?_, ih hm.2⟩
      intro hmem
      apply hm.1
      clear ih hm
      induction rest with
      | nil =>
        simp [map_insert] at hmem
        exact absurd hmem hk
      | cons kv2 rest2 ih2 =>
        obtain ⟨k2, v2⟩ := kv2
        by_cases hk2 : k2 = k
        · simpa [map_insert, hk2] using hmem
        · simp only [map_insert, hk2, if_false, List.map_cons, List.mem_cons] at hmem ⊢
          rcases hmem with hmem | hmem
          · exact Or.inl hmem
          · exact Or.inr (ih2 hmem)

theorem bind_arguments_keys_nodup (arg_definitions : List argument_definition)
    (bindings : List (String × binding_definition))
    (hb : (bindings.map Prod.fst).Nodup) :
    ((bind_arguments arg_definitions bindings).map Prod.fst).Nodup := by
  induction arg_definitions generalizing bindings with
  | nil => simpa [bind_arguments] using hb
  | cons arg rest ih =>
    simp only [bind_arguments, List.foldl_cons]
    exact ih _ (map_insert_keys_nodup _ _ _ hb)

theorem map_find_bind_arguments (arg_definitions : List argument_definition)
    (bindings : List (String × binding_definition)) (name : String) :
    map_find (bind_arguments arg_definitions bindings) name
      = match map_find bindings name with
        | some b => some b
        | none => (arg_definitions.find? (fun arg => decide (arg.name = name))).map
            (fun arg => (argument_binding arg).2) := by
  induction arg_definitions generalizing bindings with
  | nil =>
    cases hb : map_find bindings name <;> simp [bind_arguments, hb]
  | cons arg rest ih =>
    simp only [bind_arguments, List.foldl_cons]
    have ih2 := ih (map_insert bindings (argument_binding arg).1 (argument_binding arg).2)
    simp only [bind_arguments] at ih2
    rw [ih2]
    by_cases hn : arg.name = name
    · subst hn
      have hkey : (argument_binding arg).1 = arg.name := rfl
      rw [hkey, map_find_insert_same]
      cases hb : map_find bindings arg.name <;> simp
    · have hkey : (argument_binding arg).1 = arg.name := rfl
      have hne : name ≠ arg.name := fun heq => hn heq.symm
      rw [hkey, map_find_insert_other _ _ _ _ hne]
      cases hb : map_find bindings name <;> simp [List.find?_cons, hn]

/-- The nested scope when the body is translated: a child of the defining scope that
holds the arguments, bound into the empty map of the fresh scope, and no function. -/
theorem function_declare_nested (env : collaborators) (input : List parse.cell)
    (outer_scope : Nat) (h h4 : heap) (d : declared)
    (hd : function_declare env input outer_scope h = (.ok d, h4))
    (hlive : outer_scope < h.next) :
    h4.deref d.nested_scope
      = { parent := some outer_scope
          binding_definitions := bind_arguments d.arg_definitions []
          function_definitions := [] } := by
  obtain ⟨_, _, hnested, _, _, _, hh4⟩ := function_declare_ok env input outer_scope h h4 d hd
  have hne : h.next ≠ outer_scope := (Nat.ne_of_lt hlive).symm
  rw [hh4, hnested]
  unfold assign_function_definitions index_function_definitions heap_checked
    index_function_definitions heap_bound
  simp only [deref_modify_other _ _ _ _ hne, deref_modify_same]
  simp [heap.make_shared, scope.mk_child]

/-- The bindings of the nested scope when the body is translated. -/
theorem function_declare_bindings (env : collaborators) (input : List parse.cell)
    (outer_scope : Nat) (h h4 : heap) (d : declared)
    (hd : function_declare env input outer_scope h = (.ok d, h4))
    (hlive : outer_scope < h.next) :
    (h4.deref d.nested_scope).binding_definitions = bind_arguments d.arg_definitions [] := by
  rw [function_declare_nested env input outer_scope h h4 d hd hlive]

/-- Resolution of the function's name from the nested scope when the body is translated:
the nested scope holds no function, its parent is the defining scope, which holds the
overloads of the name. -/
theorem function_declare_resolves (env : collaborators) (input : List parse.cell)
    (outer_scope : Nat) (h h4 : heap) (d : declared)
    (hd : function_declare env input outer_scope h = (.ok d, h4))
    (hlive : outer_scope < h.next) :
    find_function 2 h4 d.nested_scope d.name = some (overloads h4 outer_scope d.name) := by
  have hnested := function_declare_nested env input outer_scope h h4 d hd hlive
  have hown := (function_declare_overloads env input outer_scope h h4 d hd hlive).1
  have hcons : ∃ f fs, overloads h4 outer_scope d.name = f :: fs := by
    rw [hown]
    cases overloads h outer_scope d.name with
    | nil => exact ⟨_, _, rfl⟩
    | cons f fs => exact ⟨f, fs ++ [d.declaration], rfl⟩
  obtain ⟨f, fs, hfs⟩ := hcons
  rw [hfs]
  unfold overloads at hfs
  cases hfind : map_find (h4.deref outer_scope).function_definitions d.name with
  | none => simp [hfind] at hfs
  | some v =>
    rw [hfind] at hfs
    simp only [Option.getD_some] at hfs
    subst hfs
    simp [find_function, hnested, map_find, hfind]

/-- The checks of function.cpp lines 29 to 92 are all the declaring phase needs to pass. -/
theorem function_declare_of_checks (env : collaborators) (input : List parse.cell)
    (outer_scope : Nat) (h : heap) (name : String) (args names : List parse.cell)
    (arg_definitions : List argument_definition) (return_type : String) (rest : List String)
    (hsize : forms_required ≤ input.length)
    (hname : expect_type_ident (input.getD 1 default) = .ok name)
    (hargs : expect_type_list (input.getD 2 default) = .ok args)
    (hparse : env.parse_types args h.next (h.make_shared (some outer_scope)).2
      = .ok arg_definitions)
    (hover : has_overload (overloads (heap_bound h outer_scope arg_definitions) outer_scope name)
      arg_definitions = false)
    (hnames : expect_type_list (input.getD 3 default) = .ok names)
    (hret : env.ret_parse names h.next (heap_checked h outer_scope name arg_definitions)
      = .ok (return_type :: rest)) :
    (function_declare env input outer_scope h).1
      = .ok { name := name, arg_definitions := arg_definitions, return_type := return_type,
              nested_scope := h.next } := by
  have hlen : ¬ input.length < forms_required := Nat.not_lt.mpr hsize
  rw [← index_function_definitions_fst] at hover
  unfold heap_bound at hover
  unfold heap_checked heap_bound at hret
  simp only [heap.make_shared] at hparse hover hret
  unfold function_declare
  simp only [hlen, if_false, hname, hargs, heap.make_shared, hparse, hover, hnames, hret]
  simp

end effect

/-! ## Claims on `special::function` -/

section function_claims

open environment.special example_run

theorem translate_cell_claims_nothing_heap
    (find : heap → Nat → String → Option (List function_definition)) (scope : Option Nat)
    (c : parse.cell) (translated : function_body) (h : heap) :
    (translate_cell claims_nothing find scope c translated h).2 = h := by
  cases c with
  | list data =>
    simp only [translate_cell, expect_is_list, expect_type_list, claims_nothing, if_true]
    split
    · rfl
    · split
      · rfl
      · split
        · rfl
        · split <;> rfl
  | _ => rfl

theorem translate_each_claims_nothing_heap
    (find : heap → Nat → String → Option (List function_definition)) (scope : Option Nat)
    (range : List parse.cell) (translated : function_body) (h : heap) :
    (translate_each claims_nothing find scope range translated h).2 = h := by
  induction range generalizing translated h with
  | nil => rfl
  | cons c rest ih =>
    unfold translate_each
    have hc := translate_cell_claims_nothing_heap find scope c translated h
    split
    · rename_i e h1 hcell
      rw [hcell] at hc
      exact hc
    · rename_i translated1 h1 hcell
      rw [hcell] at hc
      rw [ih]
      exact hc

/-- The body translator of `env_translate` leaves the heap as it is. -/
theorem env_translate_heap (range : List parse.cell) (scope : Nat) (return_type : String)
    (h : heap) : (env_translate.translate range scope return_type h).2 = h := by
  have ht : (translate claims_nothing (find_function 8) range (some scope) h).2 = h := by
    unfold translate
    split
    · rfl
    · exact translate_each_claims_nothing_heap _ _ _ _ _
  simp only [env_translate]
  split
  · rename_i body h1 hb
    rw [hb] at ht
    exact ht
  · rename_i e h1 hb
    rw [hb] at ht
    exact ht

/-- C1: when `special::function` reaches the translation of the body (the declaring
phase has returned `d` and the heap `h4`), the body translator is called in `h4`, and in
`h4` the overloads of the defining scope under the function's name end with a declaration
that carries the name read from the input, the argument definitions `parse_types`
returned and the first return type `ret::parse` returned; for a live defining scope the
name then resolves from the nested scope to these overloads. -/
theorem function_declares_before_body (env : collaborators) (input : List parse.cell)
    (outer_scope : Nat) (h h4 : heap) (d : declared)
    (hd : function_declare env input outer_scope h = (.ok d, h4)) :
    function env input outer_scope h
      = function_finish env outer_scope d
          (env.translate (input.drop forms_required) d.nested_scope d.return_type h4)
    ∧ (overloads h4 outer_scope d.name).getLast? = some d.declaration
    ∧ d.declaration.name = d.name
    ∧ d.declaration.arguments = d.arg_definitions
    ∧ d.declaration.return_type = d.return_type
    ∧ expect_type_ident (input.getD 1 default) = .ok d.name
    ∧ (∃ args, expect_type_list (input.getD 2 default) = .ok args
        ∧ env.parse_types args d.nested_scope (h.make_shared (some outer_scope)).2
            = .ok d.arg_definitions)
    ∧ (∃ names rest, expect_type_list (input.getD 3 default) = .ok names
        ∧ env.ret_parse names d.nested_scope
            (heap_checked h outer_scope d.name d.arg_definitions)
            = .ok (d.return_type :: rest))
    ∧ (outer_scope < h.next →
        find_function 2 h4 d.nested_scope d.name = some (overloads h4 outer_scope d.name)) := by
  obtain ⟨_, hname, hnested, ⟨args, hargs, hparse⟩, _, ⟨names, rest, hnames, hret⟩, hh4⟩ :=
    function_declare_ok env input outer_scope h h4 d hd
  refine ⟨?_, ?_, rfl, rfl, rfl, hname, ⟨args, hargs, ?_⟩, ⟨names, rest, hnames, ?_⟩,
    function_declare_resolves env input outer_scope h h4 d hd⟩
  · simp only [function, hd, function_define]
  · rw [hh4, overloads_assign_same]
    simp
  · rw [hnested]
    exact hparse
  · rw [hnested]
    exact hret

/-- Witness of C1: for `(func f (a int) (int))` in the root scope the declaring phase
succeeds, the overloads under `f` then end with the declaration of `f`, and `f` resolves
from the nested scope. -/
theorem function_declares_before_body_witness :
    (function_declare example_run.env define_f 0 root_heap).1 = .ok declared_f
    ∧ (overloads (function_declare example_run.env define_f 0 root_heap).2 0 "f").getLast?
        = some declared_f.declaration
    ∧ find_function 2 (function_declare example_run.env define_f 0 root_heap).2 1 "f"
        = some [declared_f.declaration] :=
  have hw := function_declares_before_body example_run.env define_f 0 root_heap
    (function_declare example_run.env define_f 0 root_heap).2 declared_f rfl
  ⟨rfl, hw.2.1, hw.2.2.2.2.2.2.2.2 (by decide)⟩

/-- C2, as stated, fails: `(func f (a int) (int) ())` fails in the body (the empty list
is refused by `translate`) and leaves the forward declaration of `f` in the root scope,
which held nothing under `f`; `(func f (a int) int)` fails at the return types and leaves
an empty entry for `f` in the map, which was empty. -/
theorem function_failure_leaves_declaration :
    (function env_translate define_f_empty_list 0 root_heap).1
        = .error (.syntax_error "invalid empty list")
    ∧ overloads root_heap 0 "f" = []
    ∧ overloads (function env_translate define_f_empty_list 0 root_heap).2 0 "f"
        = [declared_f.declaration]
    ∧ (function example_run.env define_f_no_list 0 root_heap).1 = .error .unexpected_type
    ∧ (root_heap.deref 0).function_definitions = []
    ∧ ((function example_run.env define_f_no_list 0 root_heap).2.deref 0).function_definitions
        = [("f", [])] :=
  ⟨rfl, rfl, rfl, rfl, rfl, rfl⟩

end function_claims

section function_claims_3

open environment.special example_run

/-- The code of function.cpp makes no check of its own on repeated parameter names: with
an argument parser that checks nothing, `(func f (a int a int) ())`, which names the
parameter `a` twice, is accepted; the returned definition has both arguments, and the
nested scope, whose map of bindings keeps the first binding of a key, has one binding. -/
theorem function_accepts_repeated_parameter :
    example_run.env.parse_types [.ident "a", .ident "int", .ident "a", .ident "int"] 1
        (root_heap.make_shared (some 0)).2
      = .ok [{ name := "a", type := "int" }, { name := "a", type := "int" }]
    ∧ (function example_run.env define_repeated 0 root_heap).1
      = .ok (cell.function_definition
          { name := "f"
            arguments := [{ name := "a", type := "int" }, { name := "a", type := "int" }]
            return_type := "null"
            body := { cells := [], scope := some 1, return_type := "null" }
            scope := some 1 })
    ∧ (((function example_run.env define_repeated 0 root_heap).2.deref 1).binding_definitions.map
        Prod.fst) = ["a"] :=
  ⟨rfl, rfl, rfl⟩

/-- What lines 48 to 67 of function.cpp do with the argument definitions `parse_types`
returns, when the map of bindings keeps the first binding of a key: whenever the checks of
lines 29 to 92 pass, the declaring phase succeeds with all the argument definitions,
repeated names included, and in the nested scope every name is bound once, to the first
argument of that name. -/
theorem function_binds_first_of_repeated (env : collaborators) (input : List parse.cell)
    (outer_scope : Nat) (h : heap) (name : String) (args names : List parse.cell)
    (arg_definitions : List argument_definition) (return_type : String) (rest : List String)
    (hlive : outer_scope < h.next)
    (hsize : forms_required ≤ input.length)
    (hname : expect_type_ident (input.getD 1 default) = .ok name)
    (hargs : expect_type_list (input.getD 2 default) = .ok args)
    (hparse : env.parse_types args h.next (h.make_shared (some outer_scope)).2
      = .ok arg_definitions)
    (hover : ∀ overload ∈ overloads h outer_scope name, overload.arguments ≠ arg_definitions)
    (hnames : expect_type_list (input.getD 3 default) = .ok names)
    (hret : env.ret_parse names h.next (heap_checked h outer_scope name arg_definitions)
      = .ok (return_type :: rest)) :
    (function_declare env input outer_scope h).1
      = .ok { name := name, arg_definitions := arg_definitions, return_type := return_type,
              nested_scope := h.next }
    ∧ ((((function_declare env input outer_scope h).2.deref h.next).binding_definitions).map
        Prod.fst).Nodup
    ∧ ∀ n,
        map_find ((function_declare env input outer_scope h).2.deref h.next).binding_definitions n
        = (arg_definitions.find? (fun arg => decide (arg.name = n))).map
            (fun arg => (argument_binding arg).2) := by
  have hfalse : has_overload
      (overloads (heap_bound h outer_scope arg_definitions) outer_scope name)
      arg_definitions = false := by
    rw [Bool.eq_false_iff]
    intro htrue
    rw [has_overload_eq_true, overloads_heap_bound _ _ _ _ _ hlive] at htrue
    obtain ⟨overload, hmem, heq⟩ := htrue
    exact hover overload hmem heq
  have hok := function_declare_of_checks env input outer_scope h name args names
    arg_definitions return_type rest hsize hname hargs hparse hfalse hnames hret
  have hd : function_declare env input outer_scope h
      = (.ok { name := name, arg_definitions := arg_definitions, return_type := return_type,
               nested_scope := h.next }, (function_declare env input outer_scope h).2) :=
    Prod.ext hok rfl
  have hb := function_declare_bindings env input outer_scope h _ _ hd hlive
  simp only at hb
  refine ⟨hok, ?_, ?_⟩
  · rw [hb]
    exact bind_arguments_keys_nodup _ _ (by simp)
  · intro n
    rw [hb, map_find_bind_arguments]
    simp [map_find]

/-- The definition `(func f (a int a int) ())` in the root scope, with an argument parser
that checks nothing. -/
theorem function_binds_first_of_repeated_witness :
    (function_declare example_run.env define_repeated 0 root_heap).1
      = .ok { name := "f"
              arg_definitions := [{ name := "a", type := "int" }, { name := "a", type := "int" }]
              return_type := "null", nested_scope := 1 }
    ∧ (((function_declare example_run.env define_repeated 0 root_heap).2.deref
          1).binding_definitions.map Prod.fst).Nodup :=
  have hw := function_binds_first_of_repeated example_run.env define_repeated 0 root_heap "f"
    [.ident "a", .ident "int", .ident "a", .ident "int"] []
    [{ name := "a", type := "int" }, { name := "a", type := "int" }] "null" []
    (by decide) (by decide) rfl rfl rfl
    (by
      intro overload hmem
      have hnone : overloads root_heap 0 "f" = [] := rfl
      rw [hnone] at hmem
      simp at hmem)
    rfl rfl
  ⟨hw.1, hw.2.1⟩

end function_claims_3

/-! ## Claims on `translate` -/

section translate_claims

open example_run

/-- What `translate` does with an empty list form: the form goes to the handler, and
when the handler returns the syntax error `invalid empty list` is thrown. -/
theorem translate_cell_empty_list (handle : special_handler)
    (find : heap → Nat → String → Option (List function_definition)) (scope : Option Nat)
    (translated : function_body) (h : heap) :
    translate_cell handle find scope (parse.cell.list []) translated h
      = match handle [] translated h with
        | (.error e, h1) => (.error e, h1)
        | (.ok _, h1) => (.error (.syntax_error "invalid empty list"), h1) := by
  simp only [translate_cell, expect_is_list, expect_type_list, if_true]
  cases handle [] translated h with
  | mk r h1 =>
    cases r with
    | error e => rfl
    | ok special_opt => simp

theorem translate_each_empty_list (handle : special_handler)
    (find : heap → Nat → String → Option (List function_definition)) (scope : Option Nat)
    (range : List parse.cell) (translated : function_body) (h : heap)
    (hmem : parse.cell.list [] ∈ range) (body : function_body) :
    (translate_each handle find scope range translated h).1 ≠ .ok body := by
  induction range generalizing translated h with
  | nil => simp at hmem
  | cons c rest ih =>
    unfold translate_each
    split
    · simp
    · rename_i translated1 h1 hcell
      rcases List.mem_cons.mp hmem with hc | hrest
      · rw [← hc, translate_cell_empty_list] at hcell
        split at hcell <;> simp at hcell
      · exact ih translated1 h1 hrest

/-- C5, as stated, fails: given the one-form sequence `()`, `translate` calls the
handler with the empty list (a handler that refuses an empty list makes the call
visible), and with a handler that claims nothing it throws `invalid empty list` instead
of taking the form as a literal. -/
theorem translate_hands_empty_list_to_handler :
    (translate refuses_empty (find_function 8) [parse.cell.list []] (some 0) root_heap).1
      = .error (.other "handle called with an empty list")
    ∧ (translate claims_nothing (find_function 8) [parse.cell.list []] (some 0) root_heap).1
      = .error (.syntax_error "invalid empty list") :=
  ⟨rfl, rfl⟩

/-- C5, amended: for every input sequence given to `translate`, an empty list form is
passed to the special-form handler like any other list, and once the handler returns
`translate` throws the syntax error `invalid empty list`; so `translate` returns no body
for a sequence that contains an empty list form. -/
theorem translate_refuses_empty_list (handle : special_handler)
    (find : heap → Nat → String → Option (List function_definition)) (scope : Option Nat) :
    (∀ translated h,
      translate_cell handle find scope (parse.cell.list []) translated h
        = match handle [] translated h with
          | (.error e, h1) => (.error e, h1)
          | (.ok _, h1) => (.error (.syntax_error "invalid empty list"), h1))
    ∧ (∀ range h, parse.cell.list [] ∈ range →
        ∀ body, (translate handle find range scope h).1 ≠ .ok body) := by
  refine ⟨translate_cell_empty_list handle find scope, ?_⟩
  intro range h hmem body
  unfold translate
  split
  · rename_i hlen
    have hnil : range = [] := List.length_eq_zero.mp hlen
    rw [hnil] at hmem
    simp at hmem
  · exact translate_each_empty_list handle find scope range _ h hmem body

/-- Witness of the amended C5: the sequence `(f 1) ()` with a handler that claims
nothing. -/
theorem translate_refuses_empty_list_witness :
    parse.cell.list [] ∈ [parse.cell.list [.ident "f", .integer 1], parse.cell.list []]
    ∧ ∀ body, (translate claims_nothing (find_function 8)
        [parse.cell.list [.ident "f", .integer 1], parse.cell.list []] (some 0) family_heap).1
          ≠ .ok body :=
  ⟨by simp, (translate_refuses_empty_list claims_nothing (find_function 8) (some 0)).2
    [parse.cell.list [.ident "f", .integer 1], parse.cell.list []] family_heap (by simp)⟩

/-- C6 against the code: in `family_heap` the root scope holds the function `f`, no
handler claims the form `(f 1)`, and `translate` returns a body without cells: no call is
added for the form.  With a handler that claims nothing no cell is ever added, whatever
the form and whatever its head resolves to. -/
theorem translate_adds_no_call :
    find_function 8 family_heap 0 "f" = some [defined_f 1]
    ∧ claims_nothing [.ident "f", .integer 1] { cells := [], scope := some 0, return_type := "" }
        family_heap = (.ok none, family_heap)
    ∧ translate claims_nothing (find_function 8) [parse.cell.list [.ident "f", .integer 1]]
        (some 0) family_heap
      = (.ok { cells := [], scope := some 0, return_type := "" }, family_heap)
    ∧ ∀ (find : heap → Nat → String → Option (List function_definition)) (scope : Option Nat)
        (c : parse.cell) (translated : function_body) (h : heap),
        (∃ e, (translate_cell claims_nothing find scope c translated h).1 = .error e)
        ∨ (translate_cell claims_nothing find scope c translated h).1 = .ok translated := by
  refine ⟨rfl, rfl, rfl, ?_⟩
  intro find scope c translated h
  cases c with
  | list data =>
    simp only [translate_cell, expect_is_list, expect_type_list, claims_nothing, if_true]
    split
    · exact Or.inl ⟨_, rfl⟩
    · split
      · exact Or.inl ⟨_, rfl⟩
      · split
        · exact Or.inl ⟨_, rfl⟩
        · split <;> exact Or.inr rfl
  | _ => exact Or.inr rfl

end translate_claims

end translate

/-! ## Claims on the expression model -/

namespace analyze

/-- C9: for every evaluation context `t`, `is_statement t` is true iff `t` is `statement`
or `return_statement`, and false exactly for `expression`. -/
theorem is_statement_iff (t : expression_type) :
    (is_statement t = true ↔ t = .statement ∨ t = .return_statement)
    ∧ (is_statement t = false ↔ t = .expression) := by
  cases t <;> simp [is_statement]

/-- C10: the variant `expression::value_type` has exactly the 17 kinds the specification
lists: every alternative is in the list of alternatives, at the position `which` gives,
the list has 17 entries without repetition, and their names are the names of the
specification, each once. -/
theorem expression_kinds_closed :
    (∀ k : expression_kind, expression_kind.alternatives.get? k.which = some k)
    ∧ expression_kind.alternatives.length = 17
    ∧ expression_kind.alternatives.Nodup
    ∧ expression_kind.alternatives.map expression_kind.kind_name = spec_kinds
    ∧ spec_kinds.Nodup
    ∧ (∀ k : expression_kind, k.kind_name ∈ spec_kinds) := by
  refine ⟨?_, rfl, by decide, rfl, by decide, ?_⟩
  · intro k
    cases k <;> rfl
  · intro k
    cases k <;> decide

end analyze

/-! ## The reader: reading back the tokens of a form -/

namespace read

open runtime

theorem read_tokens_cons (stack : List pending) (t : token) (rest : List token) :
    read_tokens stack (t :: rest) =
      match t.opens with
      | some kind => read_tokens (⟨kind, []⟩ :: stack) rest
      | none =>
        match t.atom with
        | some o =>
          match deliver o stack with
          | .inl done => (.ok (some done), rest)
          | .inr stack1 => read_tokens stack1 rest
        | none =>
          match stack with
          | [] => (.error "unexpected closing token", rest)
          | ⟨kind, items⟩ :: below =>
            if closes t kind then
              match close_collection kind items with
              | .error e => (.error e, rest)
              | .ok o =>
                match deliver o below with
                | .inl done => (.ok (some done), rest)
                | .inr stack1 => read_tokens stack1 rest
            else (.error "mismatched closing token", rest) := by
  rfl

theorem read_tokens_open (t : token) (kind : delimiter) (stack : List pending)
    (rest : List token) (ht : t.opens = some kind) :
    read_tokens stack (t :: rest) = read_tokens (⟨kind, []⟩ :: stack) rest := by
  simp [read_tokens, ht]

theorem read_tokens_close (t : token) (kind : delimiter) (items : List object)
    (stack : List pending) (rest : List token) (o : object)
    (ho : t.opens = none) (ha : t.atom = none) (hc : closes t kind = true)
    (hk : close_collection kind items = .ok o) :
    read_tokens (⟨kind, items⟩ :: stack) (t :: rest) = resume o stack rest := by
  simp [read_tokens, ho, ha, hc, hk, resume]

theorem read_tokens_close_error (t : token) (kind : delimiter) (items : List object)
    (stack : List pending) (rest : List token) (e : String)
    (ho : t.opens = none) (ha : t.atom = none) (hc : closes t kind = true)
    (hk : close_collection kind items = .error e) :
    read_tokens (⟨kind, items⟩ :: stack) (t :: rest) = (.error e, rest) := by
  simp [read_tokens, ho, ha, hc, hk]

theorem deliver_push (o : object) (kind : delimiter) (items : List object)
    (stack : List pending) (hk : kind ≠ .quote) :
    deliver o (⟨kind, items⟩ :: stack) = .inr (⟨kind, o :: items⟩ :: stack) := by
  cases kind <;> simp [deliver] at hk ⊢

mutual
/-- The tokens of a form whose maps are all even are read back as that form. -/
theorem read_tokens_of (o : object) (stack : List pending) (rest : List token)
    (ho : o.even_maps = true) :
    read_tokens stack (tokens_of o ++ rest) = resume o stack rest := by
  cases o with
  | nil => simp [tokens_of, read_tokens, token.opens, token.atom, resume]
  | boolean b => simp [tokens_of, read_tokens, token.opens, token.atom, resume]
  | integer b => simp [tokens_of, read_tokens, token.opens, token.atom, resume]
  | string b => simp [tokens_of, read_tokens, token.opens, token.atom, resume]
  | keyword b => simp [tokens_of, read_tokens, token.opens, token.atom, resume]
  | symbol b => simp [tokens_of, read_tokens, token.opens, token.atom, resume]
  | list data =>
    simp only [object.even_maps] at ho
    rw [tokens_of, List.cons_append, List.append_assoc,
      read_tokens_open .open_paren .paren _ _ rfl,
      read_tokens_of_all data .paren [] stack _ (by decide) ho]
    exact read_tokens_close _ _ _ _ _ _ rfl rfl rfl (by simp [close_collection])
  | vector data =>
    simp only [object.even_maps] at ho
    rw [tokens_of, List.cons_append, List.append_assoc,
      read_tokens_open .open_square_bracket .square _ _ rfl,
      read_tokens_of_all data .square [] stack _ (by decide) ho]
    exact read_tokens_close _ _ _ _ _ _ rfl rfl rfl (by simp [close_collection])
  | map data =>
    simp only [object.even_maps, Bool.and_eq_true, beq_iff_eq] at ho
    rw [tokens_of, List.cons_append, List.append_assoc,
      read_tokens_open .open_curly_bracket .curly _ _ rfl,
      read_tokens_of_all data .curly [] stack _ (by decide) ho.2]
    exact read_tokens_close _ _ _ _ _ _ rfl rfl rfl (by simp [close_collection, ho.1])
  | set data =>
    simp only [object.even_maps] at ho
    rw [tokens_of, List.cons_append, List.append_assoc,
      read_tokens_open .open_set .set _ _ rfl,
      read_tokens_of_all data .set [] stack _ (by decide) ho]
    exact read_tokens_close _ _ _ _ _ _ rfl rfl rfl (by simp [close_collection])
/-- The tokens of a sequence of such forms are read as the next elements of the form
that is open. -/
theorem read_tokens_of_all (data : List object) (kind : delimiter) (items : List object)
    (stack : List pending) (rest : List token) (hk : kind ≠ .quote)
    (hd : object.all_even_maps data = true) :
    read_tokens (⟨kind, items⟩ :: stack) (tokens_of_all data ++ rest)
      = read_tokens (⟨kind, data.reverse ++ items⟩ :: stack) rest := by
  cases data with
  | nil => simp [tokens_of_all]
  | cons o more =>
    simp only [object.all_even_maps, Bool.and_eq_true] at hd
    rw [tokens_of_all, List.append_assoc, read_tokens_of o _ _ hd.1]
    simp only [resume, deliver_push o kind items stack hk]
    rw [read_tokens_of_all more kind (o :: items) stack rest hk hd.2]
    simp
end

mutual
/-- The tokens of a form that holds a map of odd length, at any depth, are refused. -/
theorem read_tokens_of_odd (o : object) (stack : List pending) (rest : List token)
    (ho : o.even_maps = false) :
    (read_tokens stack (tokens_of o ++ rest)).1 = .error odd_map := by
  cases o with
  | nil => simp [object.even_maps] at ho
  | boolean b => simp [object.even_maps] at ho
  | integer b => simp [object.even_maps] at ho
  | string b => simp [object.even_maps] at ho
  | keyword b => simp [object.even_maps] at ho
  | symbol b => simp [object.even_maps] at ho
  | list data =>
    simp only [object.even_maps] at ho
    rw [tokens_of, List.cons_append, List.append_assoc,
      read_tokens_open .open_paren .paren _ _ rfl]
    exact read_tokens_of_all_odd data .paren [] stack _ (by decide) ho
  | vector data =>
    simp only [object.even_maps] at ho
    rw [tokens_of, List.cons_append, List.append_assoc,
      read_tokens_open .open_square_bracket .square _ _ rfl]
    exact read_tokens_of_all_odd data .square [] stack _ (by decide) ho
  | map data =>
    rw [tokens_of, List.cons_append, List.append_assoc,
      read_tokens_open .open_curly_bracket .curly _ _ rfl]
    cases hall : object.all_even_maps data with
    | false => exact read_tokens_of_all_odd data .curly [] stack _ (by decide) hall
    | true =>
      simp only [object.even_maps, hall, Bool.and_true, beq_eq_false_iff_ne, ne_eq] at ho
      have hodd : data.length % 2 = 1 := by omega
      rw [read_tokens_of_all data .curly [] stack _ (by decide) hall, List.singleton_append,
        read_tokens_close_error .close_curly_bracket .curly _ _ _ odd_map rfl rfl rfl
          (by simp [close_collection, hodd])]
  | set data =>
    simp only [object.even_maps] at ho
    rw [tokens_of, List.cons_append, List.append_assoc,
      read_tokens_open .open_set .set _ _ rfl]
    exact read_tokens_of_all_odd data .set [] stack _ (by decide) ho
/-- The same for a sequence of forms one of which holds such a map. -/
theorem read_tokens_of_all_odd (data : List object) (kind : delimiter) (items : List object)
    (stack : List pending) (rest : List token) (hk : kind ≠ .quote)
    (hd : object.all_even_maps data = false) :
    (read_tokens (⟨kind, items⟩ :: stack) (tokens_of_all data ++ rest)).1
      = .error odd_map := by
  cases data with
  | nil => simp [object.all_even_maps] at hd
  | cons o more =>
    rw [tokens_of_all, List.append_assoc]
    cases hfirst : o.even_maps with
    | false => exact read_tokens_of_odd o _ _ hfirst
    | true =>
      simp only [object.all_even_maps, hfirst, Bool.true_and] at hd
      rw [read_tokens_of o _ _ hfirst]
      simp only [resume, deliver_push o kind items stack hk]
      exact read_tokens_of_all_odd more kind (o :: items) stack rest hk hd
end

theorem all_even_maps_append (xs ys : List object) :
    object.all_even_maps (xs ++ ys)
      = (object.all_even_maps xs && object.all_even_maps ys) := by
  induction xs with
  | nil => simp [object.all_even_maps]
  | cons x rest ih => simp [object.all_even_maps, ih, Bool.and_assoc]

theorem all_even_maps_reverse (xs : List object) :
    object.all_even_maps xs.reverse = object.all_even_maps xs := by
  induction xs with
  | nil => rfl
  | cons x rest ih =>
    simp [object.all_even_maps, all_even_maps_append, ih, Bool.and_comm]

theorem close_collection_even (kind : delimiter) (items : List object) (o : object)
    (hi : object.all_even_maps items = true) (hk : close_collection kind items = .ok o) :
    o.even_maps = true := by
  cases kind with
  | paren =>
    simp only [close_collection, Except.ok.injEq] at hk
    subst hk
    simp [object.even_maps, all_even_maps_reverse, hi]
  | square =>
    simp only [close_collection, Except.ok.injEq] at hk
    subst hk
    simp [object.even_maps, all_even_maps_reverse, hi]
  | curly =>
    simp only [close_collection] at hk
    split at hk
    · simp at hk
    · rename_i hodd
      simp only [Except.ok.injEq] at hk
      subst hk
      have heven : items.length % 2 = 0 := by omega
      simp [object.even_maps, all_even_maps_reverse, hi, heven]
  | set =>
    simp only [close_collection, Except.ok.injEq] at hk
    subst hk
    simp [object.even_maps, all_even_maps_reverse, hi]
  | quote => simp [close_collection] at hk

theorem deliver_even (o : object) (stack : List pending) (ho : o.even_maps = true)
    (hs : stack_even stack) :
    (∀ done, deliver o stack = .inl done → done.even_maps = true)
    ∧ (∀ stack1, deliver o stack = .inr stack1 → stack_even stack1) := by
  induction stack generalizing o with
  | nil =>
    constructor
    · intro done hd
      simp only [deliver, Sum.inl.injEq] at hd
      rw [← hd]
      exact ho
    · intro stack1 hd
      simp [deliver] at hd
  | cons p below ih =>
    obtain ⟨kind, items⟩ := p
    have hbelow : stack_even below := fun q hq => hs q (List.mem_cons_of_mem _ hq)
    have hitems : object.all_even_maps items = true := hs ⟨kind, items⟩ (List.mem_cons_self _ _)
    by_cases hk : kind = .quote
    · subst hk
      have hq : (object.list [.symbol "quote", o]).even_maps = true := by
        simp [object.even_maps, object.all_even_maps, ho]
      simpa [deliver] using ih (.list [.symbol "quote", o]) hq hbelow
    · rw [deliver_push o kind items below hk]
      constructor
      · intro done hd
        simp at hd
      · intro stack1 hd
        simp only [Sum.inr.injEq] at hd
        subst hd
        intro q hq
        rcases List.mem_cons.mp hq with hq | hq
        · subst hq
          simp [object.all_even_maps, ho, hitems]
        · exact hbelow q hq

/-- Every form the reader returns has maps of even length only, at every depth. -/
theorem read_tokens_even (tokens : List token) (stack : List pending) (o : object)
    (rest : List token) (hs : stack_even stack)
    (hr : read_tokens stack tokens = (.ok (some o), rest)) : o.even_maps = true := by
  induction tokens generalizing stack with
  | nil =>
    cases stack <;> simp [read_tokens] at hr
  | cons t more ih =>
    rw [read_tokens_cons] at hr
    split at hr
    · rename_i kind hopen
      refine ih (⟨kind, []⟩ :: stack) ?_ hr
      intro q hq
      rcases List.mem_cons.mp hq with hq | hq
      · subst hq
        rfl
      · exact hs q hq
    · split at hr
      · rename_i a hatom
        have ha : a.even_maps = true := by
          cases t <;> simp [token.atom] at hatom <;> subst hatom <;> rfl
        have hdel := deliver_even a stack ha hs
        split at hr
        · rename_i done hd
          simp only [Prod.mk.injEq, Except.ok.injEq, Option.some.injEq] at hr
          rw [← hr.1]
          exact hdel.1 done hd
        · rename_i stack1 hd
          exact ih stack1 (hdel.2 stack1 hd) hr
      · split at hr
        · simp at hr
        · rename_i kind items below
          split at hr
          · split at hr
            · simp at hr
            · rename_i c hclose
              have hitems : object.all_even_maps items = true :=
                hs ⟨kind, items⟩ (List.mem_cons_self _ _)
              have hbelow : stack_even below := fun q hq => hs q (List.mem_cons_of_mem _ hq)
              have hc := close_collection_even kind items c hitems hclose
              have hdel := deliver_even c below hc hbelow
              split at hr
              · rename_i done hd
                simp only [Prod.mk.injEq, Except.ok.injEq, Option.some.injEq] at hr
                rw [← hr.1]
                exact hdel.1 done hd
              · rename_i stack1 hd
                exact ih stack1 (hdel.2 stack1 hd) hr
          · simp at hr

end read

/-! ## Claims on the file harness -/

namespace jit

theorem starts_with_pass (filename : String) (h : starts_with filename "pass-" = true) :
    starts_with filename "fail-" = false ∧ starts_with filename "throw-" = false
      ∧ starts_with filename "warn-" = false := by
  unfold starts_with at *
  generalize filename.toList = l at h
  have hp : "pass-".toList = ['p', 'a', 's', 's', '-'] := rfl
  have h1 : "fail-".toList = ['f', 'a', 'i', 'l', '-'] := rfl
  have h2 : "throw-".toList = ['t', 'h', 'r', 'o', 'w', '-'] := rfl
  have h3 : "warn-".toList = ['w', 'a', 'r', 'n', '-'] := rfl
  rw [hp] at h
  rw [h1, h2, h3]
  cases l with
  | nil => simp [List.isPrefixOf] at h
  | cons c rest =>
    simp only [List.isPrefixOf, Bool.and_eq_true, beq_iff_eq] at h
    have hc : c = 'p' := h.1.symm
    subst hc
    simp [List.isPrefixOf]

theorem starts_with_throw (filename : String) (h : starts_with filename "throw-" = true) :
    starts_with filename "pass-" = false ∧ starts_with filename "fail-" = false
      ∧ starts_with filename "warn-" = false := by
  unfold starts_with at *
  generalize filename.toList = l at h
  have hp : "pass-".toList = ['p', 'a', 's', 's', '-'] := rfl
  have h1 : "fail-".toList = ['f', 'a', 'i', 'l', '-'] := rfl
  have h2 : "throw-".toList = ['t', 'h', 'r', 'o', 'w', '-'] := rfl
  have h3 : "warn-".toList = ['w', 'a', 'r', 'n', '-'] := rfl
  rw [h2] at h
  rw [hp, h1, h3]
  cases l with
  | nil => simp [List.isPrefixOf] at h
  | cons c rest =>
    simp only [List.isPrefixOf, Bool.and_eq_true, beq_iff_eq] at h
    have hc : c = 't' := h.1.symm
    subst hc
    simp [List.isPrefixOf]

theorem append_singleton_ne {α : Type} (l : List α) (a : α) : l ++ [a] ≠ l := by
  intro h
  have hl := congrArg List.length h
  simp at hl

/-- C19: for a file named `pass-*` the harness adds no entry to `failures` iff the
evaluation returns, without throwing, a non-null result equal to the keyword `:success`;
after every other outcome `failures` has one entry more. -/
theorem pass_file_outcome {O K : Type} (rt : runtime_context O K) (path filename : String)
    (outcome : evaluation O K) (failures : List failure)
    (hname : starts_with filename "pass-" = true) :
    ((test_file rt path filename outcome failures).1 = failures
      ↔ ∃ r, outcome = .returned (some r) ∧ is_cardinal rt (some r) = true)
    ∧ ((test_file rt path filename outcome failures).1 = failures
      ∨ ∃ f, (test_file rt path filename outcome failures).1 = failures ++ [f]) := by
  obtain ⟨hfail, hthrow, _⟩ := starts_with_pass filename hname
  cases outcome with
  | returned result =>
    cases result with
    | none => simp [test_file, hname, append_singleton_ne]
    | some r =>
      cases hc : is_cardinal rt (some r) <;>
        simp [test_file, hname, hc, append_singleton_ne]
  | threw_std_exception what => simp [test_file, hname, append_singleton_ne]
  | threw_object e => simp [test_file, hname, append_singleton_ne]
  | threw_keyword e => simp [test_file, hname, hthrow, append_singleton_ne]
  | threw_unknown => simp [test_file, hname, append_singleton_ne]

/-- Witness of C19: `pass-ok` returning the keyword adds nothing, `pass-ok` throwing the
keyword adds an entry. -/
theorem pass_file_outcome_witness :
    (test_file example_runtime "test/jank/pass-ok" "pass-ok"
        (.returned (some "success")) []).1 = []
    ∧ (test_file example_runtime "test/jank/pass-ok" "pass-ok"
        (.threw_keyword (some "success")) []).1 ≠ [] := by
  have hr := pass_file_outcome example_runtime "test/jank/pass-ok" "pass-ok"
    (.returned (some "success")) [] (by decide)
  have ht := pass_file_outcome example_runtime "test/jank/pass-ok" "pass-ok"
    (.threw_keyword (some "success")) [] (by decide)
  refine ⟨hr.1.mpr ⟨"success", rfl, by decide⟩, ?_⟩
  intro hnone
  obtain ⟨r, hret, _⟩ := ht.1.mp hnone
  simp at hret

/-- C20: for a file named `throw-*` the harness adds no entry to `failures` iff the
evaluation throws a runtime value, an object or a keyword, equal to the keyword
`:success`; after a normal return, a `std::exception`, an unknown exception or any other
thrown value `failures` has one entry more. -/
theorem throw_file_outcome {O K : Type} (rt : runtime_context O K) (path filename : String)
    (outcome : evaluation O K) (failures : List failure)
    (hname : starts_with filename "throw-" = true) :
    ((test_file rt path filename outcome failures).1 = failures
      ↔ (∃ e, outcome = .threw_object e ∧ is_cardinal rt e = true)
        ∨ (∃ e, outcome = .threw_keyword e ∧ is_cardinal rt (rt.as_object e) = true))
    ∧ ((test_file rt path filename outcome failures).1 = failures
      ∨ ∃ f, (test_file rt path filename outcome failures).1 = failures ++ [f]) := by
  obtain ⟨hpass, hfail, _⟩ := starts_with_throw filename hname
  cases outcome with
  | returned result => simp [test_file, hname, hpass, append_singleton_ne]
  | threw_std_exception what => simp [test_file, hname, append_singleton_ne]
  | threw_object e =>
    cases hc : is_cardinal rt e <;>
      simp [test_file, hname, hpass, hfail, hc, append_singleton_ne]
  | threw_keyword e =>
    cases hc : is_cardinal rt (rt.as_object e) <;>
      simp [test_file, hname, hc, append_singleton_ne]
  | threw_unknown => simp [test_file, hname, append_singleton_ne]

/-- Witness of C20: `throw-ok` throwing the keyword adds nothing, `throw-ok` returning
the keyword adds an entry. -/
theorem throw_file_outcome_witness :
    (test_file example_runtime "test/jank/throw-ok" "throw-ok"
        (.threw_keyword (some "success")) []).1 = []
    ∧ (test_file example_runtime "test/jank/throw-ok" "throw-ok"
        (.returned (some "success")) []).1 ≠ [] := by
  have hk := throw_file_outcome example_runtime "test/jank/throw-ok" "throw-ok"
    (.threw_keyword (some "success")) [] (by decide)
  have hr := throw_file_outcome example_runtime "test/jank/throw-ok" "throw-ok"
    (.returned (some "success")) [] (by decide)
  refine ⟨hk.1.mpr (Or.inr ⟨some "success", rfl, by decide⟩), ?_⟩
  intro hnone
  rcases hr.1.mp hnone with ⟨e, he, _⟩ | ⟨e, he, _⟩ <;> simp at he

end jit

/-! ## The analyzer: unfolding and the context of a node -/

namespace analyze

open runtime

theorem analyze_list_cons (head : object) (tail : List object) (frame : local_frame)
    (context : expression_type) (vars : List String) :
    analyze (.list (head :: tail)) frame context vars =
    match special.of head with
    | some operator =>
      if special.shadowed head frame then .error ⟨.illegal_shadow, .list (head :: tail)⟩
      else
        match operator with
        | .def_ => analyze_def head tail frame context vars
        | .let_ => analyze_let head tail frame context vars
        | .do_ =>
          match analyze_body tail frame context vars with
          | .error e => .error e
          | .ok (body, vars1) =>
            .ok (.do_ { expr_type := context, frame := some frame } body, vars1)
        | .if_ => analyze_if head tail frame context vars
        | .throw_ => analyze_throw head tail frame context vars
        | .try_ =>
          match analyze_try tail frame context vars false with
          | .error e => .error e
          | .ok ((body, catches, finally_), vars1) =>
            .ok (.try_ { expr_type := context, frame := some frame } body catches finally_,
              vars1)
        | .fn => analyze_fn head tail frame context vars
        | .recur =>
          match frame.recur_target with
          | none => .error ⟨.illegal_recur, .list (head :: tail)⟩
          | some arity =>
            if tail.length ≠ arity then .error ⟨.arity_mismatch, .list (head :: tail)⟩
            else if context ≠ .return_statement then
              .error ⟨.illegal_recur, .list (head :: tail)⟩
            else
              match analyze_all tail frame vars with
              | .error e => .error e
              | .ok (exprs, vars1) =>
                .ok (.recur { expr_type := context, frame := some frame } tail exprs, vars1)
        | .native_raw =>
          .ok (.native_raw { expr_type := context, frame := some frame } tail, vars)
    | none =>
      match analyze head frame .expression vars with
      | .error e => .error e
      | .ok (source, vars1) =>
      match analyze_all tail frame vars1 with
      | .error e => .error e
      | .ok (exprs, vars2) =>
        if check_call source tail.length then
          .ok (.call { expr_type := context, frame := some frame } source tail exprs, vars2)
        else .error ⟨.arity_mismatch, .list (head :: tail)⟩ := by
  rfl

theorem literal_expr_type (data : object) (frame : local_frame) (context : expression_type) :
    (literal data frame context).expr_type = context := rfl

theorem analyze_def_expr_type (head : object) (tail : List object) (frame : local_frame)
    (context : expression_type) (vars vars1 : List String) (e : expression)
    (h : analyze_def head tail frame context vars = .ok (e, vars1)) :
    e.expr_type = context := by
  unfold analyze_def at h
  split at h
  · split at h
    · simp at h
    · simp only [Except.ok.injEq, Prod.mk.injEq] at h
      rw [← h.1]
      rfl
  · simp at h

theorem analyze_let_expr_type (head : object) (tail : List object) (frame : local_frame)
    (context : expression_type) (vars vars1 : List String) (e : expression)
    (h : analyze_let head tail frame context vars = .ok (e, vars1)) :
    e.expr_type = context := by
  unfold analyze_let at h
  split at h
  · split at h
    · simp at h
    · split at h
      · simp at h
      · split at h
        · simp at h
        · simp only [Except.ok.injEq, Prod.mk.injEq] at h
          rw [← h.1]
          rfl
  · simp at h

theorem analyze_if_expr_type (head : object) (tail : List object) (frame : local_frame)
    (context : expression_type) (vars vars1 : List String) (e : expression)
    (h : analyze_if head tail frame context vars = .ok (e, vars1)) :
    e.expr_type = context := by
  unfold analyze_if at h
  split at h
  · split at h
    · simp at h
    · split at h
      · simp at h
      · simp only [Except.ok.injEq, Prod.mk.injEq] at h
        rw [← h.1]
        rfl
  · split at h
    · simp at h
    · split at h
      · simp at h
      · split at h
        · simp at h
        · simp only [Except.ok.injEq, Prod.mk.injEq] at h
          rw [← h.1]
          rfl
  · simp at h

theorem analyze_throw_expr_type (head : object) (tail : List object) (frame : local_frame)
    (context : expression_type) (vars vars1 : List String) (e : expression)
    (h : analyze_throw head tail frame context vars = .ok (e, vars1)) :
    e.expr_type = context := by
  unfold analyze_throw at h
  split at h
  · split at h
    · simp at h
    · simp only [Except.ok.injEq, Prod.mk.injEq] at h
      rw [← h.1]
      rfl
  · simp at h

theorem analyze_fn_expr_type (head : object) (tail : List object) (frame : local_frame)
    (context : expression_type) (vars vars1 : List String) (e : expression)
    (h : analyze_fn head tail frame context vars = .ok (e, vars1)) :
    e.expr_type = context := by
  unfold analyze_fn at h
  repeat' split at h
  all_goals first
    | (simp at h; done)
    | (simp only [Except.ok.injEq, Prod.mk.injEq] at h
       rw [← h.1]
       rfl)

/-- The node `analyze` returns has the evaluation context it was asked for. -/
theorem analyze_expr_type (form : object) (frame : local_frame) (context : expression_type)
    (vars vars1 : List String) (e : expression)
    (h : analyze form frame context vars = .ok (e, vars1)) : e.expr_type = context := by
  cases form with
  | nil =>
    have hu : analyze .nil frame context vars = .ok (literal .nil frame context, vars) := rfl
    rw [hu] at h
    simp only [Except.ok.injEq, Prod.mk.injEq] at h
    rw [← h.1]
    rfl
  | boolean b =>
    have hu : analyze (.boolean b) frame context vars
        = .ok (literal (.boolean b) frame context, vars) := rfl
    rw [hu] at h
    simp only [Except.ok.injEq, Prod.mk.injEq] at h
    rw [← h.1]
    rfl
  | integer n =>
    have hu : analyze (.integer n) frame context vars
        = .ok (literal (.integer n) frame context, vars) := rfl
    rw [hu] at h
    simp only [Except.ok.injEq, Prod.mk.injEq] at h
    rw [← h.1]
    rfl
  | string s =>
    have hu : analyze (.string s) frame context vars
        = .ok (literal (.string s) frame context, vars) := rfl
    rw [hu] at h
    simp only [Except.ok.injEq, Prod.mk.injEq] at h
    rw [← h.1]
    rfl
  | keyword k =>
    have hu : analyze (.keyword k) frame context vars
        = .ok (literal (.keyword k) frame context, vars) := rfl
    rw [hu] at h
    simp only [Except.ok.injEq, Prod.mk.injEq] at h
    rw [← h.1]
    rfl
  | symbol name =>
    have hu : analyze (.symbol name) frame context vars
        = (match resolve_symbol name frame context vars with
          | .ok e => .ok (e, vars)
          | .error k => .error ⟨k, .symbol name⟩) := rfl
    rw [hu] at h
    unfold resolve_symbol at h
    repeat' split at h
    all_goals first
      | (simp at h; done)
      | (rename_i heq
         simp only [Except.ok.injEq, Prod.mk.injEq] at h
         rw [← h.1]
         split at heq
         · simp only [Except.ok.injEq] at heq
           rw [← heq]
           rfl
         · split at heq
           · simp only [Except.ok.injEq] at heq
             rw [← heq]
             rfl
           · simp at heq)
  | vector data =>
    have hu : analyze (.vector data) frame context vars
        = (match analyze_all data frame vars with
          | .error e => .error e
          | .ok (exprs, vars1) =>
            .ok (.vector { expr_type := context, frame := some frame } exprs, vars1)) := rfl
    rw [hu] at h
    split at h
    · simp at h
    · simp only [Except.ok.injEq, Prod.mk.injEq] at h
      rw [← h.1]
      rfl
  | map data =>
    have hu : analyze (.map data) frame context vars
        = (if data.length % 2 = 1 then .error ⟨.syntax_shape, .map data⟩
          else
            match analyze_all data frame vars with
            | .error e => .error e
            | .ok (exprs, vars1) =>
              .ok (.map { expr_type := context, frame := some frame } exprs, vars1)) := rfl
    rw [hu] at h
    split at h
    · simp at h
    · split at h
      · simp at h
      · simp only [Except.ok.injEq, Prod.mk.injEq] at h
        rw [← h.1]
        rfl
  | set data =>
    have hu : analyze (.set data) frame context vars
        = (match analyze_all data frame vars with
          | .error e => .error e
          | .ok (exprs, vars1) =>
            .ok (.set { expr_type := context, frame := some frame } exprs, vars1)) := rfl
    rw [hu] at h
    split at h
    · simp at h
    · simp only [Except.ok.injEq, Prod.mk.injEq] at h
      rw [← h.1]
      rfl
  | list data =>
    cases data with
    | nil =>
      have hu : analyze (.list []) frame context vars
          = .ok (literal (.list []) frame context, vars) := rfl
      rw [hu] at h
      simp only [Except.ok.injEq, Prod.mk.injEq] at h
      rw [← h.1]
      rfl
    | cons head tail =>
      rw [analyze_list_cons] at h
      split at h
      · split at h
        · simp at h
        · split at h
          · exact analyze_def_expr_type _ _ _ _ _ _ _ h
          · exact analyze_let_expr_type _ _ _ _ _ _ _ h
          · split at h
            · simp at h
            · simp only [Except.ok.injEq, Prod.mk.injEq] at h
              rw [← h.1]
              rfl
          · exact analyze_if_expr_type _ _ _ _ _ _ _ h
          · exact analyze_throw_expr_type _ _ _ _ _ _ _ h
          · split at h
            · simp at h
            · simp only [Except.ok.injEq, Prod.mk.injEq] at h
              rw [← h.1]
              rfl
          · exact analyze_fn_expr_type _ _ _ _ _ _ _ h
          · repeat' split at h
            all_goals first
              | (simp at h; done)
              | (simp only [Except.ok.injEq, Prod.mk.injEq] at h
                 rw [← h.1]
                 rfl)
          · simp only [Except.ok.injEq, Prod.mk.injEq] at h
            rw [← h.1]
            rfl
      · repeat' split at h
        all_goals first
          | (simp at h; done)
          | (simp only [Except.ok.injEq, Prod.mk.injEq] at h
             rw [← h.1]
             rfl)

end analyze

/-! ## The analyzer: the nodes of a body -/

namespace analyze

open runtime

theorem analyze_body_single (form : object) (frame : local_frame)
    (context : expression_type) (vars : List String) :
    analyze_body [form] frame context vars =
      match analyze form frame context vars with
      | .error e => .error e
      | .ok (e1, vars1) => .ok ([e1], vars1) := rfl

theorem analyze_body_cons (form next : object) (rest : List object) (frame : local_frame)
    (context : expression_type) (vars : List String) :
    analyze_body (form :: next :: rest) frame context vars =
      match analyze form frame .statement vars with
      | .error e => .error e
      | .ok (e1, vars1) =>
      match analyze_body (next :: rest) frame context vars1 with
      | .error e => .error e
      | .ok (es, vars2) => .ok (e1 :: es, vars2) := rfl

/-- The nodes of a sequence: one per form, each the analysis of its form in the frame of
the sequence, in statement context for all forms but the last and in the context of the
sequence for the last. -/
theorem analyze_body_nodes (forms : List object) (frame : local_frame)
    (context : expression_type) (vars vars1 : List String) (es : List expression)
    (h : analyze_body forms frame context vars = .ok (es, vars1)) :
    es.length = forms.length
    ∧ ∀ i form, forms[i]? = some form →
        ∃ e v v1, es[i]? = some e
          ∧ analyze form frame (body_context context forms.length i) v = .ok (e, v1)
          ∧ e.expr_type = body_context context forms.length i := by
  induction forms generalizing vars vars1 es with
  | nil =>
    have hu : analyze_body [] frame context vars = .ok ([], vars) := rfl
    rw [hu] at h
    simp only [Except.ok.injEq, Prod.mk.injEq] at h
    rw [← h.1]
    simp
  | cons form rest ih =>
    cases rest with
    | nil =>
      rw [analyze_body_single] at h
      split at h
      · simp at h
      · rename_i e1 v1 h1
        simp only [Except.ok.injEq, Prod.mk.injEq] at h
        rw [← h.1]
        refine ⟨rfl, ?_⟩
        intro i f hf
        cases i with
        | zero =>
          simp only [List.getElem?_cons_zero, Option.some.injEq] at hf
          subst hf
          refine ⟨e1, vars, v1, by simp, ?_, ?_⟩
          · simpa [body_context] using h1
          · simpa [body_context] using analyze_expr_type _ _ _ _ _ _ h1
        | succ j => simp at hf
    | cons next more =>
      rw [analyze_body_cons] at h
      split at h
      · simp at h
      · rename_i e1 v1 h1
        split at h
        · simp at h
        · rename_i es2 v2 h2
          simp only [Except.ok.injEq, Prod.mk.injEq] at h
          rw [← h.1]
          obtain ⟨hlen, hnodes⟩ := ih v1 v2 es2 h2
          refine ⟨by simp [hlen], ?_⟩
          intro i f hf
          cases i with
          | zero =>
            simp only [List.getElem?_cons_zero, Option.some.injEq] at hf
            subst hf
            refine ⟨e1, vars, v1, by simp, ?_, ?_⟩
            · simpa [body_context] using h1
            · simpa [body_context] using analyze_expr_type _ _ _ _ _ _ h1
          | succ j =>
            simp only [List.getElem?_cons_succ] at hf
            obtain ⟨e, v, w, he, ha, ht⟩ := hnodes j f hf
            have hc : body_context context (form :: next :: more).length (j + 1)
                = body_context context (next :: more).length j := by
              simp [body_context]
            refine ⟨e, v, w, by simpa using he, ?_, ?_⟩
            · rw [hc]
              exact ha
            · rw [hc]
              exact ht

end analyze

/-! ## The analyzer: boxing, and the forms `do`, `if`, `let` and `recur` -/

namespace analyze

open runtime

theorem update_base_visit (f : expression_base → expression_base) (e : expression) :
    (e.update_base f).visit_base = f e.visit_base := by
  cases e <;> rfl

theorem update_base_kind (f : expression_base → expression_base) (e : expression) :
    (e.update_base f).kind = e.kind := by
  cases e <;> rfl

theorem force_box_needs_box (e : expression) : (force_box e).needs_box = true := by
  simp [force_box, expression.needs_box, update_base_visit]

theorem reconcile_needs_box (then_ else_ : expression) :
    (reconcile then_ else_).1.needs_box = (then_.needs_box || else_.needs_box)
    ∧ (reconcile then_ else_).2.needs_box = (then_.needs_box || else_.needs_box) := by
  unfold reconcile
  split
  · rename_i h
    simp [force_box_needs_box, h]
  · rename_i h
    simp only [Bool.or_eq_true, not_or, Bool.not_eq_true] at h
    simp [h.1, h.2]

theorem analyze_if_two (head condition then_ : object) (frame : local_frame)
    (context : expression_type) (vars : List String) :
    analyze_if head [condition, then_] frame context vars =
      match analyze condition frame .expression vars with
      | .error e => .error e
      | .ok (c1, vars1) =>
      match analyze then_ frame context vars1 with
      | .error e => .error e
      | .ok (t1, vars2) =>
        .ok (.if_ { expr_type := context, frame := some frame } c1
          (reconcile t1 (literal .nil frame context)).1
          (reconcile t1 (literal .nil frame context)).2, vars2) := rfl

theorem analyze_if_three (head condition then_ else_ : object) (frame : local_frame)
    (context : expression_type) (vars : List String) :
    analyze_if head [condition, then_, else_] frame context vars =
      match analyze condition frame .expression vars with
      | .error e => .error e
      | .ok (c1, vars1) =>
      match analyze then_ frame context vars1 with
      | .error e => .error e
      | .ok (t1, vars2) =>
      match analyze else_ frame context vars2 with
      | .error e => .error e
      | .ok (e1, vars3) =>
        .ok (.if_ { expr_type := context, frame := some frame } c1
          (reconcile t1 e1).1 (reconcile t1 e1).2, vars3) := rfl

theorem analyze_nil (frame : local_frame) (context : expression_type) (vars : List String) :
    analyze .nil frame context vars = .ok (literal .nil frame context, vars) := rfl

/-- What a successful analysis of the tail of an `if` form is made of: the node of the
test, and the two branches as analyzed on their own, the else-branch being the node of
`nil` where the form has none, reconciled. -/
theorem analyze_if_ok (head : object) (tail : List object) (frame : local_frame)
    (context : expression_type) (vars vars1 : List String) (e : expression)
    (h : analyze_if head tail frame context vars = .ok (e, vars1)) :
    ∃ condition then_ c1 v1 t1 v2 e1,
      (tail = [condition, then_] ∧ e1 = literal .nil frame context ∧ v2 = vars1
        ∨ ∃ else_, tail = [condition, then_, else_]
            ∧ analyze else_ frame context v2 = .ok (e1, vars1))
      ∧ analyze condition frame .expression vars = .ok (c1, v1)
      ∧ analyze then_ frame context v1 = .ok (t1, v2)
      ∧ e = .if_ { expr_type := context, frame := some frame } c1
          (reconcile t1 e1).1 (reconcile t1 e1).2 := by
  unfold analyze_if at h
  split at h
  · rename_i condition then_
    split at h
    · simp at h
    · rename_i c1 v1 hc
      split at h
      · simp at h
      · rename_i t1 v2 ht
        simp only [Except.ok.injEq, Prod.mk.injEq] at h
        exact ⟨condition, then_, c1, v1, t1, v2, literal .nil frame context,
          Or.inl ⟨rfl, rfl, h.2⟩, hc, ht, h.1.symm⟩
  · rename_i condition then_ else_
    split at h
    · simp at h
    · rename_i c1 v1 hc
      split at h
      · simp at h
      · rename_i t1 v2 ht
        split at h
        · simp at h
        · rename_i e1 v3 he
          simp only [Except.ok.injEq, Prod.mk.injEq] at h
          refine ⟨condition, then_, c1, v1, t1, v2, e1, Or.inr ⟨else_, rfl, ?_⟩, hc, ht,
            h.1.symm⟩
          rw [he, h.2]
  · simp at h

theorem analyze_do_form (forms : List object) (frame : local_frame)
    (context : expression_type) (vars : List String) :
    analyze (.list (.symbol "do" :: forms)) frame context vars =
      if special.shadowed (.symbol "do") frame then
        .error ⟨.illegal_shadow, .list (.symbol "do" :: forms)⟩
      else
        match analyze_body forms frame context vars with
        | .error e => .error e
        | .ok (body, vars1) =>
          .ok (.do_ { expr_type := context, frame := some frame } body, vars1) := rfl

theorem analyze_if_form (tail : List object) (frame : local_frame)
    (context : expression_type) (vars : List String) :
    analyze (.list (.symbol "if" :: tail)) frame context vars =
      if special.shadowed (.symbol "if") frame then
        .error ⟨.illegal_shadow, .list (.symbol "if" :: tail)⟩
      else analyze_if (.symbol "if") tail frame context vars := rfl

theorem analyze_let_form (tail : List object) (frame : local_frame)
    (context : expression_type) (vars : List String) :
    analyze (.list (.symbol "let" :: tail)) frame context vars =
      if special.shadowed (.symbol "let") frame then
        .error ⟨.illegal_shadow, .list (.symbol "let" :: tail)⟩
      else analyze_let (.symbol "let") tail frame context vars := rfl

theorem analyze_recur_form (tail : List object) (frame : local_frame)
    (context : expression_type) (vars : List String) :
    analyze (.list (.symbol "recur" :: tail)) frame context vars =
      if special.shadowed (.symbol "recur") frame then
        .error ⟨.illegal_shadow, .list (.symbol "recur" :: tail)⟩
      else
        match frame.recur_target with
        | none => .error ⟨.illegal_recur, .list (.symbol "recur" :: tail)⟩
        | some arity =>
          if tail.length ≠ arity then
            .error ⟨.arity_mismatch, .list (.symbol "recur" :: tail)⟩
          else if context ≠ .return_statement then
            .error ⟨.illegal_recur, .list (.symbol "recur" :: tail)⟩
          else
            match analyze_all tail frame vars with
            | .error e => .error e
            | .ok (exprs, vars1) =>
              .ok (.recur { expr_type := context, frame := some frame } tail exprs, vars1) :=
  rfl

/-- C15: when a `do` form with N ≥ 1 body forms analyzed in context `c` yields a node, the
node is a `do` node with N body nodes; the node at each position is the analysis of the
form at that position in the frame of the `do`; the nodes of the forms 1 to N-1 have the
evaluation context `statement` and the node of form N has the context `c`. -/
theorem do_contexts (forms : List object) (frame : local_frame) (c : expression_type)
    (vars vars1 : List String) (e : expression) (hn : 1 ≤ forms.length)
    (h : analyze (.list (.symbol "do" :: forms)) frame c vars = .ok (e, vars1)) :
    ∃ body, e = .do_ { expr_type := c, frame := some frame } body
      ∧ body.length = forms.length
      ∧ (∀ i form, forms[i]? = some form →
          ∃ node v v1, body[i]? = some node
            ∧ analyze form frame (if i + 1 = forms.length then c else .statement) v
                = .ok (node, v1))
      ∧ (∀ i node, i + 1 < forms.length → body[i]? = some node →
          node.expr_type = .statement)
      ∧ (∃ node, body[forms.length - 1]? = some node ∧ node.expr_type = c) := by
  rw [analyze_do_form] at h
  split at h
  · simp at h
  · split at h
    · simp at h
    · rename_i body v1 hb
      simp only [Except.ok.injEq, Prod.mk.injEq] at h
      obtain ⟨hlen, hnodes⟩ := analyze_body_nodes forms frame c vars v1 body hb
      refine ⟨body, h.1.symm, hlen, ?_, ?_, ?_⟩
      · intro i form hf
        obtain ⟨node, v, w, hnode, ha, _⟩ := hnodes i form hf
        exact ⟨node, v, w, hnode, ha⟩
      · intro i node hi hnode
        have hlt : i < forms.length := by omega
        obtain ⟨node2, v, w, hnode2, _, ht⟩ :=
          hnodes i (forms[i]) (List.getElem?_eq_getElem hlt)
        rw [hnode] at hnode2
        simp only [Option.some.injEq] at hnode2
        subst hnode2
        have hne : ¬ i + 1 = forms.length := by omega
        simpa [body_context, hne] using ht
      · have hlt : forms.length - 1 < forms.length := by omega
        obtain ⟨node, v, w, hnode, _, ht⟩ :=
          hnodes (forms.length - 1) (forms[forms.length - 1]) (List.getElem?_eq_getElem hlt)
        have heq : forms.length - 1 + 1 = forms.length := by omega
        exact ⟨node, hnode, by simpa [body_context, heq] using ht⟩

/-- Witness of C15: `(do 1 (f) 2)` analyzed at the root in return statement context, with
the var `f` declared. -/
theorem do_contexts_witness :
    ∃ first second third base,
      analyze sample.do_three sample.root .return_statement ["f"]
        = .ok (.do_ base [first, second, third], ["f"])
      ∧ first.expr_type = .statement ∧ second.expr_type = .statement
      ∧ third.expr_type = .return_statement := by
  cases hr : analyze sample.do_three sample.root .return_statement ["f"] with
  | error err =>
    have hk : sample.reason_of
        (analyze sample.do_three sample.root .return_statement ["f"]) = none := rfl
    rw [hr] at hk
    simp [sample.reason_of] at hk
  | ok r =>
    obtain ⟨e, v⟩ := r
    have hv : ((analyze sample.do_three sample.root .return_statement ["f"]).toOption.map
        Prod.snd) = some ["f"] := rfl
    rw [hr] at hv
    simp only [Except.toOption, Option.map_some', Option.some.injEq] at hv
    subst hv
    obtain ⟨body, he, hlen, _, hst, hlast⟩ :=
      do_contexts [.integer 1, .list [.symbol "f"], .integer 2] sample.root .return_statement
        ["f"] _ e (by decide) hr
    match body, hlen, hst, hlast with
    | [a, b, c], _, hst, hlast =>
      obtain ⟨node, hnode, hctx⟩ := hlast
      simp only [List.length_cons, List.length_nil] at hnode
      simp only [Nat.reduceAdd, Nat.add_one_sub_one, List.getElem?_cons_succ,
        List.getElem?_cons_zero, Option.some.injEq] at hnode
      subst hnode
      exact ⟨a, b, c, _, by rw [he], hst 0 a (by decide) rfl, hst 1 b (by decide) rfl, hctx⟩

end analyze

/-! ## Claims on `if` and `recur` -/

namespace analyze

open runtime

/-- C14: when the analysis of an `if` form yields a node, the node is an `if` node whose
two branches are the analyzed branches, reconciled: each of them needs a box exactly when
one of the two, analyzed on its own, needs a box.  So if either branch of the node has
`needs_box = true`, both have; and a consumer that later writes to the base of the `if`
node leaves the branches as they are. -/
theorem if_branches_reconciled (tail : List object) (frame : local_frame)
    (context : expression_type) (vars vars1 : List String) (e : expression)
    (h : analyze (.list (.symbol "if" :: tail)) frame context vars = .ok (e, vars1)) :
    ∃ base condition then_ else_ t1 e1,
      e = .if_ base condition then_ else_
      ∧ then_ = (reconcile t1 e1).1 ∧ else_ = (reconcile t1 e1).2
      ∧ then_.needs_box = (t1.needs_box || e1.needs_box)
      ∧ else_.needs_box = (t1.needs_box || e1.needs_box)
      ∧ (then_.needs_box = true ∨ else_.needs_box = true →
          then_.needs_box = true ∧ else_.needs_box = true)
      ∧ ∀ f, e.update_base f = .if_ (f base) condition then_ else_ := by
  rw [analyze_if_form] at h
  split at h
  · simp at h
  · obtain ⟨_, _, c1, _, t1, _, e1, _, _, _, he⟩ :=
      analyze_if_ok _ _ _ _ _ _ _ h
    obtain ⟨hthen, helse⟩ := reconcile_needs_box t1 e1
    refine ⟨_, c1, _, _, t1, e1, he, rfl, rfl, hthen, helse, ?_, ?_⟩
    · rw [hthen, helse]
      intro hor
      exact ⟨hor.elim id id, hor.elim id id⟩
    · intro f
      rw [he]
      rfl

/-- Witness of C14: `(if true 1 (f))` in statement context: on its own the literal `1`
needs no box there and the call does; in the node both branches need one. -/
theorem if_branches_reconciled_witness :
    (literal (.integer 1) sample.root .statement).needs_box = false
    ∧ ∃ base condition then_ else_,
        analyze sample.if_mixed sample.root .statement ["f"]
          = .ok (.if_ base condition then_ else_, ["f"])
        ∧ then_.needs_box = true ∧ else_.needs_box = true := by
  refine ⟨rfl, ?_⟩
  cases hr : analyze sample.if_mixed sample.root .statement ["f"] with
  | error err =>
    have hk : sample.reason_of (analyze sample.if_mixed sample.root .statement ["f"]) = none :=
      rfl
    rw [hr] at hk
    simp [sample.reason_of] at hk
  | ok r =>
    obtain ⟨e, v⟩ := r
    have hv : ((analyze sample.if_mixed sample.root .statement ["f"]).toOption.map
        Prod.snd) = some ["f"] := rfl
    have hb : ((analyze sample.if_mixed sample.root .statement ["f"]).toOption.map
        (fun r => match r.1 with
          | .if_ _ _ _ else_ => else_.needs_box
          | _ => false)) = some true := rfl
    rw [hr] at hv hb
    simp only [Except.toOption, Option.map_some', Option.some.injEq] at hv hb
    subst hv
    obtain ⟨base, condition, then_, else_, _, _, he, _, _, _, _, hboth, _⟩ :=
      if_branches_reconciled [.boolean true, .integer 1, .list [.symbol "f"]] sample.root
        .statement ["f"] _ e hr
    subst he
    simp only at hb
    exact ⟨base, condition, then_, else_, rfl, hboth (Or.inr hb)⟩

/-- C18: an `if` form with a test and a then-branch yields the very node that the same
form with the else-branch `nil` yields, and is refused exactly when that form is (with
the same error, but for the form reported, when `if` is not shadowed); it is accepted
whenever `if` is not shadowed and its test and then-branch are accepted, and so is the
form with an else-branch that is accepted as well. -/
theorem if_else_optional (condition then_ : object) (frame : local_frame)
    (context : expression_type) (vars : List String) :
    (analyze (.list [.symbol "if", condition, then_]) frame context vars).toOption
      = (analyze (.list [.symbol "if", condition, then_, .nil]) frame context vars).toOption
    ∧ (special.shadowed (.symbol "if") frame = false →
        analyze (.list [.symbol "if", condition, then_]) frame context vars
          = analyze (.list [.symbol "if", condition, then_, .nil]) frame context vars)
    ∧ (∀ c1 v1 t1 v2, special.shadowed (.symbol "if") frame = false →
        analyze condition frame .expression vars = .ok (c1, v1) →
        analyze then_ frame context v1 = .ok (t1, v2) →
        (∃ node, analyze (.list [.symbol "if", condition, then_]) frame context vars
            = .ok (node, v2))
        ∧ ∀ else_ e1 v3, analyze else_ frame context v2 = .ok (e1, v3) →
            ∃ node, analyze (.list [.symbol "if", condition, then_, else_]) frame context vars
              = .ok (node, v3)) := by
  have hsame : analyze_if (.symbol "if") [condition, then_] frame context vars
      = analyze_if (.symbol "if") [condition, then_, .nil] frame context vars := by
    rw [analyze_if_two, analyze_if_three]
    cases analyze condition frame .expression vars with
    | error err => rfl
    | ok r =>
      obtain ⟨c1, v1⟩ := r
      simp only
      cases analyze then_ frame context v1 with
      | error err => rfl
      | ok r2 =>
        obtain ⟨t1, v2⟩ := r2
        simp only [analyze_nil]
  refine ⟨?_, ?_, ?_⟩
  · rw [analyze_if_form, analyze_if_form, hsame]
    split
    · rfl
    · rfl
  · intro hs
    rw [analyze_if_form, analyze_if_form, hsame, hs]
    rfl
  · intro c1 v1 t1 v2 hs hc ht
    constructor
    · rw [analyze_if_form, analyze_if_two, hs, hc]
      simp only [ht]
      exact ⟨_, rfl⟩
    · intro else_ e1 v3 he
      rw [analyze_if_form, analyze_if_three, hs, hc]
      simp only [ht, he]
      exact ⟨_, rfl⟩

/-- Witness of C18: `(if true 1)` and `(if true 1 nil)` at the root. -/
theorem if_else_optional_witness :
    sample.reason_of (analyze sample.if_without_else sample.root .expression []) = none
    ∧ analyze sample.if_without_else sample.root .expression []
        = analyze sample.if_with_nil sample.root .expression []
    ∧ ∃ node, analyze sample.if_without_else sample.root .expression [] = .ok (node, []) :=
  ⟨rfl, (if_else_optional (.boolean true) (.integer 1) sample.root .expression []).2.1 rfl,
    ((if_else_optional (.boolean true) (.integer 1) sample.root .expression []).2.2
      _ _ _ _ rfl rfl rfl).1⟩

/-- C16: a `recur` form in a frame with an enclosing function boundary, where `recur` is
not the name of a local binding, fails with the arity mismatch error when the number of
its arguments differs from the parameter count of the enclosing arity, whatever the
context and the arguments are. -/
theorem recur_arity_mismatch (args : List object) (frame : local_frame)
    (context : expression_type) (vars : List String) (arity : Nat)
    (htarget : frame.recur_target = some arity)
    (hshadow : frame.find "recur" = none)
    (hcount : args.length ≠ arity) :
    analyze (.list (.symbol "recur" :: args)) frame context vars
      = .error ⟨.arity_mismatch, .list (.symbol "recur" :: args)⟩ := by
  rw [analyze_recur_form]
  simp [special.shadowed, hshadow, htarget, hcount]

/-- Witness of C16: `(recur x x)` in the body of a function of one parameter, and the
form `(fn [x] (recur x x))` of section 8 as a whole. -/
theorem recur_arity_mismatch_witness :
    sample.in_function.recur_target = some 1
    ∧ analyze sample.recur_twice sample.in_function .return_statement []
        = .error ⟨.arity_mismatch, sample.recur_twice⟩
    ∧ sample.reason_of (analyze sample.fn_recur_twice sample.root .expression [])
        = some .arity_mismatch :=
  ⟨rfl, recur_arity_mismatch [.symbol "x", .symbol "x"] sample.in_function .return_statement
    [] 1 rfl rfl (by decide), rfl⟩

end analyze

/-! ## The bindings of a `let` -/

namespace analyze

open runtime

theorem analyze_bindings_nil (frame : local_frame) (vars : List String) :
    analyze_bindings [] frame vars = .ok (([], [], frame), vars) := rfl

theorem analyze_bindings_pair (name : String) (value : object) (rest : List object)
    (frame : local_frame) (vars : List String) :
    analyze_bindings (.symbol name :: value :: rest) frame vars =
      match analyze value frame .expression vars with
      | .error e => .error e
      | .ok (v1, vars1) =>
        match frame.declare ⟨name, false⟩ with
        | none => .error ⟨.duplicate_binding, .symbol name⟩
        | some frame1 =>
          match analyze_bindings rest frame1 vars1 with
          | .error e => .error e
          | .ok ((names, values, frame2), vars2) =>
            .ok ((name :: names, v1 :: values, frame2), vars2) := rfl

theorem analyze_symbol (name : String) (frame : local_frame) (context : expression_type)
    (vars : List String) :
    analyze (.symbol name) frame context vars =
      match resolve_symbol name frame context vars with
      | .ok e => .ok (e, vars)
      | .error k => .error ⟨k, .symbol name⟩ := rfl

theorem find_mk (function_arity : Option Nat) (is_try_boundary : Bool)
    (bindings : List local_binding) (parent : local_frame) (name : String) :
    (local_frame.mk function_arity is_try_boundary bindings (some parent)).find name =
      match bindings.find? (fun b => b.name == name) with
      | some b => some b
      | none => parent.find name := by
  rw [local_frame.find]

theorem declare_mk (function_arity : Option Nat) (is_try_boundary : Bool)
    (bindings : List local_binding) (parent : Option local_frame) (binding : local_binding)
    (frame1 : local_frame)
    (h : (local_frame.mk function_arity is_try_boundary bindings parent).declare binding
      = some frame1) :
    frame1 = .mk function_arity is_try_boundary (bindings ++ [binding]) parent := by
  simp only [local_frame.declare, ite_eq_right_iff, Option.ite_none_left_eq_some,
    Option.some.injEq] at h
  exact h.2.symm

/-- The bindings of a `let` are analyzed one after the other: what follows the first
bindings is analyzed in the frame and with the vars they leave. -/
theorem analyze_bindings_append (earlier : List (String × object)) (post : List object)
    (frame : local_frame) (vars : List String) :
    analyze_bindings (binding_forms earlier ++ post) frame vars =
      match analyze_bindings (binding_forms earlier) frame vars with
      | .error e => .error e
      | .ok ((names, values, frame1), vars1) =>
        match analyze_bindings post frame1 vars1 with
        | .error e => .error e
        | .ok ((ns, vs, frame2), vars2) => .ok ((names ++ ns, values ++ vs, frame2), vars2) := by
  induction earlier generalizing frame vars with
  | nil =>
    simp only [binding_forms, List.flatMap_nil, List.nil_append, analyze_bindings_nil]
    cases analyze_bindings post frame vars with
    | error e => rfl
    | ok r =>
      obtain ⟨⟨ns, vs, f2⟩, v2⟩ := r
      rfl
  | cons pair rest ih =>
    obtain ⟨name, value⟩ := pair
    have hforms : ∀ tail, binding_forms ((name, value) :: rest) ++ tail
        = .symbol name :: value :: (binding_forms rest ++ tail) := by
      intro tail
      simp [binding_forms]
    have hforms0 : binding_forms ((name, value) :: rest)
        = .symbol name :: value :: binding_forms rest := by
      simp [binding_forms]
    rw [hforms, hforms0, analyze_bindings_pair, analyze_bindings_pair]
    cases analyze value frame .expression vars with
    | error e => rfl
    | ok r =>
      obtain ⟨v1, vars1⟩ := r
      simp only
      cases frame.declare ⟨name, false⟩ with
      | none => rfl
      | some frame1 =>
        simp only
        rw [ih]
        cases analyze_bindings (binding_forms rest) frame1 vars1 with
        | error e => rfl
        | ok r2 =>
          obtain ⟨⟨names, values, frame2⟩, vars2⟩ := r2
          simp only
          cases analyze_bindings post frame2 vars2 with
          | error e => rfl
          | ok r3 =>
            obtain ⟨⟨ns, vs, frame3⟩, vars3⟩ := r3
            rfl

/-- The frame the first bindings of a `let` leave: the frame they started in with one
binding more for each of them, in their order. -/
theorem analyze_bindings_frame (earlier : List (String × object))
    (function_arity : Option Nat) (is_try_boundary : Bool) (bindings : List local_binding)
    (parent : Option local_frame) (vars vars1 : List String) (names : List String)
    (values : List expression) (frame1 : local_frame)
    (h : analyze_bindings (binding_forms earlier)
      (.mk function_arity is_try_boundary bindings parent) vars
      = .ok ((names, values, frame1), vars1)) :
    names = earlier.map Prod.fst
    ∧ frame1 = .mk function_arity is_try_boundary
        (bindings ++ earlier.map (fun p => ⟨p.1, false⟩)) parent := by
  induction earlier generalizing bindings vars names values frame1 vars1 with
  | nil =>
    simp only [binding_forms, List.flatMap_nil, analyze_bindings_nil, Except.ok.injEq,
      Prod.mk.injEq] at h
    obtain ⟨⟨hn, _, hf⟩, _⟩ := h
    simp [← hn, ← hf]
  | cons pair rest ih =>
    obtain ⟨name, value⟩ := pair
    have hforms0 : binding_forms ((name, value) :: rest)
        = .symbol name :: value :: binding_forms rest := by
      simp [binding_forms]
    rw [hforms0, analyze_bindings_pair] at h
    split at h
    · simp at h
    · rename_i v1 vars2 hv
      split at h
      · simp at h
      · rename_i frame2 hdecl
        have hframe2 := declare_mk _ _ _ _ _ _ hdecl
        subst hframe2
        split at h
        · simp at h
        · rename_i ns vs f3 vars3 hrest
          obtain ⟨hns, hf3⟩ := ih _ _ _ _ _ _ hrest
          simp only [Except.ok.injEq, Prod.mk.injEq] at h
          obtain ⟨⟨hn, _, hf⟩, _⟩ := h
          constructor
          · rw [← hn, hns]
            rfl
          · rw [← hf, hf3]
            simp

theorem find_none_of_names (pairs : List (String × object)) (name : String)
    (h : name ∉ pairs.map Prod.fst) :
    (pairs.map (fun p => (⟨p.1, false⟩ : local_binding))).find? (fun b => b.name == name)
      = none := by
  induction pairs with
  | nil => rfl
  | cons pair rest ih =>
    simp only [List.map_cons, List.mem_cons, not_or] at h
    simp only [List.map_cons, List.find?_cons]
    have hne : (pair.1 == name) = false := by
      simp only [beq_eq_false_iff_ne, ne_eq]
      exact fun heq => h.1 heq.symm
    simp only [hne]
    exact ih h.2

theorem binding_forms_length (pairs : List (String × object)) :
    (binding_forms pairs).length = 2 * pairs.length := by
  induction pairs with
  | nil => rfl
  | cons pair rest ih =>
    simp only [binding_forms, List.flatMap_cons, List.length_append, List.length_cons,
      List.length_nil] at ih ⊢
    omega

/-- C17: in a `let`, once the bindings before a binding are analyzed, the value form of
that binding is analyzed in a frame that is a child of the frame of the `let` and holds
exactly the bindings declared strictly before it; a name resolves there to one of these
or, if it is none of them, as it does in the enclosing frame; and a value form that is a
symbol bound neither before it in the `let`, nor in an enclosing frame, nor as a var fails
as unresolved, whether or not the `let` binds the symbol later. -/
theorem let_binding_scope (frame : local_frame) (vars vars1 : List String)
    (earlier : List (String × object)) (names : List String) (values : List expression)
    (frame1 : local_frame)
    (h : analyze_bindings (binding_forms earlier) (frame.child none false) vars
      = .ok ((names, values, frame1), vars1)) :
    names = earlier.map Prod.fst
    ∧ frame1 = .mk none false (earlier.map (fun p => ⟨p.1, false⟩)) (some frame)
    ∧ (∀ name, frame1.find name =
        match (earlier.map (fun p => (⟨p.1, false⟩ : local_binding))).find?
            (fun b => b.name == name) with
        | some b => some b
        | none => frame.find name)
    ∧ (∀ target value later,
        analyze_bindings (binding_forms earlier ++ .symbol target :: value :: later)
            (frame.child none false) vars =
          match analyze value frame1 .expression vars1 with
          | .error e => .error e
          | .ok (v1, vars2) =>
            match frame1.declare ⟨target, false⟩ with
            | none => .error ⟨.duplicate_binding, .symbol target⟩
            | some frame2 =>
              match analyze_bindings later frame2 vars2 with
              | .error e => .error e
              | .ok ((ns, vs, frame3), vars3) =>
                .ok ((names ++ target :: ns, values ++ v1 :: vs, frame3), vars3))
    ∧ (∀ target s later body context,
        later.length % 2 = 0 → frame.find "let" = none →
        s ∉ earlier.map Prod.fst → frame.find s = none → s ∉ vars1 →
        analyze (.list (.symbol "let" ::
            .vector (binding_forms earlier ++ .symbol target :: .symbol s :: later) :: body))
          frame context vars = .error ⟨.unresolved_symbol, .symbol s⟩) := by
  obtain ⟨hnames, hframe1⟩ := analyze_bindings_frame earlier none false [] (some frame)
    vars vars1 names values frame1 h
  simp only [List.nil_append] at hframe1
  have hfind : ∀ name, frame1.find name =
      match (earlier.map (fun p => (⟨p.1, false⟩ : local_binding))).find?
          (fun b => b.name == name) with
      | some b => some b
      | none => frame.find name := by
    intro name
    rw [hframe1, find_mk]
  have hnext : ∀ target value later,
      analyze_bindings (binding_forms earlier ++ .symbol target :: value :: later)
          (frame.child none false) vars =
        match analyze value frame1 .expression vars1 with
        | .error e => .error e
        | .ok (v1, vars2) =>
          match frame1.declare ⟨target, false⟩ with
          | none => .error ⟨.duplicate_binding, .symbol target⟩
          | some frame2 =>
            match analyze_bindings later frame2 vars2 with
            | .error e => .error e
            | .ok ((ns, vs, frame3), vars3) =>
              .ok ((names ++ target :: ns, values ++ v1 :: vs, frame3), vars3) := by
    intro target value later
    rw [analyze_bindings_append, h]
    simp only [analyze_bindings_pair]
    cases analyze value frame1 .expression vars1 with
    | error e => rfl
    | ok r =>
      obtain ⟨v1, vars2⟩ := r
      simp only
      cases frame1.declare ⟨target, false⟩ with
      | none => rfl
      | some frame2 =>
        simp only
        cases analyze_bindings later frame2 vars2 with
        | error e => rfl
        | ok r2 =>
          obtain ⟨⟨ns, vs, frame3⟩, vars3⟩ := r2
          rfl
  refine ⟨hnames, hframe1, hfind, hnext, ?_⟩
  intro target s later body context hlater hlet hs hframe hvars
  have hunresolved : analyze (.symbol s) frame1 .expression vars1
      = .error ⟨.unresolved_symbol, .symbol s⟩ := by
    rw [analyze_symbol]
    simp [resolve_symbol, hfind, find_none_of_names earlier s hs, hframe, hvars]
  have hlen : ¬ (binding_forms earlier ++ .symbol target :: .symbol s :: later).length % 2
      = 1 := by
    simp only [List.length_append, binding_forms_length, List.length_cons]
    omega
  rw [analyze_let_form]
  simp only [special.shadowed, hlet, Option.isSome_none, Bool.false_eq_true, if_false]
  unfold analyze_let
  simp only [hlen, if_false, hnext, hunresolved]

/-- Witness of C17: in `(let [a 1 b c c 2] b)` the value form of `b` refers to `c`, which
the `let` binds later, and the analysis fails with the unresolved symbol error; in
`(let [a 1 b a] b)` the value form of `b` refers to `a`, bound before it, and the
analysis succeeds. -/
theorem let_binding_scope_witness :
    analyze sample.let_later sample.root .expression []
      = .error ⟨.unresolved_symbol, .symbol "c"⟩
    ∧ sample.reason_of (analyze sample.let_earlier sample.root .expression []) = none :=
  ⟨(let_binding_scope sample.root [] [] [("a", .integer 1)] ["a"]
      [literal (.integer 1) (sample.root.child none false) .expression]
      (.mk none false [⟨"a", false⟩] (some sample.root)) rfl).2.2.2.2
      "b" "c" [.symbol "c", .integer 2] [.symbol "b"] .expression
      (by decide) rfl (by decide) rfl (by decide), rfl⟩

end analyze

/-! ## Claims on the base of an expression and on the reader -/

namespace analyze

open runtime

/-- C11: for every expression, whichever of the seventeen kinds it holds, `get_base`
returns a non-null pointer, and what it points to is the base record of the held node
itself: for each kind, the record it points to is the base the held node was built with;
the evaluation context and `needs_box` of the expression are those read through it; and
a write through it changes the base of the held node and nothing else of the node. -/
theorem get_base_of_held_node :
    (∀ e : expression, ∃ base, e.get_base.data = some base
      ∧ e.expr_type = base.expr_type ∧ e.needs_box = base.needs_box
      ∧ e.update_base (fun _ => base) = e
      ∧ ∀ f, (e.update_base f).get_base.data = some (f base)
          ∧ (e.update_base f).kind = e.kind)
    ∧ (∀ base name value, (expression.def_ base name value).get_base.data = some base)
    ∧ (∀ base name, (expression.var_deref base name).get_base.data = some base)
    ∧ (∀ base name, (expression.var_ref base name).get_base.data = some base)
    ∧ (∀ base source args arg_exprs,
        (expression.call base source args arg_exprs).get_base.data = some base)
    ∧ (∀ base data, (expression.primitive_literal base data).get_base.data = some base)
    ∧ (∀ base data_exprs, (expression.vector base data_exprs).get_base.data = some base)
    ∧ (∀ base data_exprs, (expression.map base data_exprs).get_base.data = some base)
    ∧ (∀ base data_exprs, (expression.set base data_exprs).get_base.data = some base)
    ∧ (∀ base name arities, (expression.function base name arities).get_base.data = some base)
    ∧ (∀ base args arg_exprs, (expression.recur base args arg_exprs).get_base.data = some base)
    ∧ (∀ base binding, (expression.local_reference base binding).get_base.data = some base)
    ∧ (∀ base names values body,
        (expression.let_ base names values body).get_base.data = some base)
    ∧ (∀ base body, (expression.do_ base body).get_base.data = some base)
    ∧ (∀ base condition then_ else_,
        (expression.if_ base condition then_ else_).get_base.data = some base)
    ∧ (∀ base value, (expression.throw_ base value).get_base.data = some base)
    ∧ (∀ base body catches finally_,
        (expression.try_ base body catches finally_).get_base.data = some base)
    ∧ (∀ base chunks, (expression.native_raw base chunks).get_base.data = some base) := by
  refine ⟨?_, ?_, ?_, ?_, ?_, ?_, ?_, ?_, ?_, ?_, ?_, ?_, ?_, ?_, ?_, ?_, ?_, ?_⟩
  · intro e
    refine ⟨e.visit_base, rfl, rfl, rfl, ?_, ?_⟩
    · cases e <;> rfl
    · intro f
      exact ⟨by simp [expression.get_base, update_base_visit], update_base_kind f e⟩
  all_goals intros; rfl

/-- C12: an expression base built without explicit field values has `needs_box` true,
with the first evaluation context and the null frame; and so has a base built with an
evaluation context and a frame only. -/
theorem expression_base_default_needs_box :
    ({} : expression_base).needs_box = true
    ∧ ({} : expression_base).expr_type = .expression
    ∧ ({} : expression_base).frame = none
    ∧ (∀ expr_type frame,
        ({ expr_type := expr_type, frame := frame } : expression_base).needs_box = true)
    ∧ (∀ expr_type, ({ expr_type := expr_type } : expression_base).needs_box = true)
    ∧ (∀ frame, ({ frame := frame } : expression_base).needs_box = true) :=
  ⟨rfl, rfl, rfl, fun _ _ => rfl, fun _ => rfl, fun _ => rfl⟩

end analyze

namespace read

open runtime

/-- C13: the text of a map literal whose braces enclose an odd number of element forms
is not read as a map: `next` returns the error of the odd map; and no form that `next`
returns holds, at any depth, a map with an odd number of element forms, so none reaches
the analyzer. -/
theorem odd_map_rejected :
    (∀ data rest, data.length % 2 = 1 →
      (next (tokens_of (.map data) ++ rest)).1 = .error odd_map)
    ∧ (∀ tokens o rest, next tokens = (.ok (some o), rest) → o.even_maps = true) := by
  constructor
  · intro data rest hodd
    apply read_tokens_of_odd
    simp [object.even_maps, hodd]
  · intro tokens o rest hr
    refine read_tokens_even tokens [] o rest ?_ hr
    intro p hp
    simp at hp

/-- Witness of C13: the tokens of `{1 2 3}` are rejected with the error of the odd map,
and the form read from the tokens of `{1 2}` has even maps only. -/
theorem odd_map_rejected_witness :
    (next [.open_curly_bracket, .integer 1, .integer 2, .integer 3, .close_curly_bracket]).1
      = .error odd_map
    ∧ (object.map [.integer 1, .integer 2]).even_maps = true :=
  ⟨odd_map_rejected.1 [.integer 1, .integer 2, .integer 3] [] (by decide),
    odd_map_rejected.2 [.open_curly_bracket, .integer 1, .integer 2, .close_curly_bracket]
      (.map [.integer 1, .integer 2]) [] rfl⟩

end read

/-! ## Claims on the file harness: files named `fail-` and `warn-` -/

namespace jit

theorem starts_with_warn (filename : String) (h : starts_with filename "warn-" = true) :
    starts_with filename "pass-" = false ∧ starts_with filename "fail-" = false
      ∧ starts_with filename "throw-" = false := by
  unfold starts_with at *
  generalize filename.toList = l at h
  have hp : "pass-".toList = ['p', 'a', 's', 's', '-'] := rfl
  have h1 : "fail-".toList = ['f', 'a', 'i', 'l', '-'] := rfl
  have h2 : "throw-".toList = ['t', 'h', 'r', 'o', 'w', '-'] := rfl
  have h3 : "warn-".toList = ['w', 'a', 'r', 'n', '-'] := rfl
  rw [h3] at h
  rw [hp, h1, h2]
  cases l with
  | nil => simp [List.isPrefixOf] at h
  | cons c rest =>
    simp only [List.isPrefixOf, Bool.and_eq_true, beq_iff_eq] at h
    have hc : c = 'w' := h.1.symm
    subst hc
    simp [List.isPrefixOf]

theorem starts_with_fail_append (suffix : String) :
    starts_with ("fail-" ++ suffix) "pass-" = false
      ∧ starts_with ("fail-" ++ suffix) "fail-" = true
      ∧ starts_with ("fail-" ++ suffix) "throw-" = false := by
  have happ : ("fail-" ++ suffix).toList = ['f', 'a', 'i', 'l', '-'] ++ suffix.toList := by
    rw [String.toList, String.data_append]
    rfl
  have hp : "pass-".toList = ['p', 'a', 's', 's', '-'] := rfl
  have h1 : "fail-".toList = ['f', 'a', 'i', 'l', '-'] := rfl
  have h2 : "throw-".toList = ['t', 'h', 'r', 'o', 'w', '-'] := rfl
  unfold starts_with
  rw [happ, hp, h1, h2]
  simp [List.isPrefixOf]

/-- C21 against the code: a file named `fail-*` whose evaluation throws a keyword gets an
entry in `failures` whatever the keyword is, also when it is not equal to `:success`;
the handler of thrown objects accepts the same value. -/
theorem fail_file_keyword_thrown :
    (∀ (O K : Type) (rt : runtime_context O K) (path suffix : String) (e : Option K)
        (failures : List failure),
      test_file rt path ("fail-" ++ suffix) (.threw_keyword e) failures
        = (failures ++ [⟨path, "Exception thrown: " ++ rt.to_string (rt.as_object e)⟩], false))
    ∧ is_cardinal example_runtime (example_runtime.as_object (some "error")) = false
    ∧ test_file example_runtime "test/jank/fail-x" "fail-x" (.threw_keyword (some "error")) []
        = ([⟨"test/jank/fail-x", "Exception thrown: error"⟩], false)
    ∧ test_file example_runtime "test/jank/fail-x" "fail-x" (.threw_object (some "error")) []
        = ([], true) := by
  refine ⟨?_, by decide, by decide, by decide⟩
  intro O K rt path suffix e failures
  obtain ⟨hpass, hfail, hthrow⟩ := starts_with_fail_append suffix
  simp [test_file, hthrow]

/-- C22, as stated, fails: the file `warn-x` whose evaluation returns `:success` gets an
entry in `failures`, and the walk over this one file does not pass the final check. -/
theorem warn_file_returning_fails :
    (test_file example_runtime "test/jank/warn-x" "warn-x" (.returned (some "success")) []).1
      = [⟨"test/jank/warn-x", "Test failure was expected, but it passed with success"⟩]
    ∧ files_pass example_runtime
        [⟨"test/jank/warn-x", "warn-x", true, .returned (some "success")⟩] = false := by
  constructor <;> decide

/-- C22, amended: a file named `warn-*` adds no entry to `failures` when its evaluation
throws a `std::exception`, an object, whatever the object, or an unknown exception; when
its evaluation returns, whatever the result, `failures` has one entry more, and a walk
over this file alone fails the final check that `failures` is empty. -/
theorem warn_file_outcome {O K : Type} (rt : runtime_context O K) (path filename : String)
    (failures : List failure) (hname : starts_with filename "warn-" = true) :
    (∀ what, test_file rt path filename (.threw_std_exception what) failures = (failures, true))
    ∧ (∀ e, test_file rt path filename (.threw_object e) failures = (failures, true))
    ∧ test_file rt path filename .threw_unknown failures = (failures, true)
    ∧ (∀ result, ∃ f, test_file rt path filename (.returned result) failures
        = (failures ++ [f], false))
    ∧ (∀ result, files_pass rt [⟨path, filename, true, .returned result⟩] = false) := by
  obtain ⟨hpass, hfail, hthrow⟩ := starts_with_warn filename hname
  refine ⟨?_, ?_, ?_, ?_, ?_⟩
  · intro what
    simp [test_file, hpass, hthrow]
  · intro e
    simp [test_file, hpass, hfail, hthrow]
  · simp [test_file, hpass, hthrow]
  · intro result
    simp [test_file, hpass]
  · intro result
    simp [files_pass, test_files, test_file, hpass]

/-- Witness of the amended C22: `warn-x` throwing the object `:success` adds nothing, and
`warn-x` returning it does not pass the final check. -/
theorem warn_file_outcome_witness :
    test_file example_runtime "test/jank/warn-x" "warn-x" (.threw_object (some "success")) []
      = ([], true)
    ∧ files_pass example_runtime
        [⟨"test/jank/warn-x", "warn-x", true, .returned (some "success")⟩] = false :=
  ⟨(warn_file_outcome example_runtime "test/jank/warn-x" "warn-x" [] (by decide)).2.1
      (some "success"),
    (warn_file_outcome example_runtime "test/jank/warn-x" "warn-x" [] (by decide)).2.2.2.2
      (some "success")⟩

end jit

/-! ## The scope of the body `translate` returns -/

namespace translate

open environment example_run

theorem translate_cell_scope (handle : special_handler)
    (find : heap → Nat → String → Option (List function_definition)) (scope : Option Nat)
    (c : parse.cell) (translated body : function_body) (h h1 : heap)
    (hr : translate_cell handle find scope c translated h = (.ok body, h1)) :
    body.scope = translated.scope := by
  unfold translate_cell at hr
  repeat' split at hr
  all_goals first
    | (simp at hr; done)
    | (simp only [Prod.mk.injEq, Except.ok.injEq] at hr
       rw [← hr.1])

theorem translate_each_scope (handle : special_handler)
    (find : heap → Nat → String → Option (List function_definition)) (scope : Option Nat)
    (range : List parse.cell) (translated body : function_body) (h h1 : heap)
    (hr : translate_each handle find scope range translated h = (.ok body, h1)) :
    body.scope = translated.scope := by
  induction range generalizing translated h with
  | nil =>
    simp only [translate_each, Prod.mk.injEq, Except.ok.injEq] at hr
    rw [← hr.1]
  | cons c rest ih =>
    unfold translate_each at hr
    split at hr
    · simp at hr
    · rename_i translated1 h2 hcell
      rw [ih translated1 h2 hr]
      exact translate_cell_scope handle find scope c translated translated1 h h2 hcell

/-- C28: `translate` of an empty range returns a body without cells and with the null
scope, whatever scope was supplied, and leaves the heap as it was; for every non-empty
range on which it returns a body, the scope of the body is the scope that was supplied. -/
theorem translate_body_scope (handle : special_handler)
    (find : heap → Nat → String → Option (List function_definition)) (scope : Option Nat)
    (h : heap) :
    translate handle find [] scope h = (.ok { cells := [], scope := none, return_type := "" }, h)
    ∧ ∀ range body h1, range ≠ [] → translate handle find range scope h = (.ok body, h1) →
        body.scope = scope := by
  refine ⟨rfl, ?_⟩
  intro range body h1 hne hr
  unfold translate at hr
  split at hr
  · rename_i hlen
    exact absurd (List.length_eq_zero.mp hlen) hne
  · exact translate_each_scope handle find scope range _ body h h1 hr

/-- Witness of C28: the one-form range `(f 1)` translated in the root scope of
`family_heap` gives a body whose scope is the root scope, and the empty range gives the
null scope. -/
theorem translate_body_scope_witness :
    (∃ body h1, translate claims_nothing (find_function 8)
        [parse.cell.list [.ident "f", .integer 1]] (some 0) family_heap = (.ok body, h1)
      ∧ body.scope = some 0)
    ∧ ∃ body h1, translate claims_nothing (find_function 8) [] (some 0) family_heap
        = (.ok body, h1) ∧ body.scope = none :=
  ⟨⟨_, _, rfl, (translate_body_scope claims_nothing (find_function 8) (some 0) family_heap).2
      [parse.cell.list [.ident "f", .integer 1]] _ _ (by simp) rfl⟩,
    ⟨_, _, (translate_body_scope claims_nothing (find_function 8) (some 0) family_heap).1, rfl⟩⟩

end translate

/-! ## Ranges: the effect of `next`, `next_in_place` and `fresh_seq` -/

namespace runtime
namespace obj

theorem make_box_fst {O : Type} (h : range_heap O) (start end_ step : O) :
    (h.make_box start end_ step).1 = some h.size := rfl

theorem make_box_size {O : Type} (h : range_heap O) (start end_ step : O) :
    (h.make_box start end_ step).2.size = h.size + 1 := rfl

theorem make_box_deref_new {O : Type} (h : range_heap O) (start end_ step : O) :
    (h.make_box start end_ step).2.deref h.size
      = { start := start, end_ := end_, step := step, cached_next := none } := by
  simp [range_heap.make_box]

theorem make_box_deref_live {O : Type} (h : range_heap O) (start end_ step : O) (p : Nat)
    (hp : p < h.size) : (h.make_box start end_ step).2.deref p = h.deref p := by
  have hne : p ≠ h.size := Nat.ne_of_lt hp
  simp [range_heap.make_box, Function.update, hne]

theorem modify_deref_same {O : Type} (h : range_heap O) (p : Nat) (f : range O → range O) :
    (h.modify p f).deref p = f (h.deref p) := by
  simp [range_heap.modify]

theorem modify_deref_other {O : Type} (h : range_heap O) (p q : Nat) (f : range O → range O)
    (hne : q ≠ p) : (h.modify p f).deref q = h.deref q := by
  simp [range_heap.modify, Function.update, hne]

theorem modify_size {O : Type} (h : range_heap O) (p : Nat) (f : range O → range O) :
    (h.modify p f).size = h.size := rfl

/-- What `next` does on a range without a cached successor. -/
theorem next_uncached {O : Type} (m : math O) (h : range_heap O) (self : Nat)
    (hcache : (h.deref self).cached_next = none) :
    range.next m h self =
      if m.lt (m.add (h.deref self).start (h.deref self).step) (h.deref self).end_ then
        (some h.size,
          (h.make_box (m.add (h.deref self).start (h.deref self).step) (h.deref self).end_
            (h.deref self).step).2.modify self (fun r => { r with cached_next := some h.size }))
      else (none, h) := by
  unfold range.next
  rw [hcache]
  dsimp only
  cases m.lt (m.add (h.deref self).start (h.deref self).step) (h.deref self).end_ <;> rfl

/-- What `next` does on a range with a cached successor. -/
theorem next_cached {O : Type} (m : math O) (h : range_heap O) (self cached : Nat)
    (hcache : (h.deref self).cached_next = some cached) :
    range.next m h self = (some cached, h) := by
  unfold range.next
  rw [hcache]

/-- What `next_in_place` does. -/
theorem next_in_place_eq {O : Type} (m : math O) (h : range_heap O) (self : Nat) :
    range.next_in_place m h self =
      if m.lt (m.add (h.deref self).start (h.deref self).step) (h.deref self).end_ then
        (some self, h.modify self (fun r =>
          { r with start := m.add (h.deref self).start (h.deref self).step }))
      else (none, h) := by
  unfold range.next_in_place
  dsimp only
  cases m.lt (m.add (h.deref self).start (h.deref self).step) (h.deref self).end_ <;> rfl

/-- The call `next` leaves `start`, `end` and `step` of every live range as they were. -/
theorem next_keeps_members {O : Type} (m : math O) (h : range_heap O) (self p : Nat)
    (hp : p < h.size) :
    ((range.next m h self).2.deref p).start = (h.deref p).start
    ∧ ((range.next m h self).2.deref p).end_ = (h.deref p).end_
    ∧ ((range.next m h self).2.deref p).step = (h.deref p).step := by
  cases hc : (h.deref self).cached_next with
  | some cached =>
    rw [next_cached m h self cached hc]
    exact ⟨rfl, rfl, rfl⟩
  | none =>
    rw [next_uncached m h self hc]
    split
    · by_cases hpt : p = self
      · subst hpt
        simp only [modify_deref_same]
        rw [make_box_deref_live h _ _ _ p hp]
        exact ⟨rfl, rfl, rfl⟩
      · simp only [modify_deref_other _ _ _ _ hpt]
        rw [make_box_deref_live h _ _ _ p hp]
        exact ⟨rfl, rfl, rfl⟩
    · exact ⟨rfl, rfl, rfl⟩

/-- C26: for a range with no cached successor, `next()` returns the null pointer iff
`start + step` is not less than `end`; otherwise it returns a range that was not there
before, whose `start` is `start + step` and whose `end` and `step` are those of the
receiver. -/
theorem next_without_cache {O : Type} (m : math O) (h : range_heap O) (self : Nat)
    (hlive : self < h.size) (hcache : (h.deref self).cached_next = none) :
    ((range.next m h self).1 = none
      ↔ m.lt (m.add (h.deref self).start (h.deref self).step) (h.deref self).end_ = false)
    ∧ (m.lt (m.add (h.deref self).start (h.deref self).step) (h.deref self).end_ = true →
        (range.next m h self).1 = some h.size
        ∧ h.size ≠ self
        ∧ (range.next m h self).2.size = h.size + 1
        ∧ ((range.next m h self).2.deref h.size).start
            = m.add (h.deref self).start (h.deref self).step
        ∧ ((range.next m h self).2.deref h.size).end_ = (h.deref self).end_
        ∧ ((range.next m h self).2.deref h.size).step = (h.deref self).step) := by
  have hne : h.size ≠ self := Nat.ne_of_gt hlive
  rw [next_uncached m h self hcache]
  cases hlt : m.lt (m.add (h.deref self).start (h.deref self).step) (h.deref self).end_ with
  | false => simp
  | true =>
    simp only [↓reduceIte]
    refine ⟨by simp, fun _ => ⟨?_, hne, ?_, ?_, ?_, ?_⟩⟩
    all_goals first
      | trivial
      | rfl
      | rw [modify_deref_other _ _ _ _ hne, make_box_deref_new]

/-- Witness of C26: the range from 0 to 3 in steps of 1, alone in its heap, has the range
starting at 1 as its successor, and the range from 0 to 1 has none. -/
theorem next_without_cache_witness :
    (range.next integers (range.create empty_heap 0 3 1).2 0).1 = some 1
    ∧ ((range.next integers (range.create empty_heap 0 3 1).2 0).2.deref 1).start = 1
    ∧ (range.next integers (range.create empty_heap 0 1 1).2 0).1 = none :=
  ⟨((next_without_cache integers (range.create empty_heap 0 3 1).2 0 (by decide) rfl).2
      (by decide)).1,
    ((next_without_cache integers (range.create empty_heap 0 3 1).2 0 (by decide) rfl).2
      (by decide)).2.2.2.1,
    (next_without_cache integers (range.create empty_heap 0 1 1).2 0 (by decide) rfl).1.mpr
      (by decide)⟩

/-- C27: `next()` leaves `start`, `end` and `step` of the receiver as they were;
`next_in_place()` leaves `end` and `step` of the receiver as they were, returns the
receiver when it does not return the null pointer, and leaves the whole heap as it was
when it does; `fresh_seq()` returns a range that was not there before, with the `start`,
`end` and `step` of the receiver, and advancing that range in place leaves the receiver
as it was. -/
theorem range_frame {O : Type} (m : math O) (h : range_heap O) (self : Nat)
    (hlive : self < h.size) :
    (((range.next m h self).2.deref self).start = (h.deref self).start
      ∧ ((range.next m h self).2.deref self).end_ = (h.deref self).end_
      ∧ ((range.next m h self).2.deref self).step = (h.deref self).step)
    ∧ (((range.next_in_place m h self).2.deref self).end_ = (h.deref self).end_
      ∧ ((range.next_in_place m h self).2.deref self).step = (h.deref self).step
      ∧ (∀ p, p ≠ self → (range.next_in_place m h self).2.deref p = h.deref p)
      ∧ (∀ q, (range.next_in_place m h self).1 = some q → q = self)
      ∧ ((range.next_in_place m h self).1 = none → (range.next_in_place m h self).2 = h))
    ∧ ((range.fresh_seq h self).1 = some h.size
      ∧ h.size ≠ self
      ∧ ((range.fresh_seq h self).2.deref h.size).start = (h.deref self).start
      ∧ ((range.fresh_seq h self).2.deref h.size).end_ = (h.deref self).end_
      ∧ ((range.fresh_seq h self).2.deref h.size).step = (h.deref self).step
      ∧ (range.fresh_seq h self).2.deref self = h.deref self
      ∧ (range.next_in_place m (range.fresh_seq h self).2 h.size).2.deref self
          = h.deref self) := by
  have hne : h.size ≠ self := Nat.ne_of_gt hlive
  refine ⟨next_keeps_members m h self self hlive, ?_, ?_⟩
  · rw [next_in_place_eq]
    split
    · refine ⟨?_, ?_, ?_, ?_, ?_⟩
      · rw [modify_deref_same]
      · rw [modify_deref_same]
      · intro p hp
        dsimp only
        exact modify_deref_other h self p _ hp
      · intro q hq
        simp only [Option.some.injEq] at hq
        exact hq.symm
      · intro hnone
        simp at hnone
    · exact ⟨rfl, rfl, fun _ _ => rfl, fun q hq => by simp at hq, fun _ => rfl⟩
  · have hkept : (range.fresh_seq h self).2.deref self = h.deref self :=
      make_box_deref_live h _ _ _ self hlive
    refine ⟨rfl, hne, ?_, ?_, ?_, hkept, ?_⟩
    · simp [range.fresh_seq, make_box_deref_new]
    · simp [range.fresh_seq, make_box_deref_new]
    · simp [range.fresh_seq, make_box_deref_new]
    · rw [next_in_place_eq]
      split
      · rw [modify_deref_other _ _ _ _ (Ne.symm hne)]
        exact hkept
      · exact hkept

/-- Witness of C27: the range from 0 to 3 in steps of 1, alone in its heap: after
`next()` its start is 0, and after its fresh sequence is advanced in place, to 1, its
start is 0 still. -/
theorem range_frame_witness :
    ((range.next integers (range.create empty_heap 0 3 1).2 0).2.deref 0).start = 0
    ∧ ((range.next_in_place integers
          (range.fresh_seq (range.create empty_heap 0 3 1).2 0).2 1).2.deref 1).start = 1
    ∧ ((range.next_in_place integers
          (range.fresh_seq (range.create empty_heap 0 3 1).2 0).2 1).2.deref 0).start = 0 :=
  ⟨(range_frame integers (range.create empty_heap 0 3 1).2 0 (by decide)).1.1,
    by decide,
    congrArg range.start
      (range_frame integers (range.create empty_heap 0 3 1).2 0 (by decide)).2.2.2.2.2.2.2.2⟩

end obj
end runtime

/-! ## Ranges: the elements of a range -/

namespace runtime
namespace obj

theorem multiples_succ (start step : Int) (count : Nat) :
    range.multiples start step (count + 1)
      = start :: range.multiples (start + step) step count := by
  unfold range.multiples
  rw [List.range_succ_eq_map]
  simp only [List.map_cons, List.map_map]
  congr 1
  · simp
  · apply List.map_congr_left
    intro k _
    simp only [Function.comp_apply, Nat.succ_eq_add_one, Nat.cast_add, Nat.cast_one]
    ring

theorem mem_multiples (start step v : Int) (count : Nat) :
    v ∈ range.multiples start step count ↔ ∃ k : Nat, k < count ∧ v = start + k * step := by
  unfold range.multiples
  simp only [List.mem_map, List.mem_range]
  constructor
  · rintro ⟨k, hk, hv⟩
    exact ⟨k, hk, hv.symm⟩
  · rintro ⟨k, hk, hv⟩
    exact ⟨k, hk, hv.symm⟩

theorem multiples_increasing (start step : Int) (hstep : 0 < step) (count : Nat) :
    (range.multiples start step count).Pairwise (fun a b => a < b) := by
  induction count generalizing start with
  | zero => simp [range.multiples]
  | succ n ih =>
    rw [multiples_succ, List.pairwise_cons]
    refine ⟨?_, ih (start + step)⟩
    intro v hv
    obtain ⟨k, _, hk⟩ := (mem_multiples _ _ _ _).mp hv
    have hnonneg : 0 ≤ (k : Int) * step := Int.mul_nonneg (Int.ofNat_nonneg k) (le_of_lt hstep)
    omega

/-- The elements of a range without a cached successor whose `start` is `k` steps below
the last value under `end`: the `k + 1` values from `start` on. -/
theorem elements_of (m : math Int) (end_ step : Int)
    (hlt : ∀ a b, m.lt a b = decide (a < b)) (hstep : 0 < step) (k : Nat) :
    ∀ (fuel : Nat) (h : range_heap Int) (self : Nat) (start : Int),
      k + 1 ≤ fuel → self < h.size →
      h.deref self = { start := start, end_ := end_, step := step, cached_next := none } →
      (∀ i : Nat, i ≤ k → m.add (start + i * step) step = start + i * step + step) →
      (k = 0 ∨ start + k * step < end_) → end_ ≤ start + (k + 1) * step →
      range.elements m fuel h self = some (range.multiples start step (k + 1)) := by
  induction k with
  | zero =>
    intro fuel h self start hfuel hlive hself hadd _ hend
    obtain ⟨f, rfl⟩ : ∃ f, fuel = f + 1 := ⟨fuel - 1, by omega⟩
    have hsum : m.add start step = start + step := by
      have := hadd 0 (Nat.le_refl 0)
      simpa using this
    have hnext : range.next m h self = (none, h) := by
      rw [next_uncached m h self (by rw [hself])]
      rw [hself]
      simp only [hsum, hlt]
      have : ¬ start + step < end_ := by
        simp only [Nat.cast_zero, zero_add, one_mul] at hend
        omega
      simp [this]
    simp only [range.elements, hnext, range.first, hself]
    simp [range.multiples, List.range_succ]
  | succ k ih =>
    intro fuel h self start hfuel hlive hself hadd hbelow hend
    obtain ⟨f, rfl⟩ : ∃ f, fuel = f + 1 := ⟨fuel - 1, by omega⟩
    have hsum : m.add start step = start + step := by
      have := hadd 0 (Nat.zero_le _)
      simpa using this
    have hk : start + ((k + 1 : Nat) : Int) * step < end_ := by
      rcases hbelow with h0 | hb
      · omega
      · exact hb
    have hknonneg : 0 ≤ (k : Int) * step := Int.mul_nonneg (Int.ofNat_nonneg k) (le_of_lt hstep)
    have hcast : ((k + 1 : Nat) : Int) * step = (k : Int) * step + step := by
      push_cast
      ring
    have hless : start + step < end_ := by
      rw [hcast] at hk
      omega
    have hne : h.size ≠ self := Nat.ne_of_gt hlive
    have hnext : range.next m h self =
        (some h.size, (h.make_box (start + step) end_ step).2.modify self
          (fun r => { r with cached_next := some h.size })) := by
      rw [next_uncached m h self (by rw [hself])]
      rw [hself]
      simp only [hsum, hlt]
      simp [hless]
    have hrest := ih f ((h.make_box (start + step) end_ step).2.modify self
        (fun r => { r with cached_next := some h.size })) h.size (start + step)
      (by omega)
      (by rw [modify_size, make_box_size]; omega)
      (by rw [modify_deref_other _ _ _ _ hne, make_box_deref_new])
      (by
        intro i hi
        have := hadd (i + 1) (by omega)
        have hc : ((i + 1 : Nat) : Int) * step = (i : Int) * step + step := by
          push_cast
          ring
        rw [hc] at this
        have hassoc : start + step + (i : Int) * step = start + ((i : Int) * step + step) := by
          ring
        rw [hassoc]
        exact this)
      (by
        right
        rw [hcast] at hk
        have hassoc : start + step + (k : Int) * step = start + ((k : Int) * step + step) := by
          ring
        rw [hassoc]
        exact hk)
      (by
        have hc2 : ((k + 1 + 1 : Nat) : Int) * step = ((k + 1 : Nat) : Int) * step + step := by
          push_cast
          ring
        have hc3 : (((k + 1 : Nat) : Int) + 1) * step = ((k + 1 : Nat) : Int) * step + step := by
          ring
        have hc4 : (((k : Nat) : Int) + 1) * step = (k : Int) * step + step := by
          ring
        rw [hc3, hcast] at hend
        rw [hc4]
        omega)
    simp only [range.elements, hnext, range.first, hself, hrest, Option.map_some']
    rw [multiples_succ start step (k + 1)]

theorem count_bounds (start end_ step : Int) (hstep : 0 < step) (hstart : start < end_) :
    1 ≤ range.count start end_ step
    ∧ start + ((range.count start end_ step - 1 : Nat) : Int) * step < end_
    ∧ end_ ≤ start + (range.count start end_ step : Int) * step := by
  unfold range.count
  have hdiv := Int.emod_add_ediv (end_ - start + step - 1) step
  have hmod0 := Int.emod_nonneg (end_ - start + step - 1) (ne_of_gt hstep)
  have hmod1 := Int.emod_lt_of_pos (end_ - start + step - 1) hstep
  set q := (end_ - start + step - 1) / step with hq
  have hqpos : 1 ≤ q := by
    by_contra hcon
    have hq0 : q ≤ 0 := by omega
    have : step * q ≤ 0 := Int.mul_nonpos_of_nonneg_of_nonpos (le_of_lt hstep) hq0
    omega
  have hnat : ((q.toNat : Nat) : Int) = q := Int.toNat_of_nonneg (by omega)
  have hnat1 : (((q.toNat - 1 : Nat)) : Int) = q - 1 := by
    have h1 : 1 ≤ q.toNat := by omega
    rw [Nat.cast_sub h1, hnat]
    rfl
  refine ⟨by omega, ?_, ?_⟩
  · rw [hnat1]
    have hexp : (q - 1) * step = step * q - step := by ring
    rw [hexp]
    omega
  · rw [hnat]
    have hexp : q * step = step * q := by ring
    rw [hexp]
    omega

end obj
end runtime

/-! ## Claims on the elements of a range, on the cached successor and on `equal` -/

namespace runtime
namespace obj

theorem native_add_exact (l r : Int) (hlow : -(2 ^ 63) ≤ l + r) (hhigh : l + r < 2 ^ 63) :
    native_integers.add l r = l + r := by
  show wrap (l + r) = l + r
  unfold wrap
  omega

/-- The elements of a range whose sums are exact: for integers `start`, `end` and `step`
with `step > 0`, with `lt` the order of the integers and `add` the sum of the integers on
every value met, the elements obtained from `range(start, end, step)` by `first()` and
then `next()` until it returns the null pointer are, when `start < end`, exactly the
values `start + k * step` below `end`, in increasing order, and finitely many; when
`end ≤ start` the only element is `start`. -/
theorem elements_of_exact_sum (m : math Int) (h : range_heap Int) (start end_ step : Int)
    (hlt : ∀ a b, m.lt a b = decide (a < b))
    (hadd : ∀ v, start ≤ v → (v < end_ ∨ v = start) → m.add v step = v + step)
    (hstep : 0 < step) :
    (start < end_ →
      (∀ fuel, range.count start end_ step ≤ fuel →
        range.elements m fuel (range.create h start end_ step).2 h.size
          = some (range.multiples start step (range.count start end_ step)))
      ∧ (∀ v, v ∈ range.multiples start step (range.count start end_ step)
          ↔ ∃ k : Nat, v = start + k * step ∧ v < end_)
      ∧ (range.multiples start step (range.count start end_ step)).Pairwise
          (fun a b => a < b))
    ∧ (end_ ≤ start → ∀ fuel, 1 ≤ fuel →
        range.elements m fuel (range.create h start end_ step).2 h.size = some [start]) := by
  have hlive : h.size < (range.create h start end_ step).2.size := by
    show h.size < h.size + 1
    omega
  have hself : (range.create h start end_ step).2.deref h.size
      = { start := start, end_ := end_, step := step, cached_next := none } :=
    make_box_deref_new h start end_ step
  constructor
  · intro hstart
    obtain ⟨hone, hbelow, hend⟩ := count_bounds start end_ step hstep hstart
    have hmono : ∀ i j : Nat, i ≤ j → (i : Int) * step ≤ (j : Int) * step := by
      intro i j hij
      exact Int.mul_le_mul_of_nonneg_right (Int.ofNat_le.mpr hij) (le_of_lt hstep)
    have hnonneg : ∀ i : Nat, 0 ≤ (i : Int) * step := by
      intro i
      exact Int.mul_nonneg (Int.ofNat_nonneg i) (le_of_lt hstep)
    have hsucc : range.count start end_ step - 1 + 1 = range.count start end_ step := by
      omega
    refine ⟨?_, ?_, multiples_increasing start step hstep _⟩
    · intro fuel hfuel
      have hres := elements_of m end_ step hlt hstep (range.count start end_ step - 1)
        fuel (range.create h start end_ step).2 h.size start (by omega) hlive hself
        (by
          intro i hi
          have h1 := hmono i _ hi
          have h2 := hnonneg i
          exact hadd _ (by omega) (Or.inl (by omega)))
        (Or.inr hbelow)
        (by
          have hc : (((range.count start end_ step - 1 : Nat) : Int) + 1)
              = (range.count start end_ step : Int) := by
            have := congrArg (fun n : Nat => (n : Int)) hsucc
            simpa using this
          rw [hc]
          exact hend)
      rw [hsucc] at hres
      exact hres
    · intro v
      rw [mem_multiples]
      constructor
      · rintro ⟨k, hk, hv⟩
        refine ⟨k, hv, ?_⟩
        have h1 := hmono k (range.count start end_ step - 1) (by omega)
        omega
      · rintro ⟨k, hv, hless⟩
        refine ⟨k, ?_, hv⟩
        by_contra hcon
        have h1 := hmono (range.count start end_ step) k (by omega)
        omega
  · intro hge fuel hfuel
    have hres := elements_of m end_ step hlt hstep 0 fuel (range.create h start end_ step).2
      h.size start (by omega) hlive hself
      (by
        intro i hi
        have hi0 : i = 0 := by omega
        subst hi0
        have := hadd start (le_refl _) (Or.inr rfl)
        simpa using this)
      (Or.inl rfl)
      (by
        simp only [Nat.cast_zero, zero_add, one_mul]
        omega)
    simpa [range.multiples, List.range_succ] using hres

/-- C24 against the code: on the range from 0 to 3, after `next()` and then
`next_in_place()`, the start is 1 and `next()` returns the successor cached before, whose
start is 1 too, while `next_in_place()` would install the start 2; on the range from 0 to
2, after the same two calls, `next()` returns the cached successor and `next_in_place()`
returns the null pointer. -/
theorem next_returns_stale_successor :
    (sample.three_advanced.deref 0).start = 1
    ∧ (sample.three_advanced.deref 0).cached_next = some 1
    ∧ (range.next integers sample.three_advanced 0).1 = some 1
    ∧ ((range.next integers sample.three_advanced 0).2.deref 1).start = 1
    ∧ (range.next_in_place integers sample.three_advanced 0).1 = some 0
    ∧ ((range.next_in_place integers sample.three_advanced 0).2.deref 0).start = 2
    ∧ (range.next integers sample.two_advanced 0).1 = some 1
    ∧ (range.next_in_place integers sample.two_advanced 0).1 = none := by
  refine ⟨by decide, by decide, by decide, by decide, by decide, by decide, by decide,
    by decide⟩

/-- C25 against the code: `equal` hands the range `it` itself, not its first element, to
the comparison with each element of the operand, so the range from 0 to 3 is equal to
itself only if the comparison finds the ranges from 0, from 1 and from 2 equal to the
integers 0, 1 and 2; with the comparison `range::equal` makes of a range and an integer
the range is not equal to itself; and when the first element is compared, the range is
found equal to the longer sequence 0, 1, 2, 3, 4, since the loop does not look whether
the operand has elements left. -/
theorem range_equal_compares_iterator :
    (∀ equal : range Int → Int → Bool,
      range.equal integers equal 4 sample.three 0 (.range 0)
        = some (equal { start := 0, end_ := 3, step := 1, cached_next := none } 0
            && equal { start := 1, end_ := 3, step := 1, cached_next := none } 1
            && equal { start := 2, end_ := 3, step := 1, cached_next := none } 2))
    ∧ range.elements integers 3 sample.three 0 = some [0, 1, 2]
    ∧ range.equal integers sample.range_with_integer 4 sample.three 0 (.range 0) = some false
    ∧ range.equal integers sample.range_with_integer 4 sample.three 0 (.sequence [0, 1, 2])
        = some false
    ∧ range.equal integers sample.first_with_integer 4 sample.three 0
        (.sequence [0, 1, 2, 3, 4]) = some true := by
  refine ⟨?_, by decide, by decide, by decide, by decide⟩
  intro equal
  cases h0 : equal { start := 0, end_ := 3, step := 1, cached_next := none } 0 <;>
  cases h1 : equal { start := 1, end_ := 3, step := 1, cached_next := none } 1 <;>
  cases h2 : equal { start := 2, end_ := 3, step := 1, cached_next := none } 2 <;>
  simp [range.equal, range.equal_loop, operand.fresh_seq, range.fresh_seq, sample.three,
    range.create, range_heap.make_box, sequence_ptr.first, sequence_ptr.next_in_place,
    range.first, range.next_in_place, range_heap.modify, integers, empty_heap, Function.update,
    h0, h1, h2]

end obj
end runtime

/-! ## Claims on the command line -/

namespace util
namespace cli

/-- When the library returns, its checks have passed and the values are stored. -/
theorem app_parse_ok (opts parsed : options) (a : arguments)
    (h : app_parse opts a = .ok parsed) :
    a.thrown = none ∧ check_values a = .ok () ∧ check_required a = .ok ()
    ∧ parsed.optimization_level = a.optimization.getD opts.optimization_level := by
  unfold app_parse at h
  split at h
  · simp at h
  · rename_i hthrown
    split at h
    · simp at h
    · rename_i hvalues
      split at h
      · simp at h
      · rename_i hrequired
        simp only [Except.ok.injEq] at h
        refine ⟨hthrown, hvalues, hrequired, ?_⟩
        rw [← h]

/-- What `parse` returns when the library returns. -/
theorem parse_ok (defaults opts : options) (exit : parse_error → Int) (a : arguments)
    (h : parse defaults exit a = .ok opts) :
    ∃ parsed, app_parse defaults a = .ok parsed
      ∧ opts.optimization_level = parsed.optimization_level
      ∧ (∀ sub, a.subcommands = [sub] → opts.command = sub.command) := by
  unfold parse at h
  split at h
  · simp at h
  · rename_i parsed hparsed
    refine ⟨parsed, hparsed, ?_, ?_⟩
    · simp only [Nat.zero_le, if_true] at h
      repeat' split at h
      all_goals
        simp only [Except.ok.injEq] at h
        rw [← h]
    · intro sub hsub
      simp only [Nat.zero_le, if_true, got_subcommand, hsub] at h
      cases sub <;>
        simp only [List.contains_cons, List.contains_nil, Bool.or_false, beq_self_eq_true,
          if_true] at h <;>
        (first
          | (simp only [Except.ok.injEq] at h
             rw [← h]
             rfl)
          | (repeat' split at h
             all_goals first
               | (rename_i hbeq
                  exact absurd hbeq (by decide))
               | (simp only [Except.ok.injEq] at h
                  rw [← h]
                  rfl)))

theorem check_required_ok (a : arguments) (h : check_required a = .ok ()) :
    a.subcommands.length = 1 := by
  unfold check_required at h
  split at h
  · simp at h
  · rename_i hlen
    simpa using hlen

/-- C30: `parse` returns an error for every value given to `-O` or `--optimization` that
is below 0 or above 3; when it returns options, their `optimization_level` is the value
given, which is from 0 to 3, or, when the option is not given, the default; so it is from
0 to 3 whenever the default is. -/
theorem parse_optimization_level (defaults : options) (exit : parse_error → Int)
    (a : arguments) :
    (∀ level, a.optimization = some level → (level < 0 ∨ 3 < level) →
      ∃ code, parse defaults exit a = .error code)
    ∧ (∀ opts, parse defaults exit a = .ok opts →
        (a.optimization = some opts.optimization_level
          ∧ 0 ≤ opts.optimization_level ∧ opts.optimization_level ≤ 3)
        ∨ (a.optimization = none ∧ opts.optimization_level = defaults.optimization_level))
    ∧ (0 ≤ defaults.optimization_level ∧ defaults.optimization_level ≤ 3 →
        ∀ opts, parse defaults exit a = .ok opts →
          0 ≤ opts.optimization_level ∧ opts.optimization_level ≤ 3) := by
  have hok : ∀ opts, parse defaults exit a = .ok opts →
      (a.optimization = some opts.optimization_level
        ∧ 0 ≤ opts.optimization_level ∧ opts.optimization_level ≤ 3)
      ∨ (a.optimization = none ∧ opts.optimization_level = defaults.optimization_level) := by
    intro opts h
    obtain ⟨parsed, hparsed, hlevel, _⟩ := parse_ok defaults opts exit a h
    obtain ⟨_, hvalues, _, hstored⟩ := app_parse_ok defaults parsed a hparsed
    rw [hlevel, hstored]
    cases hgiven : a.optimization with
    | none => exact Or.inr ⟨rfl, rfl⟩
    | some level =>
      left
      unfold check_values at hvalues
      rw [hgiven] at hvalues
      simp only at hvalues
      split at hvalues
      · simp at hvalues
      · rename_i hrange
        simp only [in_range, Bool.not_eq_true', decide_eq_false_iff_not, not_not] at hrange
        exact ⟨rfl, hrange.1, hrange.2⟩
  refine ⟨?_, hok, ?_⟩
  · intro level hgiven hout
    cases hr : parse defaults exit a with
    | error code => exact ⟨code, rfl⟩
    | ok opts =>
      rcases hok opts hr with ⟨hsome, hlow, hhigh⟩ | ⟨hnone, _⟩
      · rw [hgiven] at hsome
        simp only [Option.some.injEq] at hsome
        omega
      · rw [hgiven] at hnone
        simp at hnone
  · intro hdefault opts hr
    rcases hok opts hr with ⟨_, hlow, hhigh⟩ | ⟨_, hsame⟩
    · exact ⟨hlow, hhigh⟩
    · rw [hsame]
      exact hdefault

/-- Witness of C30: `-O 4 repl` gives an error, `-O 2 repl` gives the level 2, and `repl`
without the option gives the default level. -/
theorem parse_optimization_level_witness :
    (∃ code, parse sample.defaults sample.exit sample.repl_level_four = .error code)
    ∧ (∃ opts, parse sample.defaults sample.exit sample.repl_level_two = .ok opts
        ∧ opts.optimization_level = 2)
    ∧ ∀ opts, parse sample.defaults sample.exit sample.repl_level_two = .ok opts →
        0 ≤ opts.optimization_level ∧ opts.optimization_level ≤ 3 :=
  ⟨(parse_optimization_level sample.defaults sample.exit sample.repl_level_four).1 4 rfl
      (Or.inr (by decide)),
    ⟨{ sample.defaults with optimization_level := 2, command := .repl }, rfl, rfl⟩,
    (parse_optimization_level sample.defaults sample.exit sample.repl_level_two).2.2
      (by decide)⟩

end cli
end util

/-! ## Claims on boxes -/

namespace native_box

/-- C31: for all boxes `a` and `b` of one type, `a == b` holds iff they hold the same
pointer, whatever the values pointed to: two boxes of different addresses that hold equal
values are not equal; `a != b` is the negation of `a == b`; and `a == nullptr`, `!a` and
`a` converting to false each hold exactly when the box holds no pointer, `a != nullptr`
being the negation. -/
theorem box_equality_is_identity (T : Type) (a b : native_box T) :
    (a.eq b = true ↔ a.data = b.data)
    ∧ (a.eq b = true ↔ a = b)
    ∧ a.ne b = !a.eq b
    ∧ (a.eq_nullptr = true ↔ a.data = none)
    ∧ (a.not = true ↔ a.data = none)
    ∧ (a.to_bool = false ↔ a.data = none)
    ∧ a.ne_nullptr = !a.eq_nullptr
    ∧ (∀ p q : Nat, (of_pointer T (some p)).eq (of_pointer T (some q)) = decide (p = q))
    ∧ (default_box T).eq_nullptr = true ∧ (of_nullptr T).eq_nullptr = true
    ∧ sample.first.deref sample.sevens = sample.second.deref sample.sevens
    ∧ sample.first.eq sample.second = false
    ∧ sample.first.eq sample.first = true := by
  obtain ⟨data⟩ := a
  obtain ⟨rhs⟩ := b
  refine ⟨by simp [eq], by simp [eq], by simp [ne, eq, bne], ?_, ?_, ?_,
    by simp [ne_nullptr, eq_nullptr, bne], ?_, rfl, rfl, rfl, by decide, by decide⟩
  · cases data <;> simp [eq_nullptr]
  · cases data <;> simp [not, pointer.to_bool]
  · cases data <;> simp [to_bool, pointer.to_bool]
  · intro p q
    by_cases hpq : p = q <;> simp [eq, of_pointer, hpq]

end native_box

namespace translate

open environment

/-! ## Where the exception of a failing `special::function` comes from -/

section origin

open environment.special

/-- A failing declaring phase: the check of the number of forms, a form of the wrong
type, an empty vector of return types, the overload check, or a call of `parse_types` or
`ret::parse` that ended with the exception. -/
theorem function_declare_error_origin (env : collaborators) (input : List parse.cell)
    (outer_scope : Nat) (h h1 : heap) (e : error)
    (hd : function_declare env input outer_scope h = (.error e, h1)) :
    (input.length < forms_required ∧ e = .syntax_exception "invalid function definition")
    ∨ (forms_required ≤ input.length
        ∧ (e = .unexpected_type ∨ e = .undefined_behaviour
          ∨ (∃ name args arg_definitions,
              expect_type_ident (input.getD 1 default) = .ok name
              ∧ expect_type_list (input.getD 2 default) = .ok args
              ∧ env.parse_types args h.next (h.make_shared (some outer_scope)).2
                  = .ok arg_definitions
              ∧ has_overload (overloads (heap_bound h outer_scope arg_definitions)
                  outer_scope name) arg_definitions = true
              ∧ e = .type_overload ("multiple definition of: " ++ name))
          ∨ (∃ args, expect_type_list (input.getD 2 default) = .ok args
              ∧ env.parse_types args h.next (h.make_shared (some outer_scope)).2 = .error e)
          ∨ (∃ name args arg_definitions names,
              expect_type_ident (input.getD 1 default) = .ok name
              ∧ expect_type_list (input.getD 2 default) = .ok args
              ∧ env.parse_types args h.next (h.make_shared (some outer_scope)).2
                  = .ok arg_definitions
              ∧ expect_type_list (input.getD 3 default) = .ok names
              ∧ env.ret_parse names h.next
                  (heap_checked h outer_scope name arg_definitions) = .error e))) := by
  unfold function_declare at hd
  split at hd
  · rename_i hlen
    simp only [Prod.mk.injEq, Except.error.injEq] at hd
    exact Or.inl ⟨hlen, hd.1.symm⟩
  · rename_i hlen
    refine Or.inr ⟨Nat.le_of_not_lt hlen, ?_⟩
    split at hd
    · rename_i e1 hname
      simp only [Prod.mk.injEq, Except.error.injEq] at hd
      left
      rw [← hd.1]
      exact expect_type_ident_error _ _ hname
    · rename_i name hname
      split at hd
      · rename_i e1 hargs
        simp only [Prod.mk.injEq, Except.error.injEq] at hd
        left
        rw [← hd.1]
        exact expect_type_list_error _ _ hargs
      · rename_i args hargs
        simp only [heap.make_shared] at hd
        split at hd
        · rename_i e1 hparse
          simp only [Prod.mk.injEq, Except.error.injEq] at hd
          right; right; right; left
          rw [← hd.1]
          exact ⟨args, hargs, hparse⟩
        · rename_i arg_definitions hparse
          split at hd
          · rename_i hover
            simp only [Prod.mk.injEq, Except.error.injEq] at hd
            right; right; left
            refine ⟨name, args, arg_definitions, hname, hargs, hparse, ?_, hd.1.symm⟩
            rw [← index_function_definitions_fst]
            simpa using hover
          · split at hd
            · rename_i e1 hnames
              simp only [Prod.mk.injEq, Except.error.injEq] at hd
              left
              rw [← hd.1]
              exact expect_type_list_error _ _ hnames
            · rename_i names hnames
              split at hd
              · rename_i e1 hret
                simp only [Prod.mk.injEq, Except.error.injEq] at hd
                right; right; right; right
                rw [← hd.1]
                exact ⟨name, args, arg_definitions, names, hname, hargs, hparse, hnames, hret⟩
              · simp only [Prod.mk.injEq, Except.error.injEq] at hd
                right; left
                exact hd.1.symm
              · simp at hd

/-- A failing defining phase: the translation, the validation or the deduction of the
body ended with the exception, or the vector whose last element is to be replaced was
empty. -/
theorem function_define_error_origin (env : collaborators) (input : List parse.cell)
    (outer_scope : Nat) (d : declared) (h4 h6 : heap) (e : error)
    (hf : function_define env input outer_scope d h4 = (.error e, h6)) :
    e = .undefined_behaviour
    ∨ (env.translate (input.drop forms_required) d.nested_scope d.return_type h4).1
        = .error e
    ∨ ∃ body h5,
        env.translate (input.drop forms_required) d.nested_scope d.return_type h4
          = (.ok body, h5)
        ∧ (env.ret_validate body = .error e
          ∨ ∃ validated, env.ret_validate body = .ok validated
              ∧ env.ret_deduce validated = .error e) := by
  unfold function_define function_finish at hf
  split at hf
  · rename_i e1 h5 htr
    simp only [Prod.mk.injEq, Except.error.injEq] at hf
    right; left
    rw [htr, ← hf.1]
  · rename_i body h5 htr
    split at hf
    · rename_i e1 hval
      simp only [Prod.mk.injEq, Except.error.injEq] at hf
      right; right
      rw [← hf.1]
      exact ⟨body, h5, htr, Or.inl hval⟩
    · rename_i validated hval
      split at hf
      · rename_i e1 hded
        simp only [Prod.mk.injEq, Except.error.injEq] at hf
        right; right
        rw [← hf.1]
        exact ⟨body, h5, htr, Or.inr ⟨validated, hval, hded⟩⟩
      · simp only at hf
        split at hf
        · simp only [Prod.mk.injEq, Except.error.injEq] at hf
          left
          exact hf.1.symm
        · simp at hf

/-- Where the exception of a failing `special::function` comes from: its own check of
the number of forms, its own overload check, a form of the wrong type, an access to an
empty vector, or a call it made. -/
theorem function_error_origin (env : collaborators) (input : List parse.cell)
    (outer_scope : Nat) (h h1 : heap) (e : error)
    (hf : function env input outer_scope h = (.error e, h1)) :
    (input.length < forms_required ∧ e = .syntax_exception "invalid function definition")
    ∨ (forms_required ≤ input.length
        ∧ (e = .unexpected_type ∨ e = .undefined_behaviour
          ∨ (∃ name args arg_definitions,
              expect_type_ident (input.getD 1 default) = .ok name
              ∧ expect_type_list (input.getD 2 default) = .ok args
              ∧ env.parse_types args h.next (h.make_shared (some outer_scope)).2
                  = .ok arg_definitions
              ∧ has_overload (overloads (heap_bound h outer_scope arg_definitions)
                  outer_scope name) arg_definitions = true
              ∧ e = .type_overload ("multiple definition of: " ++ name))
          ∨ raised_by_call env input outer_scope h e)) := by
  unfold function at hf
  split at hf
  · rename_i e1 h2 hd
    simp only [Prod.mk.injEq, Except.error.injEq] at hf
    rw [hf.1] at hd
    rcases function_declare_error_origin env input outer_scope h h2 e hd with
      hshort | ⟨hlen, hun | hub | hover | hparse | hret⟩
    · exact Or.inl hshort
    · exact Or.inr ⟨hlen, Or.inl hun⟩
    · exact Or.inr ⟨hlen, Or.inr (Or.inl hub)⟩
    · exact Or.inr ⟨hlen, Or.inr (Or.inr (Or.inl hover))⟩
    · exact Or.inr ⟨hlen, Or.inr (Or.inr (Or.inr (Or.inl hparse)))⟩
    · exact Or.inr ⟨hlen, Or.inr (Or.inr (Or.inr (Or.inr (Or.inl hret))))⟩
  · rename_i d h4 hd
    obtain ⟨hlen, _⟩ := function_declare_ok env input outer_scope h h4 d hd
    refine Or.inr ⟨hlen, ?_⟩
    rcases function_define_error_origin env input outer_scope d h4 h1 e hf with
      hub | htr | hrest
    · exact Or.inr (Or.inl hub)
    · exact Or.inr (Or.inr (Or.inr (Or.inr (Or.inr ⟨d, h4, hd, Or.inl htr⟩))))
    · exact Or.inr (Or.inr (Or.inr (Or.inr (Or.inr ⟨d, h4, hd, Or.inr hrest⟩))))

end origin

/-! ## The scopes a definition and the definitions nested in it write to -/

section frame

open environment.special example_run

theorem overloads_assign_other_scope (h : heap) (p q : Nat) (name name2 : String)
    (v : List function_definition) (hne : q ≠ p) :
    overloads (assign_function_definitions h p name v) q name2 = overloads h q name2 := by
  unfold overloads assign_function_definitions
  rw [deref_modify_other _ _ _ _ hne]

/-- The heap a failing declaring phase leaves has no address less. -/
theorem function_declare_error_next (env : collaborators) (input : List parse.cell)
    (outer_scope : Nat) (h h1 : heap) (e : error)
    (hd : function_declare env input outer_scope h = (.error e, h1)) :
    h.next ≤ h1.next := by
  rcases function_declare_error_heap env input outer_scope h h1 e hd with
    hh | hh | ⟨n, defs, hh⟩
  · rw [hh]
  · rw [hh]
    exact Nat.le_succ _
  · rw [hh]
    exact Nat.le_succ _

/-- The heap `function_finish` leaves: no address is made, and every scope but the
defining one holds the overloads the body translator left. -/
theorem function_finish_heap (env : collaborators) (outer_scope : Nat) (d : declared)
    (translated : Except error function_body × heap) :
    (function_finish env outer_scope d translated).2.next = translated.2.next
    ∧ ∀ q name, q ≠ outer_scope →
        overloads (function_finish env outer_scope d translated).2 q name
          = overloads translated.2 q name := by
  unfold function_finish
  split
  · exact ⟨rfl, fun _ _ _ => rfl⟩
  · split
    · exact ⟨rfl, fun _ _ _ => rfl⟩
    · split
      · exact ⟨rfl, fun _ _ _ => rfl⟩
      · simp only
        split
        · exact ⟨rfl, fun q name _ => overloads_index _ outer_scope q _ name⟩
        · refine ⟨rfl, fun q name hq => ?_⟩
          rw [overloads_assign_other_scope _ _ _ _ _ _ hq, overloads_index]

/-- A call of `special::function` whose body translator leaves the scopes it is not given
alone writes to the defining scope only: no address is freed, and every other live scope
holds the overloads it held. -/
theorem function_keeps_other_scopes (env : collaborators)
    (hkeeps : keeps_other_scopes env.translate) (input : List parse.cell)
    (outer_scope : Nat) (h : heap) :
    h.next ≤ (function env input outer_scope h).2.next
    ∧ ∀ q name, q < h.next → q ≠ outer_scope →
        overloads (function env input outer_scope h).2 q name = overloads h q name := by
  cases hd : function_declare env input outer_scope h with
  | mk r h4 =>
    cases r with
    | error e =>
      have hfun : function env input outer_scope h = (.error e, h4) := by
        simp only [function, hd]
      rw [hfun]
      exact ⟨function_declare_error_next env input outer_scope h h4 e hd,
        fun q name hq _ =>
          function_declare_error_overloads env input outer_scope h h4 e hd q hq name⟩
    | ok d =>
      have hfun : function env input outer_scope h
          = function_finish env outer_scope d
              (env.translate (input.drop forms_required) d.nested_scope d.return_type h4) := by
        simp only [function, hd, function_define]
      obtain ⟨_, _, hnested, _, _, _, hh4⟩ := function_declare_ok env input outer_scope h h4 d hd
      have hnext4 : h4.next = h.next + 1 := by
        rw [hh4]
        rfl
      have hover4 : ∀ q name, q < h.next → q ≠ outer_scope →
          overloads h4 q name = overloads h q name := by
        intro q name hq hne
        rw [hh4, overloads_assign_other_scope _ _ _ _ _ _ hne, overloads_index,
          overloads_heap_checked _ _ _ _ _ _ hq]
      obtain ⟨hnext5, hover5⟩ := hkeeps (input.drop forms_required) d.nested_scope
        d.return_type h4 (by rw [hnested, hnext4]; exact Nat.lt_succ_self _)
      obtain ⟨hnext6, hover6⟩ := function_finish_heap env outer_scope d
        (env.translate (input.drop forms_required) d.nested_scope d.return_type h4)
      rw [hfun]
      refine ⟨?_, ?_⟩
      · rw [hnext6]
        omega
      · intro q name hq hne
        rw [hover6 q name hne, hover5 q name (by omega) (by rw [hnested]; omega),
          hover4 q name hq hne]

/-- The heap `handle_functions` leaves. -/
theorem handle_functions_keeps (env : collaborators)
    (hkeeps : keeps_other_scopes env.translate) (list : List parse.cell)
    (translated : function_body) (scope : Nat) (h : heap)
    (hscope : translated.scope = some scope) :
    h.next ≤ (handle_functions env list translated h).2.next
    ∧ ∀ q name, q < h.next → q ≠ scope →
        overloads (handle_functions env list translated h).2 q name = overloads h q name := by
  have hsame : (handle_functions env list translated h).2 = h
      ∨ (handle_functions env list translated h).2 = (function env list scope h).2 := by
    cases list with
    | nil =>
      left
      simp only [handle_functions]
    | cons c rest =>
      cases c with
      | ident keyword =>
        by_cases hk : keyword = "func"
        · right
          simp only [handle_functions, hscope, hk, if_true]
          split <;> (rename_i hcall; rw [hcall])
        · left
          simp only [handle_functions, hscope, hk, if_false]
      | _ =>
        left
        simp only [handle_functions]
  rcases hsame with hh | hh
  · rw [hh]
    exact ⟨Nat.le_refl _, fun _ _ _ _ => rfl⟩
  · rw [hh]
    exact function_keeps_other_scopes env hkeeps list scope h

/-- The heap `translate` of translate.hpp leaves after one cell, with the handler
`handle_functions`. -/
theorem translate_cell_keeps (env : collaborators)
    (hkeeps : keeps_other_scopes env.translate)
    (find : heap → Nat → String → Option (List function_definition)) (scope : Nat)
    (c : parse.cell) (translated : function_body) (h : heap)
    (hscope : translated.scope = some scope) :
    h.next ≤ (translate_cell (handle_functions env) find (some scope) c translated h).2.next
    ∧ ∀ q name, q < h.next → q ≠ scope →
        overloads (translate_cell (handle_functions env) find (some scope) c translated h).2
          q name = overloads h q name := by
  have hsame : (translate_cell (handle_functions env) find (some scope) c translated h).2 = h
      ∨ ∃ list, (translate_cell (handle_functions env) find (some scope) c translated h).2
          = (handle_functions env list translated h).2 := by
    unfold translate_cell
    split
    · split
      · exact Or.inl rfl
      · rename_i list _
        right
        refine ⟨list, ?_⟩
        split
        · rename_i hcall
          rw [hcall]
        · rename_i hcall
          rw [hcall]
          simp only
          repeat' split
          all_goals rfl
    · exact Or.inl rfl
  rcases hsame with hh | ⟨list, hh⟩
  · rw [hh]
    exact ⟨Nat.le_refl _, fun _ _ _ _ => rfl⟩
  · rw [hh]
    exact handle_functions_keeps env hkeeps list translated scope h hscope

theorem translate_each_keeps (env : collaborators)
    (hkeeps : keeps_other_scopes env.translate)
    (find : heap → Nat → String → Option (List function_definition)) (scope : Nat)
    (range : List parse.cell) (translated : function_body) (h : heap)
    (hscope : translated.scope = some scope) :
    h.next ≤ (translate_each (handle_functions env) find (some scope) range translated h).2.next
    ∧ ∀ q name, q < h.next → q ≠ scope →
        overloads (translate_each (handle_functions env) find (some scope) range translated h).2
          q name = overloads h q name := by
  induction range generalizing translated h with
  | nil => exact ⟨Nat.le_refl _, fun _ _ _ _ => rfl⟩
  | cons c rest ih =>
    obtain ⟨hnext1, hover1⟩ :=
      translate_cell_keeps env hkeeps find scope c translated h hscope
    unfold translate_each
    split
    · rename_i e h1 hcell
      rw [hcell] at hnext1 hover1
      exact ⟨hnext1, hover1⟩
    · rename_i translated1 h1 hcell
      rw [hcell] at hnext1 hover1
      simp only at hnext1 hover1
      have hscope1 : translated1.scope = some scope := by
        rw [translate_cell_scope _ find (some scope) c translated translated1 h h1 hcell]
        exact hscope
      obtain ⟨hnext2, hover2⟩ := ih translated1 h1 hscope1
      refine ⟨by omega, ?_⟩
      intro q name hq hne
      rw [hover2 q name (by omega) hne, hover1 q name hq hne]

/-- The body translator of the examples leaves the scopes it is not given alone when the
translator of the definitions nested in the body does. -/
theorem translate_body_keeps (env : collaborators)
    (hkeeps : keeps_other_scopes env.translate) :
    keeps_other_scopes (translate_body env) := by
  intro range scope return_type h _
  have hheap : (translate_body env range scope return_type h).2
      = (translate (handle_functions env) (find_function 8) range (some scope) h).2 := by
    unfold translate_body
    split <;> (rename_i hcall; rw [hcall])
  rw [hheap]
  unfold translate
  split
  · exact ⟨Nat.le_refl _, fun _ _ _ _ => rfl⟩
  · exact translate_each_keeps env hkeeps (find_function 8) scope range _ h rfl

/-- The collaborators `nested base depth` have a body translator that leaves the scopes
it is not given alone, at every depth, when `base` has one. -/
theorem nested_keeps (base : collaborators) (hbase : keeps_other_scopes base.translate)
    (depth : Nat) : keeps_other_scopes (nested base depth).translate := by
  induction depth with
  | zero => exact hbase
  | succ depth ih => exact translate_body_keeps (nested base depth) ih

theorem env_keeps : keeps_other_scopes example_run.env.translate := by
  intro range scope return_type h _
  exact ⟨Nat.le_refl _, fun _ _ _ _ => rfl⟩

/-- The translation of the body of a definition leaves the overloads of the defining
scope as they were when the body translator leaves the scopes it is not given alone: the
body is translated in the nested scope. -/
theorem function_body_keeps_outer (env : collaborators)
    (hkeeps : keeps_other_scopes env.translate) (input : List parse.cell)
    (outer_scope : Nat) (h h4 : heap) (d : declared) (hlive : outer_scope < h.next)
    (hd : function_declare env input outer_scope h = (.ok d, h4)) (name : String) :
    overloads (env.translate (input.drop forms_required) d.nested_scope d.return_type h4).2
      outer_scope name = overloads h4 outer_scope name := by
  obtain ⟨_, _, hnested, _, _, _, hh4⟩ := function_declare_ok env input outer_scope h h4 d hd
  have hnext4 : h4.next = h.next + 1 := by
    rw [hh4]
    rfl
  exact (hkeeps (input.drop forms_required) d.nested_scope d.return_type h4
    (by rw [hnested, hnext4]; exact Nat.lt_succ_self _)).2 outer_scope name (by omega)
    (by rw [hnested]; omega)

end frame

/-! ## Claims on the failures and the effect of `special::function` -/

section function_claims_4

open environment.special example_run

/-- C2, amended: a failure of `special::function` before the forward declaration is made
leaves the overloads of the defining scope under every name as they were.  A failure
afterwards (in the translation, validation or deduction of the body) comes when the
forward declaration, with its empty body, is the last overload under the name, and
`special::function` undoes nothing: every scope holds the overloads the body translator
left; so when the translation of this body has left the overloads of the defining scope
alone, the forward declaration stays as the last overload under the name and every other
overload is as it was. -/
theorem function_failure_effect (env : collaborators) (input : List parse.cell)
    (outer_scope : Nat) (h h1 : heap) (e : error)
    (hlive : outer_scope < h.next)
    (hf : function env input outer_scope h = (.error e, h1)) :
    (function_declare env input outer_scope h = (.error e, h1)
      ∧ ∀ name, overloads h1 outer_scope name = overloads h outer_scope name)
    ∨ (∃ d h4, function_declare env input outer_scope h = (.ok d, h4)
        ∧ overloads h4 outer_scope d.name = overloads h outer_scope d.name ++ [d.declaration]
        ∧ d.declaration.body = function_body.empty
        ∧ (∀ name, name ≠ d.name →
            overloads h4 outer_scope name = overloads h outer_scope name)
        ∧ (∀ q name, overloads h1 q name
            = overloads
                (env.translate (input.drop forms_required) d.nested_scope d.return_type h4).2
                q name)
        ∧ ((∀ name,
              overloads
                (env.translate (input.drop forms_required) d.nested_scope d.return_type h4).2
                outer_scope name = overloads h4 outer_scope name) →
            overloads h1 outer_scope d.name
              = overloads h outer_scope d.name ++ [d.declaration]
            ∧ ∀ name, name ≠ d.name →
                overloads h1 outer_scope name = overloads h outer_scope name)) := by
  unfold function at hf
  split at hf
  · rename_i e1 h2 hd
    simp only [Prod.mk.injEq, Except.error.injEq] at hf
    rw [hf.1, hf.2] at hd
    exact Or.inl ⟨hd, fun name =>
      function_declare_error_overloads env input outer_scope h h1 e hd outer_scope hlive name⟩
  · rename_i d h4 hd
    obtain ⟨_, hsame⟩ := function_define_error env input outer_scope d h4 h1 e hf
    obtain ⟨hown, hother⟩ := function_declare_overloads env input outer_scope h h4 d hd hlive
    refine Or.inr ⟨d, h4, hd, hown, rfl, hother, hsame, ?_⟩
    intro hbody
    constructor
    · rw [hsame, hbody, hown]
    · intro name hne
      rw [hsame, hbody, hother name hne]

/-- Witness of the amended C2: `(func f (a int) (int) (func g))` fails in the translation
of its body, where the definition of two forms is refused, and leaves the forward
declaration of `f` in the root scope, which held nothing under `f`. -/
theorem function_failure_effect_witness :
    (function (nested example_run.env 1) define_f_with_short_g 0 root_heap).1
      = .error (.syntax_exception "invalid function definition")
    ∧ overloads (function (nested example_run.env 1) define_f_with_short_g 0 root_heap).2 0 "f"
      = overloads root_heap 0 "f" ++ [declared_f.declaration] := by
  refine ⟨rfl, ?_⟩
  rcases function_failure_effect (nested example_run.env 1) define_f_with_short_g 0 root_heap
    (function (nested example_run.env 1) define_f_with_short_g 0 root_heap).2
    (.syntax_exception "invalid function definition") (by decide) rfl with
    ⟨hd, _⟩ | ⟨d, h4, hd, _, _, _, _, hkept⟩
  · exact absurd (congrArg Prod.fst hd) (by
      change ¬ ((function_declare (nested example_run.env 1) define_f_with_short_g 0
        root_heap).1 = _)
      rw [show (function_declare (nested example_run.env 1) define_f_with_short_g 0
        root_heap).1 = .ok declared_f from rfl]
      simp)
  · have hdecl : d = declared_f := by
      have h1 : (function_declare (nested example_run.env 1) define_f_with_short_g 0
          root_heap).1 = .ok declared_f := rfl
      rw [hd] at h1
      simpa using h1
    subst hdecl
    exact (hkept (fun name => function_body_keeps_outer (nested example_run.env 1)
      (nested_keeps example_run.env env_keeps 1) define_f_with_short_g 0 root_heap h4
      declared_f (by decide) hd name)).1

/-- C3: once the name and the arguments of a definition are read, `special::function`
fails with the overload error `multiple definition of: <name>` when the defining scope
itself holds an overload of that name with equal argument definitions; when the defining
scope holds none, whatever the ancestor scopes hold, its overload check passes: if the
call fails at all, the exception is that of a form of the wrong type or of an empty
vector of return types, or the one a function it called ended with. -/
theorem function_overload_error (env : collaborators) (input : List parse.cell)
    (outer_scope : Nat) (h : heap) (name : String) (args : List parse.cell)
    (arg_definitions : List argument_definition)
    (hlive : outer_scope < h.next)
    (hsize : forms_required ≤ input.length)
    (hname : expect_type_ident (input.getD 1 default) = .ok name)
    (hargs : expect_type_list (input.getD 2 default) = .ok args)
    (hparse : env.parse_types args h.next (h.make_shared (some outer_scope)).2
      = .ok arg_definitions) :
    ((∃ overload ∈ overloads h outer_scope name, overload.arguments = arg_definitions) →
      (function env input outer_scope h).1
        = .error (.type_overload ("multiple definition of: " ++ name)))
    ∧ ((∀ overload ∈ overloads h outer_scope name, overload.arguments ≠ arg_definitions) →
        ∀ e h1, function env input outer_scope h = (.error e, h1) →
          e = .unexpected_type ∨ e = .undefined_behaviour
            ∨ raised_by_call env input outer_scope h e) := by
  have hlen : ¬ input.length < forms_required := Nat.not_lt.mpr hsize
  constructor
  · intro hex
    have hover : has_overload
        (index_function_definitions (heap_bound h outer_scope arg_definitions)
          outer_scope name).1 arg_definitions = true := by
      rw [index_function_definitions_fst, has_overload_eq_true,
        overloads_heap_bound _ _ _ _ _ hlive]
      exact hex
    unfold heap_bound at hover
    simp only [heap.make_shared] at hparse hover
    unfold function function_declare
    simp only [hlen, if_false, hname, hargs, heap.make_shared, hparse, hover, if_true]
  · intro hnone e h1 hf
    rcases function_error_origin env input outer_scope h h1 e hf with
      ⟨hlt, _⟩ | ⟨_, hun | hub | ⟨n, a, defs, hn, ha, hp, hov, _⟩ | hcall⟩
    · exact absurd hlt hlen
    · exact Or.inl hun
    · exact Or.inr (Or.inl hub)
    · rw [hname] at hn
      rw [hargs] at ha
      simp only [Except.ok.injEq] at hn ha
      subst hn
      subst ha
      rw [hparse] at hp
      simp only [Except.ok.injEq] at hp
      subst hp
      rw [has_overload_eq_true, overloads_heap_bound _ _ _ _ _ hlive] at hov
      obtain ⟨overload, hmem, heq⟩ := hov
      exact absurd heq (hnone overload hmem)
    · exact Or.inr (Or.inr hcall)

/-- Witness of C3: in `family_heap` the root holds `f` with the arguments of `define_f`.
Defining `f` again in the root fails with the overload error; defining it in the child
scope at address 2, which resolves `f` through its parent only, succeeds; so does the
definition of `g` in the root whose body defines `f`, in the nested scope at address 3,
from which the `f` of the root is resolved; and a definition of `f` in the child at
address 2 whose body defines `g` twice fails with the overload error of `g`, which the
translation of its body ended with. -/
theorem function_overload_error_witness :
    (function example_run.env define_f 0 family_heap).1
      = .error (.type_overload "multiple definition of: f")
    ∧ find_function 8 family_heap 2 "f" = some [defined_f 1]
    ∧ overloads family_heap 2 "f" = []
    ∧ (function example_run.env define_f 2 family_heap).1
      = .ok (cell.function_definition (defined_f 3))
    ∧ find_function 8
        (function_declare (nested example_run.env 1) define_g_with_f 0 family_heap).2 3 "f"
      = some [defined_f 1]
    ∧ overloads (function (nested example_run.env 1) define_g_with_f 0 family_heap).2 3 "f"
      = [defined_f 4]
    ∧ (function (nested example_run.env 1) define_f_with_two_g 2 family_heap).1
      = .error (.type_overload "multiple definition of: g")
    ∧ (error.type_overload "multiple definition of: g" = .unexpected_type
      ∨ error.type_overload "multiple definition of: g" = .undefined_behaviour
      ∨ raised_by_call (nested example_run.env 1) define_f_with_two_g 2 family_heap
          (.type_overload "multiple definition of: g")) := by
  have hroot : overloads family_heap 0 "f" = [defined_f 1] := rfl
  have hchild : overloads family_heap 2 "f" = [] := rfl
  refine ⟨?_, rfl, hchild, rfl, rfl, rfl, rfl, ?_⟩
  · exact (function_overload_error example_run.env define_f 0 family_heap "f"
      [.ident "a", .ident "int"] [{ name := "a", type := "int" }]
      (by decide) (by decide) rfl rfl rfl).1 ⟨defined_f 1, by rw [hroot]; simp, rfl⟩
  · exact (function_overload_error (nested example_run.env 1) define_f_with_two_g 2
      family_heap "f" [.ident "a", .ident "int"] [{ name := "a", type := "int" }]
      (by decide) (by decide) rfl rfl rfl).2
      (by
        intro overload hmem
        rw [hchild] at hmem
        simp at hmem)
      _ (function (nested example_run.env 1) define_f_with_two_g 2 family_heap).2 rfl

/-- C4: when `special::function` succeeds and the translation of the body of this
definition, which is made in the nested scope, has left the overloads of the defining
scope as the declaring phase left them, the defining scope holds one more overload under
the function's name, the returned definition, after the ones it held; the return type of
that definition is the one of the deduced body; the overloads under every other name are
unchanged. -/
theorem function_success_effect (env : collaborators) (input : List parse.cell)
    (outer_scope : Nat) (h h6 : heap) (c : cell)
    (hlive : outer_scope < h.next)
    (hbody : ∀ d h4, function_declare env input outer_scope h = (.ok d, h4) → ∀ name,
      overloads (env.translate (input.drop forms_required) d.nested_scope d.return_type h4).2
        outer_scope name = overloads h4 outer_scope name)
    (hf : function env input outer_scope h = (.ok c, h6)) :
    ∃ ret validated translated,
      c = cell.function_definition ret
      ∧ expect_type_ident (input.getD 1 default) = .ok ret.name
      ∧ overloads h6 outer_scope ret.name = overloads h outer_scope ret.name ++ [ret]
      ∧ (overloads h6 outer_scope ret.name).length
          = (overloads h outer_scope ret.name).length + 1
      ∧ (overloads h6 outer_scope ret.name).getLast? = some ret
      ∧ env.ret_validate translated = .ok validated
      ∧ env.ret_deduce validated = .ok ret.body
      ∧ ret.return_type = ret.body.return_type
      ∧ ∀ name, name ≠ ret.name →
          overloads h6 outer_scope name = overloads h outer_scope name := by
  unfold function at hf
  split at hf
  · simp at hf
  · rename_i d h4 hd
    obtain ⟨body, h5, validated, deduced, htr, hval, hded, _, hc, hh6⟩ :=
      function_define_ok env input outer_scope d h4 h6 c hf
    obtain ⟨hown, hother⟩ := function_declare_overloads env input outer_scope h h4 d hd hlive
    obtain ⟨_, hname, _⟩ := function_declare_ok env input outer_scope h h4 d hd
    have hh5 : ∀ name, overloads h5 outer_scope name = overloads h4 outer_scope name := by
      intro name
      have hfr := hbody d h4 hd name
      rw [htr] at hfr
      exact hfr
    have hlast : overloads h6 outer_scope d.name
        = overloads h outer_scope d.name ++
          [{ name := d.name, arguments := d.arg_definitions,
             return_type := deduced.return_type, body := deduced,
             scope := some d.nested_scope }] := by
      rw [hh6, overloads_assign_same, hh5, hown]
      simp
    refine ⟨_, validated, body, hc, hname, hlast, ?_, ?_, hval, hded, rfl, ?_⟩
    · rw [hlast]
      simp
    · rw [hlast]
      simp
    · intro name hne
      rw [hh6, overloads_assign_other_name _ _ _ _ _ _ hne, overloads_index, hh5,
        hother name hne]

/-- Witness of C4: `(func f (a int) (int) (func g () ()))`, whose body defines `g`, is
defined in the root scope: the root gains the one overload of `f`, and nothing under
`g`, which is defined in the nested scope. -/
theorem function_success_effect_witness :
    (∃ ret, (function (nested example_run.env 1) define_f_with_g 0 root_heap).1
        = .ok (cell.function_definition ret)
      ∧ overloads (function (nested example_run.env 1) define_f_with_g 0 root_heap).2 0 "f"
          = overloads root_heap 0 "f" ++ [ret]
      ∧ ret.body.cells.length = 1)
    ∧ overloads (function (nested example_run.env 1) define_f_with_g 0 root_heap).2 0 "g"
        = overloads root_heap 0 "g"
    ∧ (overloads (function (nested example_run.env 1) define_f_with_g 0 root_heap).2 1
        "g").length = 1 := by
  have hrun : function (nested example_run.env 1) define_f_with_g 0 root_heap
      = ((function (nested example_run.env 1) define_f_with_g 0 root_heap).1,
         (function (nested example_run.env 1) define_f_with_g 0 root_heap).2) := rfl
  cases hr : (function (nested example_run.env 1) define_f_with_g 0 root_heap).1 with
  | error e =>
    have hok : ((function (nested example_run.env 1) define_f_with_g 0 root_heap).1.toOption.isSome)
        = true := rfl
    rw [hr] at hok
    simp [Except.toOption] at hok
  | ok c =>
    rw [hr] at hrun
    obtain ⟨ret, validated, translated, hc, hname, hown, _, _, _, hded, _, hother⟩ :=
      function_success_effect (nested example_run.env 1) define_f_with_g 0 root_heap
        (function (nested example_run.env 1) define_f_with_g 0 root_heap).2 c (by decide)
        (fun d h4 hd name => function_body_keeps_outer (nested example_run.env 1)
          (nested_keeps example_run.env env_keeps 1) define_f_with_g 0 root_heap h4 d
          (by decide) hd name) hrun
    have hf : ret.name = "f" := by
      have h1 : expect_type_ident (define_f_with_g.getD 1 default) = .ok "f" := rfl
      rw [hname] at h1
      simpa using h1
    have hcells : ((function (nested example_run.env 1) define_f_with_g 0
        root_heap).1.toOption.map (fun c => match c with
          | cell.function_definition data => data.body.cells.length
          | cell.function_body data => data.cells.length)) = some 1 := rfl
    rw [hr, hc] at hcells
    simp only [Except.toOption, Option.map_some', Option.some.injEq] at hcells
    refine ⟨⟨ret, by rw [hc], ?_, hcells⟩, ?_, rfl⟩
    · rw [← hf]
      exact hown
    · exact hother "g" (by rw [hf]; decide)

/-- C7, as stated, fails: `(func f (a int) (int) (func g))` has 5 forms, and with the
definitions nested in a body sent to `special::function` the call ends with the syntax
error `invalid function definition`, which the definition of two forms in its body
raises. -/
theorem function_nested_invalid_definition :
    define_f_with_short_g.length = 5
    ∧ (function (nested example_run.env 1) define_f_with_short_g 0 root_heap).1
        = .error (.syntax_exception "invalid function definition")
    ∧ (function example_run.env [.ident "func", .ident "g"] 1
        (function_declare (nested example_run.env 1) define_f_with_short_g 0 root_heap).2).1
        = .error (.syntax_exception "invalid function definition") :=
  ⟨rfl, rfl, rfl⟩

/-- C7, amended: `special::function` throws the syntax error `invalid function
definition`, and leaves the heap as it is, for every input of fewer than 4 forms; for an
input of 4 forms or more, an empty body included, its check of the number of forms
passes, and when the call still ends with that error, a function it called ended with
it: the parser of the arguments or of the return types, or the translation, validation
or deduction of the body. -/
theorem function_invalid_definition (env : collaborators) (input : List parse.cell)
    (outer_scope : Nat) (h : heap) :
    (input.length < 4 →
      function env input outer_scope h
        = (.error (.syntax_exception "invalid function definition"), h))
    ∧ (4 ≤ input.length → ∀ h1,
        function env input outer_scope h
          = (.error (.syntax_exception "invalid function definition"), h1) →
        raised_by_call env input outer_scope h
          (.syntax_exception "invalid function definition")) := by
  constructor
  · intro hlt
    have hlen : input.length < forms_required := hlt
    unfold function function_declare
    simp only [hlen, if_true]
  · intro hge h1 hf
    have hlen : ¬ input.length < forms_required := Nat.not_lt.mpr hge
    rcases function_error_origin env input outer_scope h h1 _ hf with
      ⟨hlt, _⟩ | ⟨_, hun | hub | ⟨_, _, _, _, _, _, _, hmsg⟩ | hcall⟩
    · exact absurd hlt hlen
    · simp at hun
    · simp at hub
    · simp at hmsg
    · exact hcall

/-- Witness of the amended C7: `(func f (a int))` has 3 forms and is refused;
`(func f (a int) (int))` has 4 forms, no body, and is defined; and the error that
`(func f (a int) (int) (func g))` ends with comes from a call. -/
theorem function_invalid_definition_witness :
    function example_run.env (define_f.take 3) 0 root_heap
      = (.error (.syntax_exception "invalid function definition"), root_heap)
    ∧ (function example_run.env define_f 0 root_heap).1
      = .ok (cell.function_definition (defined_f 1))
    ∧ raised_by_call (nested example_run.env 1) define_f_with_short_g 0 root_heap
        (.syntax_exception "invalid function definition") :=
  ⟨(function_invalid_definition example_run.env (define_f.take 3) 0 root_heap).1 (by decide),
   rfl,
   (function_invalid_definition (nested example_run.env 1) define_f_with_short_g 0
     root_heap).2 (by decide)
     (function (nested example_run.env 1) define_f_with_short_g 0 root_heap).2 rfl⟩

end function_claims_4

/-! ## Repeated parameter names -/

section parameter_names

open environment.special example_run

end parameter_names

end translate

/-! ## The elements of a range -/

namespace runtime
namespace obj

/-- C23, as stated, fails.  The range from 5 to 3 in steps of 1 gives the element 5,
which is not below the end, while no value `5 + k * 1` is below 3.  And with the sum of
64-bit integers the range from `2^63 - 2` to `2^63 - 1` in steps of 2, whose only value
below the end is its start, has a successor, which starts at `-2^63`, and its
enumeration has not ended after 8 calls of `next()`. -/
theorem range_start_not_below_end :
    (range.elements integers 1 (range.create empty_heap 5 3 1).2 0 = some [5]
      ∧ range.elements native_integers 1 (range.create empty_heap 5 3 1).2 0 = some [5]
      ∧ ∀ k : Nat, ¬ ((5 : Int) + k * 1 < 3))
    ∧ ((range.next native_integers
          (range.create empty_heap (2 ^ 63 - 2) (2 ^ 63 - 1) 2).2 0).1 = some 1
      ∧ ((range.next native_integers
          (range.create empty_heap (2 ^ 63 - 2) (2 ^ 63 - 1) 2).2 0).2.deref 1).start
          = -(2 ^ 63)
      ∧ range.elements native_integers 8
          (range.create empty_heap (2 ^ 63 - 2) (2 ^ 63 - 1) 2).2 0 = none
      ∧ ∀ k : Nat, (2 ^ 63 - 2 : Int) + k * 2 < 2 ^ 63 - 1 → k = 0) := by
  refine ⟨⟨by decide, by decide, ?_⟩, by decide, by decide, by decide, ?_⟩
  · intro k
    omega
  · intro k hk
    omega

/-- C23, amended: for all integers `start`, `end` and `step` with `step > 0` and
`start < end`, the elements obtained from `range(start, end, step)` by `first()` and then
`next()` until it returns the null pointer are exactly the values `start + k * step`
below `end`, in increasing order, and finitely many, when the sum is the exact sum of
the integers, and also when it is the sum of 64-bit integers, `start` is at least
`-2^63` and `end + step` is at most `2^63`, so that no sum wraps around.  When
`end ≤ start` the only element is `start`, with the exact sum, and with the sum of 64-bit
integers when `start + step` is a 64-bit integer. -/
theorem range_elements (h : range_heap Int) (start end_ step : Int) (hstep : 0 < step) :
    (start < end_ →
      (∀ fuel, range.count start end_ step ≤ fuel →
        range.elements integers fuel (range.create h start end_ step).2 h.size
          = some (range.multiples start step (range.count start end_ step)))
      ∧ (-(2 ^ 63) ≤ start → end_ + step ≤ 2 ^ 63 →
          ∀ fuel, range.count start end_ step ≤ fuel →
            range.elements native_integers fuel (range.create h start end_ step).2 h.size
              = some (range.multiples start step (range.count start end_ step)))
      ∧ (∀ v, v ∈ range.multiples start step (range.count start end_ step)
          ↔ ∃ k : Nat, v = start + k * step ∧ v < end_)
      ∧ (range.multiples start step (range.count start end_ step)).Pairwise
          (fun a b => a < b))
    ∧ (end_ ≤ start →
        (∀ fuel, 1 ≤ fuel →
          range.elements integers fuel (range.create h start end_ step).2 h.size
            = some [start])
        ∧ (-(2 ^ 63) ≤ start + step → start + step < 2 ^ 63 → ∀ fuel, 1 ≤ fuel →
            range.elements native_integers fuel (range.create h start end_ step).2 h.size
              = some [start])) := by
  have hexact := elements_of_exact_sum integers h start end_ step (fun _ _ => rfl)
    (fun _ _ _ => rfl) hstep
  constructor
  · intro hstart
    obtain ⟨helem, hmem, hincr⟩ := hexact.1 hstart
    refine ⟨helem, ?_, hmem, hincr⟩
    intro hlow hhigh
    exact ((elements_of_exact_sum native_integers h start end_ step (fun _ _ => rfl)
      (fun v hv hbelow => native_add_exact v step (by omega) (by omega)) hstep).1 hstart).1
  · intro hge
    refine ⟨hexact.2 hge, ?_⟩
    intro hlow hhigh
    exact (elements_of_exact_sum native_integers h start end_ step (fun _ _ => rfl)
      (fun v hv hbelow => native_add_exact v step (by omega) (by omega)) hstep).2 hge

/-- Witness of the amended C23: the range from 0 to 10 in steps of 3 gives 0, 3, 6 and 9,
with the exact sum and with the sum of 64-bit integers; the range from 5 to 3 gives 5. -/
theorem range_elements_witness :
    range.elements integers 4 (range.create empty_heap 0 10 3).2 0 = some [0, 3, 6, 9]
    ∧ range.elements native_integers 4 (range.create empty_heap 0 10 3).2 0
        = some [0, 3, 6, 9]
    ∧ range.elements integers 1 (range.create empty_heap 5 3 1).2 0 = some [5]
    ∧ range.elements native_integers 1 (range.create empty_heap 5 3 1).2 0 = some [5] :=
  ⟨((range_elements empty_heap 0 10 3 (by decide)).1 (by decide)).1 4 (by decide),
    ((range_elements empty_heap 0 10 3 (by decide)).1 (by decide)).2.1 (by decide)
      (by decide) 4 (by decide),
    ((range_elements empty_heap 5 3 1 (by decide)).2 (by decide)).1 1 (by decide),
    ((range_elements empty_heap 5 3 1 (by decide)).2 (by decide)).2 (by decide) (by decide)
      1 (by decide)⟩

end obj
end runtime

/-! ## The subcommand of a command line -/

namespace util
namespace cli

theorem check_required_remaining (a : arguments) (extra : List String) :
    check_required { a with remaining := extra } = check_required a := rfl

theorem app_parse_remaining (opts : options) (a : arguments) (extra : List String) :
    app_parse opts { a with remaining := extra } = app_parse opts a := rfl

theorem parse_extra_opts (defaults opts : options) (exit : parse_error → Int) (a : arguments)
    (h : parse defaults exit a = .ok opts) : opts.extra_opts = a.remaining := by
  unfold parse at h
  split at h
  · simp at h
  · simp only [Nat.zero_le, if_true] at h
    repeat' split at h
    all_goals
      simp only [Except.ok.injEq] at h
      rw [← h]

theorem parse_succeeds_iff (defaults : options) (exit : parse_error → Int) (a : arguments) :
    (∃ opts, parse defaults exit a = .ok opts) ↔ ∃ parsed, app_parse defaults a = .ok parsed := by
  constructor
  · rintro ⟨opts, h⟩
    obtain ⟨parsed, hparsed, _⟩ := parse_ok defaults opts exit a h
    exact ⟨parsed, hparsed⟩
  · rintro ⟨parsed, hparsed⟩
    unfold parse
    rw [hparsed]
    simp only [Nat.zero_le, if_true]
    repeat' split
    all_goals exact ⟨_, rfl⟩

/-- C29, as stated, fails: on the command line `repl run x`, which names two
subcommands, `parse` returns options, with the command `repl` and with the words `run`
and `x` as the extra options. -/
theorem parse_keeps_second_subcommand_name :
    subcommand.name .repl = "repl"
    ∧ subcommand.name .run ∈ sample.repl_then_run.remaining
    ∧ parse sample.defaults sample.exit sample.repl_then_run
      = .ok { sample.defaults with command := .repl, extra_opts := ["run", "x"] } :=
  ⟨rfl, by decide, rfl⟩

/-- C29, amended: whenever `parse` returns options, the library has parsed exactly one
subcommand, `opts.command` is `run`, `compile`, `repl` or `run_main` according to whether
that subcommand is `run`, `compile`, `repl` or `run-main`, and the arguments that remain,
a further name of a subcommand among them, are the extra options; with no subcommand
`parse` returns an error; and the arguments that remain never decide whether `parse`
returns options or an error. -/
theorem parse_command (defaults : options) (exit : parse_error → Int) (a : arguments) :
    (∀ opts, parse defaults exit a = .ok opts →
      ∃ sub, a.subcommands = [sub] ∧ opts.command = sub.command
        ∧ opts.extra_opts = a.remaining)
    ∧ (a.subcommands = [] → ∃ code, parse defaults exit a = .error code)
    ∧ (∀ extra, (∃ opts, parse defaults exit a = .ok opts)
        ↔ ∃ opts, parse defaults exit { a with remaining := extra } = .ok opts) := by
  refine ⟨?_, ?_, ?_⟩
  · intro opts h
    obtain ⟨parsed, hparsed, _, hcommand⟩ := parse_ok defaults opts exit a h
    obtain ⟨_, _, hrequired, _⟩ := app_parse_ok defaults parsed a hparsed
    have hlen := check_required_ok a hrequired
    match hs : a.subcommands, hlen with
    | [sub], _ => exact ⟨sub, rfl, hcommand sub hs, parse_extra_opts defaults opts exit a h⟩
  · intro hnone
    cases hr : parse defaults exit a with
    | error code => exact ⟨code, rfl⟩
    | ok opts =>
      obtain ⟨parsed, hparsed, _, _⟩ := parse_ok defaults opts exit a hr
      obtain ⟨_, _, hrequired, _⟩ := app_parse_ok defaults parsed a hparsed
      have hlen := check_required_ok a hrequired
      rw [hnone] at hlen
      simp at hlen
  · intro extra
    rw [parse_succeeds_iff, parse_succeeds_iff]
    exact Iff.of_eq (congrArg (fun r => ∃ parsed, r = Except.ok parsed)
      (app_parse_remaining defaults a extra).symm)

/-- Witness of the amended C29: the command line `run-main app` gives the command
`run_main`, the command line `repl run x` the command `repl`, and a command line without
a subcommand gives an error. -/
theorem parse_command_witness :
    (∃ opts, parse sample.defaults sample.exit sample.run_main_app = .ok opts
      ∧ opts.command = .run_main)
    ∧ (∃ sub, sample.repl_then_run.subcommands = [sub]
        ∧ sub.command = .repl)
    ∧ ∃ code, parse sample.defaults sample.exit sample.nothing = .error code := by
  refine ⟨⟨{ sample.defaults with target_module := "app", command := .run_main }, rfl, rfl⟩,
    ?_, (parse_command sample.defaults sample.exit sample.nothing).2.1 rfl⟩
  obtain ⟨sub, hsub, hcommand, _⟩ :=
    (parse_command sample.defaults sample.exit sample.repl_then_run).1
      { sample.defaults with command := .repl, extra_opts := ["run", "x"] } rfl
  exact ⟨sub, hsub, hcommand.symm⟩

end cli
end util

end jank
